import Mathlib

/-!
# SDRangel: LoRa symbol decoder, interferometer correlator and LoRa demodulator sink

Shallow embedding of

* `plugins/channelrx/demodlora/lorademoddecoder.cpp` (symbol-to-text decoder),
* `plugins/channelmimo/interferometer/interferometercorr.cpp` (dual-channel correlator),
* `plugins/channelrx/demodlora/lorademodsink.cpp` (LoRa synchronization state machine),

followed by the properties established about them.

Conventions.  A C `char` value is an `Int`.  An `unsigned int` symbol is a `Nat`.
A `QByteArray` is the list of its bytes.  A `QString` built from a C string whose
bytes are all in `1..127` is the Lean `String` with the same code points.
-/

set_option autoImplicit false

namespace LoRaDemodDecoder

/-! ## Definitions: symbol-to-text decoder -/

/-- Table `LoRaDemodDecoder::ttyLetters[32]` (lorademoddecoder.cpp, lines 20-25).
The C escape for the NUL character is written `'\x00'`. -/
def ttyLetters : List Char := [
  '\x00', 'E',    '\n',   'A',    ' ',    'S',    'I',    'U',
  '\r',   'D',    'R',    'J',    'N',    'F',    'C',    'K',
  'T',    'Z',    'L',    'W',    'H',    'Y',    'P',    'Q',
  'O',    'B',    'G',    ' ',    'M',    'X',    'V',    ' ' ]

/-- Table `LoRaDemodDecoder::ttyFigures[32]`, U.S. standard (lorademoddecoder.cpp,
lines 27-32).  The C escapes for NUL, bell, apostrophe and double quote are written
`'\x00'`, `'\x07'`, `'\x27'` and `'\x22'`. -/
def ttyFigures : List Char := [
  '\x00', '3',    '\n',   '-',    ' ',    '\x07', '8',    '7',
  '\r',   '$',    '4',    '\x27', ',',    '!',    ':',    '(',
  '5',    '\x22', ')',    '2',    '#',    '6',    '0',    '1',
  '9',    '?',    '&',    ' ',    '.',    '/',    ';',    ' ' ]

/-- Enumeration `TTYState` of the decoder. -/
inductive TTYState where
  | TTYLetters
  | TTYFigures
  deriving DecidableEq, Repr

open TTYState

/-- Value of the C expression `table[i]` as a `char`, for a table of 32 entries. -/
def tableAt (table : List Char) (i : Nat) : Int :=
  ((table.getD i default).toNat : Int)

/-- Conversion `QString(bytes.toStdString().c_str())`: the C string ends at the first
NUL byte; every byte kept is read as one character. -/
def qstringOfCStr (bytes : List Int) : String :=
  String.mk ((bytes.takeWhile (fun b => b != 0)).map (fun b => Char.ofNat b.toNat))

/-- Body of the loop of `decodeSymbolsASCII` (line 71): `bytes.push_back(*it & 0x7F)`. -/
def asciiStep (bytes : List Int) (sym : Nat) : List Int :=
  bytes ++ [((sym &&& 0x7F : Nat) : Int)]

/-- The byte array built by the loop of `decodeSymbolsASCII` (lines 67-72). -/
def asciiBytes (symbols : List Nat) : List Int :=
  symbols.foldl asciiStep []

/-- Function `LoRaDemodDecoder::decodeSymbolsASCII` (lines 61-75).  The argument `str`
is the content of the output string before the call, the result its content after. -/
def decodeSymbolsASCII (m_nbSymbolBits : Nat) (symbols : List Nat) (str : String) : String :=
  if m_nbSymbolBits ≠ 7 then str
  else qstringOfCStr (asciiBytes symbols)

/-- Body of the loop of `decodeSymbolsTTY` (lines 88-110), acting on the pair of the
shift state and the byte array.  The constants `lettersTag` and `figuresTag` are
declared in `lorademoddecoder.h`, which is not among the sources: they are parameters. -/
def ttyStep (lettersTag figuresTag : Int) (acc : TTYState × List Int) (sym : Nat) :
    TTYState × List Int :=
  let ttyChar : Nat := sym &&& 0x1F
  if (ttyChar : Int) = lettersTag then (TTYLetters, acc.2)
  else if (ttyChar : Int) = figuresTag then (TTYFigures, acc.2)
  else
    let asciiChar : Int :=
      if acc.1 = TTYLetters then tableAt ttyLetters ttyChar
      else if acc.1 = TTYFigures then tableAt ttyFigures ttyChar
      else -1
    if asciiChar ≥ 0 then (acc.1, acc.2 ++ [asciiChar]) else acc

/-- The byte array built by the loop of `decodeSymbolsTTY` (lines 83-110). -/
def ttyBytes (lettersTag figuresTag : Int) (symbols : List Nat) : List Int :=
  (symbols.foldl (ttyStep lettersTag figuresTag) (TTYLetters, [])).2

/-- Function `LoRaDemodDecoder::decodeSymbolsTTY` (lines 77-113). -/
def decodeSymbolsTTY (lettersTag figuresTag : Int) (m_nbSymbolBits : Nat)
    (symbols : List Nat) (str : String) : String :=
  if m_nbSymbolBits ≠ 5 then str
  else qstringOfCStr (ttyBytes lettersTag figuresTag symbols)

/-! ### The decoder as the specification words it -/

/-- The low five bits of a symbol are the letters-shift or the figures-shift code. -/
def isShift (lettersTag figuresTag : Int) (sym : Nat) : Bool :=
  decide (((sym &&& 0x1F : Nat) : Int) = lettersTag) ||
    decide (((sym &&& 0x1F : Nat) : Int) = figuresTag)

/-- Entry of the table selected by a shift state. -/
def activeEntry (st : TTYState) (i : Nat) : Int :=
  match st with
  | TTYLetters => tableAt ttyLetters i
  | TTYFigures => tableAt ttyFigures i

/-- Specification of the TTY translation, in the words of the specification: a shift
symbol emits nothing and switches to its table, any other symbol gives the entry of the
active table at its low five bits. -/
def ttySpecEntries (lettersTag figuresTag : Int) : TTYState → List Nat → List Int
  | _, [] => []
  | st, sym :: rest =>
    if ((sym &&& 0x1F : Nat) : Int) = lettersTag then
      ttySpecEntries lettersTag figuresTag TTYLetters rest
    else if ((sym &&& 0x1F : Nat) : Int) = figuresTag then
      ttySpecEntries lettersTag figuresTag TTYFigures rest
    else activeEntry st (sym &&& 0x1F) :: ttySpecEntries lettersTag figuresTag st rest

/-- The text whose characters are the given character codes, one character per code. -/
def textOf (codes : List Int) : String :=
  String.mk (codes.map (fun b => Char.ofNat b.toNat))

/-- The table in force after the symbols `before`: Figures when the most recent shift
symbol among them is figures-shift, Letters when it is letters-shift or there is none. -/
def activeState (lettersTag figuresTag : Int) (before : List Nat) : TTYState :=
  match before.reverse.find? (isShift lettersTag figuresTag) with
  | some sym => if ((sym &&& 0x1F : Nat) : Int) = lettersTag then TTYLetters else TTYFigures
  | none => TTYLetters

/-- Position by position reading of the TTY translation: the symbol at position `j`,
when it is not a shift symbol, gives the entry of the table in force after the `j`
symbols before it. -/
def ttyByPosition (lettersTag figuresTag : Int) (symbols : List Nat) : List Int :=
  (List.range symbols.length).filterMap (fun j =>
    if isShift lettersTag figuresTag (symbols.getD j 0) then none
    else some (activeEntry (activeState lettersTag figuresTag (symbols.take j))
      (symbols.getD j 0 &&& 0x1F)))

end LoRaDemodDecoder

namespace InterferometerCorrelator

/-! ## Definitions: dual-channel correlator

The class `Sample` and its component type `FixedReal` (dsp/dsptypes.h), the FFT engine
(dsp/fftengine.h), the enumeration `CorrelationType` (interferometersettings.h) and the
member declarations of the correlator (interferometercorr.h) are not among the sources.
The component type is the parameter `R` with its own arithmetic, the results of the FFT
engine are the parameter `BlockEngine`, and the values of the members that the
constructor does not set are arguments of `construct`.  Sizes and counters are exact
integers (vectors are taken shorter than 2^31 samples). -/

/-- Class `Sample`: a real and an imaginary part of type `FixedReal`. -/
structure Sample (R : Type) where
  real : R
  imag : R
  deriving DecidableEq, Repr

/-- Enumeration `InterferometerSettings::CorrelationType`: the three values named by
`performCorr`, and any other value, which takes its `default` branch. -/
inductive CorrelationType where
  | CorrelationAdd
  | CorrelationMultiply
  | CorrelationCorrelation
  | CorrelationOther
  deriving DecidableEq, Repr

open CorrelationType

/-- Function `sAdd` (interferometercorr.cpp, lines 23-25). -/
def sAdd {R : Type} [Add R] (a b : Sample R) : Sample R :=
  ⟨a.real + b.real, a.imag + b.imag⟩

/-- Function `sMulConj` (lines 27-29). -/
def sMulConj {R : Type} [Add R] [Sub R] [Mul R] (a b : Sample R) : Sample R :=
  ⟨a.real * b.real + a.imag * b.imag, a.imag * b.real - a.real * b.imag⟩

/-- Results of the FFT engines for one block: sample `k` of the spectral product
(lines 111-162, after `cf2s`) and sample `k` of its inverse transform (lines 165-171,
after `cf2s`), for the blocks read from the two channels. -/
structure BlockEngine (R : Type) where
  spectrum : List (Sample R) → List (Sample R) → Nat → Sample R
  time : List (Sample R) → List (Sample R) → Nat → Sample R

/-- State of an `InterferometerCorrelator`: the members read or written by
`performCorr`. -/
structure Correlator (R : Type) where
  m_corrType : CorrelationType
  m_fftSize : Nat
  m_scorr : List (Sample R)
  m_tcorr : List (Sample R)
  m_scorrSize : Int
  m_tcorrSize : Int
  m_processed : Int
  m_remaining : Int
  deriving DecidableEq

/-- Result of a call: completion with a value, a write past the end of a vector, or a
loop that does not end. -/
inductive Outcome (α : Type) where
  | ok (value : α)
  | fault
  | diverge
  deriving DecidableEq

/-- Method `std::vector::resize(n)`: the first `n` elements, completed with
value-initialised samples. -/
def resize {R : Type} [Inhabited R] (v : List (Sample R)) (n : Nat) : List (Sample R) :=
  v.take n ++ List.replicate (n - v.length) ⟨default, default⟩

/-- Constructor `InterferometerCorrelator(int fftSize)` (lines 38-54).  It sets
`m_corrType` and `m_fftSize` and gives both result vectors `2*fftSize` elements; it sets
none of `m_scorrSize`, `m_tcorrSize`, `m_processed`, `m_remaining`, whose values after
construction are the last four arguments. -/
def construct {R : Type} [Inhabited R] (fftSize : Nat)
    (scorrSize tcorrSize processed remaining : Int) : Correlator R :=
  { m_corrType := CorrelationAdd
    m_fftSize := fftSize
    m_scorr := resize [] (2 * fftSize)
    m_tcorr := resize [] (2 * fftSize)
    m_scorrSize := scorrSize
    m_tcorrSize := tcorrSize
    m_processed := processed
    m_remaining := remaining }

/-- Inline setter `setCorrType` of the class. -/
def setCorrType {R : Type} (s : Correlator R) (corrType : CorrelationType) : Correlator R :=
  { s with m_corrType := corrType }

/-- Method `adjustSCorrSize` (lines 184-191). -/
def adjustSCorrSize {R : Type} [Inhabited R] (s : Correlator R) (size : Nat) : Correlator R :=
  if (size : Int) > s.m_scorrSize then
    { s with m_scorr := resize s.m_scorr size, m_scorrSize := size }
  else s

/-- Method `adjustTCorrSize` (lines 193-200). -/
def adjustTCorrSize {R : Type} [Inhabited R] (s : Correlator R) (size : Nat) : Correlator R :=
  if (size : Int) > s.m_tcorrSize then
    { s with m_tcorr := resize s.m_tcorr size, m_tcorrSize := size }
  else s

/-- Writing the values `vals` from the start of the vector `buf`, as `std::transform`
does with the output iterator `buf.begin()`: the vector must hold that many elements. -/
def writeFromBegin {α : Type} (buf vals : List α) : Option (List α) :=
  if vals.length ≤ buf.length then some (vals ++ buf.drop vals.length) else none

/-- Method `performOpCorr` (lines 84-99). -/
def performOpCorr {R : Type} [Inhabited R] (s : Correlator R)
    (data0 data1 : List (Sample R)) (sampleOp : Sample R → Sample R → Sample R) :
    Outcome (Correlator R) :=
  let size := min data0.length data1.length
  let s1 := adjustTCorrSize s size
  match writeFromBegin s1.m_tcorr (List.zipWith sampleOp (data0.take size) data1) with
  | some tcorr => Outcome.ok { s1 with m_tcorr := tcorr, m_processed := size, m_remaining := 0 }
  | none => Outcome.fault

/-- Loop of `performFFTCorr` (lines 109-177).  `size` is the variable of that name and
`done` the common offset of `begin0` and `begin1` from the start of the data; `fuel`
bounds the number of turns. -/
def fftLoop {R : Type} (eng : BlockEngine R) (data0 data1 : List (Sample R)) :
    Nat → Nat → Nat → Correlator R → Outcome (Nat × Nat × Correlator R)
  | 0, size, done, s =>
    if size > s.m_fftSize then Outcome.diverge else Outcome.ok (size, done, s)
  | fuel + 1, size, done, s =>
    if size > s.m_fftSize then
      let block0 := (data0.drop done).take s.m_fftSize
      let block1 := (data1.drop done).take s.m_fftSize
      match writeFromBegin s.m_scorr
          ((List.range (2 * s.m_fftSize)).map (eng.spectrum block0 block1)),
        writeFromBegin s.m_tcorr
          ((List.range (2 * s.m_fftSize)).map (eng.time block0 block1)) with
      | some scorr, some tcorr =>
        fftLoop eng data0 data1 fuel (size - s.m_fftSize) (done + s.m_fftSize)
          { s with m_scorr := scorr, m_tcorr := tcorr }
      | _, _ => Outcome.fault
    else Outcome.ok (size, done, s)

/-- Method `performFFTCorr` (lines 101-182).  The loop is given `size` turns, which is
enough whenever `m_fftSize` is at least 1. -/
def performFFTCorr {R : Type} [Inhabited R] (eng : BlockEngine R) (s : Correlator R)
    (data0 data1 : List (Sample R)) : Outcome (Correlator R) :=
  let size := min data0.length data1.length
  let s1 := adjustSCorrSize s size
  let s2 := adjustTCorrSize s1 size
  match fftLoop eng data0 data1 size size 0 s2 with
  | Outcome.ok (size', done, s3) =>
    Outcome.ok { s3 with m_processed := done, m_remaining := (size' : Int) - s3.m_fftSize }
  | Outcome.fault => Outcome.fault
  | Outcome.diverge => Outcome.diverge

/-- Method `performCorr` (lines 66-82). -/
def performCorr {R : Type} [Inhabited R] [Add R] [Sub R] [Mul R] (eng : BlockEngine R)
    (s : Correlator R) (data0 data1 : List (Sample R)) : Outcome (Correlator R) :=
  match s.m_corrType with
  | CorrelationAdd => performOpCorr s data0 data1 sAdd
  | CorrelationMultiply => performOpCorr s data0 data1 sMulConj
  | CorrelationCorrelation => performFFTCorr eng s data0 data1
  | CorrelationOther => Outcome.ok s

/-- A sequence of `performCorr` calls, each with its own mode set before the call and
its own pair of inputs; the states after each call that completed are collected, and
the sequence stops at the first call that does not complete. -/
def performCorrCalls {R : Type} [Inhabited R] [Add R] [Sub R] [Mul R] (eng : BlockEngine R) :
    Correlator R → List (CorrelationType × List (Sample R) × List (Sample R)) →
      List (Correlator R)
  | _, [] => []
  | s, (mode, data0, data1) :: rest =>
    match performCorr eng (setCorrType s mode) data0 data1 with
    | Outcome.ok s' => s' :: performCorrCalls eng s' rest
    | _ => []

/-- The engine whose results are all zero, used to evaluate the correlator on integer
samples. -/
def zeroEngine : BlockEngine Int :=
  { spectrum := fun _ _ _ => ⟨0, 0⟩, time := fun _ _ _ => ⟨0, 0⟩ }

end InterferometerCorrelator

namespace LoRaDemodSink

/-! ## Definitions: LoRa demodulator sink

Embedding of `plugins/channelrx/demodlora/lorademodsink.cpp`.  The class declaration
(lorademodsink.h), the settings (lorademodsettings.h), the message class
(lorademodmsg.h), the FFT engine, the FFT window, the moving averages and `CalcDb` are
not among the sources.

* Floating point numbers (`double`, `Real`) are the elements of a linearly ordered field
  `K`, with exact arithmetic.
* The constants `m_requiredPreambleChirps`, `m_maxSFDSearchChirps`, `m_sfdFourths` and
  `m_fftInterpolation` are the parameter `Consts`.
* The FFT engines are external: the samples written to their input buffers leave the
  sink and come back only as the bins read from `out()` once a block is complete.  These
  bins are inputs of a step (`StepIn`); the sink state keeps the indices `m_chirp` and
  `m_fftCounter` used for the writes, not the content of the engines' buffers.
* Counters and indices are exact integers; `1 << n` is `2^n`.
* Calls of `qDebug` and of the spectrum sink only output data and are left out. -/

/-- Type `Complex` (`std::complex`), with components in `K`. -/
structure Cplx (K : Type) where
  re : K
  im : K
  deriving DecidableEq, Repr

/-- The complex number zero, value of a value-initialised `Complex`. -/
def Cplx.zero {K : Type} [Zero K] : Cplx K := ⟨0, 0⟩

/-- Function `std::norm`: the squared modulus, in exact arithmetic.  The value that the
source computes for it in floating point is the parameter `norm` of `argmaxWith`. -/
def Cplx.norm {K : Type} [Add K] [Mul K] (c : Cplx K) : K :=
  c.re * c.re + c.im * c.im

/-- Function `std::conj`. -/
def Cplx.conj {K : Type} [Neg K] (c : Cplx K) : Cplx K :=
  ⟨c.re, -c.im⟩

/-- Local variables of the loop of `argmax`. -/
structure ArgmaxVars (K : Type) where
  magsqMax : K
  imax : Nat
  magSum : K
  specBuffer : Option (List (Cplx K))

/-- Body of the loop of `argmax` (lorademodsink.cpp, lines 488-506) for the index `i`.
The value `std::polar(magSum, 0.0)` is the complex number `(magSum, 0)`. -/
def argmaxStep {K : Type} [LinearOrderedField K] (fftBins : List (Cplx K)) (specDecim : Nat)
    (v : ArgmaxVars K) (i : Nat) : ArgmaxVars K :=
  let magsq := (fftBins.getD i Cplx.zero).norm
  let v1 : ArgmaxVars K :=
    if magsq > v.magsqMax then { v with imax := i, magsqMax := magsq } else v
  match v1.specBuffer with
  | none => v1
  | some buf =>
    let magSum := v1.magSum + magsq
    if i % specDecim = specDecim - 1 then
      { v1 with specBuffer := some (buf.set (i / specDecim) ⟨magSum, 0⟩), magSum := 0 }
    else { v1 with magSum := magSum }

/-- Method `LoRaDemodSink::argmax` (lines 475-510).  The local `imax` is declared
without a value: `imax0` is the value it holds before the loop.  The result is the index
returned, the value left in `magsqMax` and the content of the spectrum buffer (`none`
for a null pointer). -/
def argmax {K : Type} [LinearOrderedField K] (fftBins : List (Cplx K))
    (fftMult fftLength : Nat) (imax0 : Nat) (specBuffer : Option (List (Cplx K)))
    (specDecim : Nat) : Nat × K × Option (List (Cplx K)) :=
  let v := (List.range (fftMult * fftLength)).foldl (argmaxStep fftBins specDecim)
    { magsqMax := 0, imax := imax0, magSum := 0, specBuffer := specBuffer }
  (v.imax, v.magsqMax, v.specBuffer)

/-- Body of the loop of `argmax` (lines 488-506) for the index `i`, the value that
`std::norm` computes for a bin being given by the function `norm`.  The source computes
it in the floating point arithmetic of `Complex`; `argmaxStep` is the case of the exact
value `Cplx.norm`. -/
def argmaxStepWith {K : Type} [LinearOrderedField K] (norm : Cplx K → K)
    (fftBins : List (Cplx K)) (specDecim : Nat) (v : ArgmaxVars K) (i : Nat) :
    ArgmaxVars K :=
  let magsq := norm (fftBins.getD i Cplx.zero)
  let v1 : ArgmaxVars K :=
    if magsq > v.magsqMax then { v with imax := i, magsqMax := magsq } else v
  match v1.specBuffer with
  | none => v1
  | some buf =>
    let magSum := v1.magSum + magsq
    if i % specDecim = specDecim - 1 then
      { v1 with specBuffer := some (buf.set (i / specDecim) ⟨magSum, 0⟩), magSum := 0 }
    else { v1 with magSum := magSum }

/-- Method `LoRaDemodSink::argmax` (lines 475-510), the value that `std::norm` computes
for a bin being given by the function `norm`; `argmax` is the case of the exact value
`Cplx.norm`. -/
def argmaxWith {K : Type} [LinearOrderedField K] (norm : Cplx K → K)
    (fftBins : List (Cplx K)) (fftMult fftLength : Nat) (imax0 : Nat)
    (specBuffer : Option (List (Cplx K))) (specDecim : Nat) :
    Nat × K × Option (List (Cplx K)) :=
  let v := (List.range (fftMult * fftLength)).foldl (argmaxStepWith norm fftBins specDecim)
    { magsqMax := 0, imax := imax0, magSum := 0, specBuffer := specBuffer }
  (v.imax, v.magsqMax, v.specBuffer)

/-- Search of the binade of the single precision format that holds `n / d`, a rational
scaled by `2^149`: the least `j`, from the starting value on and within `fuel` steps,
with `n / d < 2^(24+j)`. -/
def binadeOf (n d : Nat) : Nat → Nat → Nat
  | 0, j => j
  | fuel + 1, j => if n < 2 ^ (24 + j) * d then j else binadeOf n d fuel (j + 1)

/-- Rounding of a rational `q` with `0 <= q < 2^128` to the nearest number of the single
precision format of `float` (24 significant bits, numbers spaced by `2^-149` below
`2^-125`), a tie going to the even significand.  With `t = q * 2^149`, the spacing of
the format around `q` is `2^j / 2^149`, where `j` is the least exponent with
`t < 2^(24+j)`. -/
def roundSingle (q : ℚ) : ℚ :=
  let n := q.num.toNat * 2 ^ 149
  let j := binadeOf n q.den 254 0
  let d := q.den * 2 ^ j
  let f := n / d
  let r := n % d
  let m := if 2 * r < d then f else if 2 * r > d then f + 1 else if f % 2 = 0 then f else f + 1
  ((m * 2 ^ j : Nat) : ℚ) / ((2 ^ 149 : Nat) : ℚ)

/-- Value that `std::norm` computes in single precision for a bin whose components are
single precision numbers: each product and the sum are rounded. -/
def normSingle (c : Cplx ℚ) : ℚ :=
  roundSingle (roundSingle (c.re * c.re) + roundSingle (c.im * c.im))

/-- Constants of the class that are declared in lorademodsink.h. -/
structure Consts where
  m_requiredPreambleChirps : Nat
  m_maxSFDSearchChirps : Nat
  m_sfdFourths : Nat
  m_fftInterpolation : Nat
  deriving DecidableEq, Repr

/-- Fields of `LoRaDemodSettings` read by the sink; `m_other` stands for the fields that
the sink only logs (frequency offset, bandwidth index, colour, title). -/
structure Settings where
  m_spreadFactor : Nat
  m_deBits : Nat
  m_eomSquelchTenths : Int
  m_nbSymbolsMax : Nat
  m_decodeActive : Bool
  m_other : Nat
  deriving DecidableEq, Repr

/-- Method `LoRaDemodSink::evalSymbol` (lines 531-540). -/
def evalSymbol (cst : Consts) (settings : Settings) (rawSymbol : Nat) : Nat :=
  let spread := cst.m_fftInterpolation * (1 <<< settings.m_deBits)
  if spread < 2 then rawSymbol
  else (rawSymbol + spread / 2 - 1) / spread

/-- Method `LoRaDemodSink::toSigned` (lines 522-529). -/
def toSigned (u intSize : Int) : Int :=
  if u > intSize.tdiv 2 then u - intSize else u

/-- Enumeration `LoRaState`: the seven values named by `processSample`, and any other
value, which takes its last `else` branch. -/
inductive LoRaState where
  | LoRaStateReset
  | LoRaStateDetectPreamble
  | LoRaStatePreambleResyc
  | LoRaStatePreamble
  | LoRaStateSkipSFD
  | LoRaStateSlideSFD
  | LoRaStateReadPayload
  | LoRaStateOther
  deriving DecidableEq, Repr

open LoRaState

/-- Modelled from the spec: the class `LoRaDemodMsg::MsgDecodeSymbols` (lorademodmsg.h),
the decoded-message record, "ordered sequence of decoded raw symbol indices, a
synchronization word, and measured signal/noise levels in dB"; the levels are `none`
until they are set. -/
structure MsgDecodeSymbols (K : Type) where
  m_symbols : List Nat
  m_syncWord : Nat
  m_signalDb : Option K
  m_noiseDb : Option K
  deriving DecidableEq, Repr

/-- Modelled from the spec: `MsgDecodeSymbols::create()`, a new record without symbols. -/
def MsgDecodeSymbols.create {K : Type} : MsgDecodeSymbols K :=
  { m_symbols := [], m_syncWord := 0, m_signalDb := none, m_noiseDb := none }

/-- Modelled from the spec: `pushBackSymbol`, which appends a symbol to the record. -/
def MsgDecodeSymbols.pushBackSymbol {K : Type} (m : MsgDecodeSymbols K) (symbol : Nat) :
    MsgDecodeSymbols K :=
  { m with m_symbols := m.m_symbols ++ [symbol] }

/-- Modelled from the spec: `popSymbol`, which discards the last symbol of the record. -/
def MsgDecodeSymbols.popSymbol {K : Type} (m : MsgDecodeSymbols K) : MsgDecodeSymbols K :=
  { m with m_symbols := m.m_symbols.dropLast }

/-- Floating point functions of the libraries used by the sink: `M_PI`, `fmod`,
`std::polar`, the value `1e-6*SDR_RX_SCALED` of the spectrum line, the value returned by
`asDouble()` for a moving average fed with the given values, and `CalcDb::dbPower`. -/
structure Ext (K : Type) where
  pi : K
  fmod : K → K → K
  polar : K → K → Cplx K
  spectrumLineLevel : K
  asDouble : List K → K
  dbPower : K → K

/-- Members of a `LoRaDemodSink` read or written by `initSF`, `applySettings` and
`processSample`.  A moving average is the list of the values fed to it, the queue
`m_magsqQueue` the list of its elements from front to back, the message queue of the
consumer the list of the records pushed to it (`none` for a null pointer). -/
structure Sink (K : Type) where
  m_settings : Settings
  m_state : LoRaState
  m_demodActive : Bool
  m_decodeMsg : Option (MsgDecodeSymbols K)
  m_decoderMsgQueue : Option (List (MsgDecodeSymbols K))
  m_chirp : Int
  m_chirp0 : Int
  m_fftCounter : Int
  m_argMaxHistory : List Nat
  m_argMaxHistoryCounter : Nat
  m_preambleHistory : List Nat
  m_syncWord : Nat
  m_magsqMax : K
  m_magsqOnAvg : List K
  m_magsqOffAvg : List K
  m_magsqQueue : List K
  m_chirpCount : Nat
  m_sfdSkip : Nat
  m_sfdSkipCounter : Nat
  m_nbSymbols : Nat
  m_nbSymbolsEff : Nat
  m_fftLength : Nat
  m_downChirps : List (Cplx K)
  m_upChirps : List (Cplx K)
  m_fftBuffer : List (Cplx K)
  m_spectrumBuffer : List (Cplx K)
  m_spectrumLine : List (Cplx K)
  deriving DecidableEq

/-- Body of the loop of `initSF` that fills the first half of the chirp tables (lines
107-113), acting on the accumulator, the phase and the two tables. -/
def chirpStep {K : Type} [LinearOrderedField K] (ext : Ext K) (nbSymbols : Nat)
    (v : K × K × List (Cplx K) × List (Cplx K)) (i : Nat) :
    K × K × List (Cplx K) × List (Cplx K) :=
  let accumulator := ext.fmod (v.1 + v.2.1) (2 * ext.pi)
  (accumulator, v.2.1 + (2 * ext.pi) / (nbSymbols : K),
    v.2.2.1.set i (ext.polar 1 accumulator).conj,
    v.2.2.2.set i (ext.polar 1 accumulator))

/-- Call `std::copy(table, table + n, table + n)` of lines 116-117: the second run of
`n` elements of the table receives the first `n` elements. -/
def copyFirstHalf {α : Type} (n : Nat) (table : List α) : List α :=
  table.take n ++ table.take n ++ table.drop (2 * n)

/-- Method `LoRaDemodSink::initSF` (lines 69-118).  An array made by `new Complex[n]`
holds `n` zeros. -/
def initSF {K : Type} [LinearOrderedField K] (cst : Consts) (ext : Ext K) (s : Sink K)
    (sf deBits : Nat) : Sink K :=
  let nbSymbols := 1 <<< sf
  let nbSymbolsEff := 1 <<< (sf - deBits)
  let fftLength := nbSymbols
  let v := (List.range fftLength).foldl (chirpStep ext nbSymbols)
    (0, -ext.pi, List.replicate (2 * nbSymbols) Cplx.zero,
      List.replicate (2 * nbSymbols) Cplx.zero)
  { s with
    m_nbSymbols := nbSymbols
    m_nbSymbolsEff := nbSymbolsEff
    m_fftLength := fftLength
    m_state := LoRaStateReset
    m_sfdSkip := fftLength / 4
    m_downChirps := copyFirstHalf fftLength v.2.2.1
    m_upChirps := copyFirstHalf fftLength v.2.2.2
    m_fftBuffer := List.replicate (cst.m_fftInterpolation * fftLength) Cplx.zero
    m_spectrumBuffer := List.replicate nbSymbols Cplx.zero
    m_spectrumLine := List.replicate nbSymbols (ext.polar ext.spectrumLineLevel 0) }

/-- Constructor `LoRaDemodSink::LoRaDemodSink` (lines 30-57).  The members that it does
not set keep the values they have in `junk`; the settings are those of the default
constructor of `LoRaDemodSettings`, also taken from `junk`.  The queue and the moving
averages are empty. -/
def construct {K : Type} [LinearOrderedField K] (cst : Consts) (ext : Ext K) (junk : Sink K) :
    Sink K :=
  initSF cst ext
    { junk with
      m_decodeMsg := none
      m_decoderMsgQueue := none
      m_demodActive := false
      m_state := LoRaStateReset
      m_chirp := 0
      m_chirp0 := 0
      m_magsqOnAvg := []
      m_magsqOffAvg := []
      m_magsqQueue := [] }
    junk.m_settings.m_spreadFactor junk.m_settings.m_deBits

/-- Inline setter `setDecoderMessageQueue` of the class. -/
def setDecoderMessageQueue {K : Type} (s : Sink K)
    (queue : Option (List (MsgDecodeSymbols K))) : Sink K :=
  { s with m_decoderMsgQueue := queue }

/-- Method `LoRaDemodSink::applySettings` (lines 570-586). -/
def applySettings {K : Type} [LinearOrderedField K] (cst : Consts) (ext : Ext K) (s : Sink K)
    (settings : Settings) (force : Bool) : Sink K :=
  let s1 :=
    if settings.m_spreadFactor ≠ s.m_settings.m_spreadFactor
        ∨ settings.m_deBits ≠ s.m_settings.m_deBits ∨ force = true then
      initSF cst ext s settings.m_spreadFactor settings.m_deBits
    else s
  { s1 with m_settings := settings }

/-- Method `LoRaDemodSink::reset` (lines 466-473). -/
def reset {K : Type} (s : Sink K) : Sink K :=
  { s with
    m_chirp := 0
    m_chirp0 := 0
    m_fftCounter := 0
    m_argMaxHistoryCounter := 0
    m_sfdSkipCounter := 0 }

/-- What a call of `processSample` reads from outside the sink when it completes a
block: the bins of `m_fft->out()` and of `m_fftSFD->out()` after `transform()`, and the
values held by the local `imax` of the two calls of `argmax` before their loops. -/
structure StepIn (K : Type) where
  fftOut : List (Cplx K)
  fftSFDOut : List (Cplx K)
  imax0 : Nat
  imaxSFD0 : Nat

/-- The literal `1e-9` of line 188. -/
def threshold {K : Type} [LinearOrderedField K] : K := 1 / 1000000000

/-- Loop of lines 177-186: no entry `1 .. n-1` of the history differs from entry 0. -/
def preambleFound (n : Nat) (history : List Nat) : Bool :=
  (List.range' 1 (n - 1)).all (fun i => history.getD 0 0 == history.getD i 0)

/-- The call `argmax(m_fft->out(), m_fftInterpolation, m_fftLength, magsq,
m_spectrumBuffer, m_fftInterpolation)` made when a block is complete. -/
def argmaxFft {K : Type} [LinearOrderedField K] (cst : Consts) (s : Sink K) (x : StepIn K) :
    Nat × K × Option (List (Cplx K)) :=
  argmax x.fftOut cst.m_fftInterpolation s.m_fftLength x.imax0 (some s.m_spectrumBuffer)
    cst.m_fftInterpolation

/-- The call `argmax(m_fftSFD->out(), ..., magsqSFD, nullptr, m_fftInterpolation)` of
lines 244-251. -/
def argmaxSFD {K : Type} [LinearOrderedField K] (cst : Consts) (s : Sink K) (x : StepIn K) :
    Nat × K × Option (List (Cplx K)) :=
  argmax x.fftSFDOut cst.m_fftInterpolation s.m_fftLength x.imaxSFD0 none
    cst.m_fftInterpolation

/-- Lines 428-435 and 443-450: the levels of the record are set from the moving
averages and the record is pushed to the queue of the consumer when there is one and
decoding is active; it is deleted otherwise. -/
def handOff {K : Type} [LinearOrderedField K] (ext : Ext K) (s : Sink K) : Sink K :=
  match s.m_decodeMsg with
  | none => s
  | some msg =>
    let scale : K := ((1 <<< s.m_settings.m_spreadFactor : Nat) : K)
    let msg1 : MsgDecodeSymbols K :=
      { msg with
        m_signalDb := some (ext.dbPower (ext.asDouble s.m_magsqOnAvg / scale))
        m_noiseDb := some (ext.dbPower (ext.asDouble s.m_magsqOffAvg / scale)) }
    match s.m_decoderMsgQueue, s.m_settings.m_decodeActive with
    | some queue, true =>
      { s with m_decodeMsg := some msg1, m_decoderMsgQueue := some (queue ++ [msg1]) }
    | _, _ => { s with m_decodeMsg := some msg1 }

/-- Lines 326-333 and 371-378: end of the SFD, a new record is created. -/
def startPayload {K : Type} [LinearOrderedField K] (s : Sink K) : Sink K :=
  { s with
    m_chirp := s.m_chirp0
    m_fftCounter := 0
    m_chirpCount := 0
    m_magsqMax := 0
    m_decodeMsg := some { (MsgDecodeSymbols.create : MsgDecodeSymbols K) with
      m_syncWord := s.m_syncWord }
    m_state := LoRaStateReadPayload }

/-- Lines 273-274: `round(p / 8.0)` for an unsigned `p` is `(p + 4) / 8`; the sync word
is that of entry `count-2` plus 16 times that of entry `count-3`. -/
def syncWordOf (history : List Nat) (count : Nat) : Nat :=
  (history.getD (count - 2) 0 + 4) / 8 + 16 * ((history.getD (count - 3) 0 + 4) / 8)

/-- Loop of lines 282-286: the sum `sadj` of the signed deviations of the entries
`0 .. count-4` of the preamble history. -/
def sumDeviations (history : List Nat) (nbSymbols count : Nat) : Int :=
  ((List.range (count - 3)).map (fun i =>
    if history.getD i 0 > nbSymbols / 2 then (history.getD i 0 : Int) - (nbSymbols : Int)
    else (history.getD i 0 : Int))).sum

/-- Lines 288-289: the timing correction `zadj`, the truncated mean of the deviations
clamped to plus or minus `sfdSkip/2`. -/
def zeroAdjust (history : List Nat) (nbSymbols count sfdSkip : Nat) : Int :=
  let nadj : Int := ((count - 3 : Nat) : Int)
  let zadj : Int := if nadj = 0 then 0 else (sumDeviations history nbSymbols count).tdiv nadj
  let half : Int := ((sfdSkip / 2 : Nat) : Int)
  if zadj < -half then -half else if zadj > half then half else zadj

/-- The if-chain of `processSample` (lines 140-457), before the final advance of the
chirp index. -/
def processSampleBody {K : Type} [LinearOrderedField K] (cst : Consts) (ext : Ext K)
    (x : StepIn K) (s : Sink K) : Sink K :=
  match s.m_state with
  | LoRaStateReset =>
    { reset { s with m_demodActive := false } with m_state := LoRaStateDetectPreamble }
  | LoRaStateDetectPreamble =>
    let s1 := { s with m_fftCounter := s.m_fftCounter + 1 }
    if s1.m_fftCounter = (s.m_fftLength : Int) then
      let r := argmaxFft cst s x
      let magsq := r.2.1
      let imax := r.1 / cst.m_fftInterpolation
      let queue0 :=
        if s.m_magsqQueue.length > cst.m_requiredPreambleChirps + 1 then s.m_magsqQueue.tail
        else s.m_magsqQueue
      let s2 := { s1 with
        m_fftCounter := 0
        m_spectrumBuffer := r.2.2.getD s.m_spectrumBuffer
        m_magsqQueue := queue0 ++ [magsq]
        m_argMaxHistory := s.m_argMaxHistory.set s.m_argMaxHistoryCounter imax
        m_argMaxHistoryCounter := s.m_argMaxHistoryCounter + 1 }
      if s2.m_argMaxHistoryCounter = cst.m_requiredPreambleChirps then
        let s3 := { s2 with m_argMaxHistoryCounter := 0 }
        if preambleFound cst.m_requiredPreambleChirps s3.m_argMaxHistory = true
            ∧ magsq > threshold then
          { s3 with
            m_chirp := (s3.m_argMaxHistory.getD 0 0 : Int)
            m_fftCounter := (s3.m_argMaxHistory.getD 0 0 : Int)
            m_chirp0 := 0
            m_chirpCount := 0
            m_state := LoRaStatePreambleResyc }
        else
          { s3 with m_magsqOffAvg := s3.m_magsqOffAvg ++ s3.m_magsqQueue.take 1 }
      else s2
    else s1
  | LoRaStatePreambleResyc =>
    let s1 := { s with m_fftCounter := s.m_fftCounter + 1 }
    if s1.m_fftCounter = (s.m_fftLength : Int) then
      { s1 with m_fftCounter := 0, m_demodActive := true, m_state := LoRaStatePreamble }
    else s1
  | LoRaStatePreamble =>
    let s1 := { s with m_fftCounter := s.m_fftCounter + 1 }
    if s1.m_fftCounter = (s.m_fftLength : Int) then
      let rSFD := argmaxSFD cst s x
      let r := argmaxFft cst s x
      let magsqSFD := rSFD.2.1
      let magsq := r.2.1
      let imax := r.1 / cst.m_fftInterpolation
      let s2 := { s1 with
        m_fftCounter := 0
        m_spectrumBuffer := r.2.2.getD s.m_spectrumBuffer
        m_preambleHistory := s.m_preambleHistory.set s.m_chirpCount imax
        m_chirpCount := s.m_chirpCount + 1 }
      if magsq < magsqSFD then
        if s2.m_chirpCount < 3 then { s2 with m_state := LoRaStateReset }
        else
          let zadj := zeroAdjust s2.m_preambleHistory s2.m_nbSymbols s2.m_chirpCount s2.m_sfdSkip
          { s2 with
            m_syncWord := syncWordOf s2.m_preambleHistory s2.m_chirpCount
            m_sfdSkipCounter := 0
            m_fftCounter := (s2.m_fftLength : Int) - (s2.m_sfdSkip : Int) + zadj
            m_chirp := s2.m_chirp + zadj
            m_state := LoRaStateSkipSFD }
      else if s2.m_chirpCount > cst.m_maxSFDSearchChirps then
        { s2 with m_state := LoRaStateReset }
      else { s2 with m_magsqOnAvg := s2.m_magsqOnAvg ++ [magsq] }
    else s1
  | LoRaStateSkipSFD =>
    let s1 := { s with m_fftCounter := s.m_fftCounter + 1 }
    if s1.m_fftCounter = (s.m_fftLength : Int) then
      let s2 := { s1 with
        m_fftCounter := (s.m_fftLength : Int) - (s.m_sfdSkip : Int)
        m_sfdSkipCounter := s.m_sfdSkipCounter + 1 }
      if s2.m_sfdSkipCounter = cst.m_sfdFourths then startPayload s2 else s2
    else s1
  | LoRaStateSlideSFD =>
    let s1 := { s with m_fftCounter := s.m_fftCounter + 1 }
    if s1.m_fftCounter = (s.m_fftLength : Int) then
      let rSFD := argmax x.fftSFDOut cst.m_fftInterpolation s.m_fftLength x.imaxSFD0
        (some s.m_spectrumBuffer) cst.m_fftInterpolation
      let s2 := { s1 with
        m_fftCounter := (s.m_fftLength : Int) - (s.m_sfdSkip : Int)
        m_sfdSkipCounter := s.m_sfdSkipCounter + 1
        m_spectrumBuffer := rSFD.2.2.getD s.m_spectrumBuffer }
      if s2.m_sfdSkipCounter = cst.m_sfdFourths then startPayload s2 else s2
    else s1
  | LoRaStateReadPayload =>
    let s1 := { s with m_fftCounter := s.m_fftCounter + 1 }
    if s1.m_fftCounter = (s.m_fftLength : Int) then
      let r := argmaxFft cst s x
      let magsq := r.2.1
      let symbol := evalSymbol cst s.m_settings r.1 % s.m_nbSymbolsEff
      let magsqMax := if magsq > s.m_magsqMax then magsq else s.m_magsqMax
      let s2 := { s1 with
        m_fftCounter := 0
        m_spectrumBuffer := r.2.2.getD s.m_spectrumBuffer
        m_magsqMax := magsqMax
        m_decodeMsg := s.m_decodeMsg.map (fun (m : MsgDecodeSymbols K) => m.pushBackSymbol symbol) }
      if s2.m_chirpCount = 0 ∨ s2.m_settings.m_eomSquelchTenths = (121 : Int)
          ∨ ((s2.m_settings.m_eomSquelchTenths : K) * magsq) / 10 > s2.m_magsqMax then
        let s3 := { s2 with
          m_magsqOnAvg := s2.m_magsqOnAvg ++ [magsq]
          m_chirpCount := s2.m_chirpCount + 1 }
        if s3.m_chirpCount > s3.m_settings.m_nbSymbolsMax then
          handOff ext { s3 with m_state := LoRaStateReset }
        else s3
      else
        handOff ext { s2 with
          m_state := LoRaStateReset
          m_decodeMsg := s2.m_decodeMsg.map (fun (m : MsgDecodeSymbols K) => m.popSymbol) }
    else s1
  | LoRaStateOther => { s with m_state := LoRaStateReset }

/-- Lines 459-463: the chirp index advances by one and goes back to `m_chirp0` once a
full symbol period has elapsed.  The comparison is made on exact integers, which is the
comparison of the source whenever the advanced index and `m_chirp0` are not negative. -/
def advanceChirp {K : Type} (s : Sink K) : Sink K :=
  if s.m_chirp + 1 ≥ s.m_chirp0 + (s.m_nbSymbols : Int) then { s with m_chirp := s.m_chirp0 }
  else { s with m_chirp := s.m_chirp + 1 }

/-- Method `LoRaDemodSink::processSample` (lines 138-464). -/
def processSample {K : Type} [LinearOrderedField K] (cst : Consts) (ext : Ext K)
    (x : StepIn K) (s : Sink K) : Sink K :=
  advanceChirp (processSampleBody cst ext x s)

/-- The sink after `processSample` has been called once for each input, in order. -/
def run {K : Type} [LinearOrderedField K] (cst : Consts) (ext : Ext K) (s : Sink K)
    (inputs : List (StepIn K)) : Sink K :=
  inputs.foldl (fun t x => processSample cst ext x t) s

/-- Values of the four constants used to evaluate the sink: 4 preamble chirps required,
8 chirps of SFD search, 5 fourths of SFD, no interpolation. -/
def sampleConsts : Consts :=
  { m_requiredPreambleChirps := 4
    m_maxSFDSearchChirps := 8
    m_sfdFourths := 5
    m_fftInterpolation := 1 }

/-- An instance of the external floating point functions over the rationals, used to
evaluate the sink on concrete inputs; the control flow of the sink does not depend on
the values it gives. -/
def sampleExt : Ext ℚ :=
  { pi := 3
    fmod := fun a _ => a
    polar := fun r a => ⟨r, a⟩
    spectrumLineLevel := 1
    asDouble := fun _ => 0
    dbPower := fun v => v }

/-- Settings used to evaluate the sink: spreading factor 2 (symbol period of 4 samples),
no DE bits, squelch of 60 tenths, at most 3 symbols, decoding active. -/
def sampleSettings : Settings :=
  { m_spreadFactor := 2
    m_deBits := 0
    m_eomSquelchTenths := 60
    m_nbSymbolsMax := 3
    m_decodeActive := true
    m_other := 0 }

/-- A sink with arbitrary values in all its members, from which `construct` takes the
members that the constructor does not set. -/
def sampleJunk : Sink ℚ :=
  { m_settings := sampleSettings
    m_state := LoRaStateOther
    m_demodActive := true
    m_decodeMsg := none
    m_decoderMsgQueue := none
    m_chirp := 5
    m_chirp0 := 5
    m_fftCounter := 7
    m_argMaxHistory := [9, 9, 9, 9]
    m_argMaxHistoryCounter := 2
    m_preambleHistory := [9, 9, 9, 9, 9, 9, 9, 9, 9]
    m_syncWord := 3
    m_magsqMax := 1
    m_magsqOnAvg := []
    m_magsqOffAvg := []
    m_magsqQueue := []
    m_chirpCount := 6
    m_sfdSkip := 0
    m_sfdSkipCounter := 3
    m_nbSymbols := 0
    m_nbSymbolsEff := 0
    m_fftLength := 0
    m_downChirps := []
    m_upChirps := []
    m_fftBuffer := []
    m_spectrumBuffer := []
    m_spectrumLine := [] }

/-- The sink just constructed, with an empty message queue registered for the
consumer. -/
def sampleSink : Sink ℚ :=
  setDecoderMessageQueue (construct sampleConsts sampleExt sampleJunk) (some [])

/-- The input of a step whose spectrum `m_fft->out()` of 4 bins holds the real `v` at
the bin `k` and zero elsewhere, and whose spectrum `m_fftSFD->out()` holds the real `w`
at the bin 0 and zero elsewhere. -/
def stepOf (k : Nat) (v w : ℚ) : StepIn ℚ :=
  { fftOut := (List.range 4).map (fun i => if i = k then ⟨v, 0⟩ else Cplx.zero)
    fftSFDOut := [⟨w, 0⟩, Cplx.zero, Cplx.zero, Cplx.zero]
    imax0 := 0
    imaxSFD0 := 0 }

/-- Inputs that take the sample sink from its construction to the start of a payload:
one call for Reset, four blocks with the peak 1 at bin 0 (preamble detection), one
symbol period of resynchronisation, two more preamble blocks, a third block whose
up-chirp peak 4 exceeds the down-chirp peak 1 (SFD), and five calls to skip the SFD. -/
def toPayload : List (StepIn ℚ) :=
  stepOf 0 0 0 :: (List.replicate 16 (stepOf 0 1 0) ++ List.replicate 4 (stepOf 0 0 0)
    ++ List.replicate 8 (stepOf 0 1 0) ++ List.replicate 4 (stepOf 0 1 2)
    ++ List.replicate 5 (stepOf 0 0 0))

/-- One payload block of 4 samples whose spectrum has the peak `v` at the bin `k`. -/
def payloadBlock (k : Nat) (v : ℚ) : List (StepIn ℚ) :=
  List.replicate 4 (stepOf k v 0)

/-- Inputs that take the sample sink from its construction into the third block of a
payload: the blocks with the symbols 1 and 2, both of peak 1, then three samples. -/
def twoSymbols : List (StepIn ℚ) :=
  toPayload ++ payloadBlock 1 1 ++ payloadBlock 2 1 ++ List.replicate 3 (stepOf 3 (1 / 100) 0)

/-- Inputs that take the sample sink from its construction into the fourth block of a
payload: the blocks with the symbols 1, 2 and 3, all of peak 1, then three samples. -/
def threeSymbols : List (StepIn ℚ) :=
  toPayload ++ payloadBlock 1 1 ++ payloadBlock 2 1 ++ payloadBlock 3 1
    ++ List.replicate 3 (stepOf 0 1 0)

/-- The sample sink with the maximum number of symbols set to 0 by `applySettings`. -/
def sampleSinkMax0 : Sink ℚ :=
  applySettings sampleConsts sampleExt sampleSink { sampleSettings with m_nbSymbolsMax := 0 }
    false

/-- Inputs that take a sample sink from its construction into the first block of a
payload: three samples of a block of peak 1 at the bin 1. -/
def firstSymbol : List (StepIn ℚ) :=
  toPayload ++ List.replicate 3 (stepOf 1 1 0)

/-- Inputs of noise: 20 calls whose spectrum has the peak `(1/100000)^2`, below the
threshold. -/
def noiseInputs : List (StepIn ℚ) :=
  List.replicate 20 (stepOf 1 (1 / 100000) 0)

/-- Inputs that take the sample sink from its construction into the fifth block of the
preamble detection: the call for Reset, a block with the peak 1 at the bin 1, three
blocks with the peak 1 at the bin 0, then three samples. -/
def shiftedPreamble : List (StepIn ℚ) :=
  stepOf 0 0 0 :: (List.replicate 4 (stepOf 1 1 0) ++ List.replicate 12 (stepOf 0 1 0)
    ++ List.replicate 3 (stepOf 0 1 0))

/-- Inputs that take the sample sink from its construction into the fourth block of the
preamble detection: the call for Reset, three blocks with the peak 1 at the bin 2, then
three samples. -/
def alignedPreamble : List (StepIn ℚ) :=
  stepOf 0 0 0 :: (List.replicate 12 (stepOf 2 1 0) ++ List.replicate 3 (stepOf 2 1 0))

/-! ### Conditions and traces used to state the properties of `processSample` -/

/-- The call of `processSample` completes a symbol block: the sample counter reaches
`m_fftLength` once incremented. -/
def blockCompletes {K : Type} (s : Sink K) : Prop :=
  s.m_fftCounter + 1 = (s.m_fftLength : Int)

instance {K : Type} (s : Sink K) : Decidable (blockCompletes s) :=
  inferInstanceAs (Decidable (s.m_fftCounter + 1 = (s.m_fftLength : Int)))

/-- Peak squared magnitude `magsq` of the block completed by the step. -/
def blockMagsq {K : Type} [LinearOrderedField K] (cst : Consts) (s : Sink K) (x : StepIn K) : K :=
  (argmaxFft cst s x).2.1

/-- Argmax bin `imax` of the block completed by the step, scaled down by the
interpolation factor. -/
def blockBin {K : Type} [LinearOrderedField K] (cst : Consts) (s : Sink K) (x : StepIn K) :
    Nat :=
  (argmaxFft cst s x).1 / cst.m_fftInterpolation

/-- Symbol of the payload block completed by the step. -/
def payloadSymbol {K : Type} [LinearOrderedField K] (cst : Consts) (s : Sink K)
    (x : StepIn K) : Nat :=
  evalSymbol cst s.m_settings (argmaxFft cst s x).1 % s.m_nbSymbolsEff

/-- Acceptance test of a payload block as the specification words it: first symbol of
the message, or squelch set to the sentinel 121, or squelch tenths times the magnitude
of the block over 10 above the running peak, the larger of the peak kept so far and the
magnitude of the block. -/
def accepted {K : Type} [LinearOrderedField K] (cst : Consts) (s : Sink K) (x : StepIn K) :
    Prop :=
  s.m_chirpCount = 0 ∨ s.m_settings.m_eomSquelchTenths = (121 : Int)
    ∨ ((s.m_settings.m_eomSquelchTenths : K) * blockMagsq cst s x) / 10 >
      max s.m_magsqMax (blockMagsq cst s x)

instance {K : Type} [LinearOrderedField K] (cst : Consts) (s : Sink K) (x : StepIn K) :
    Decidable (accepted cst s x) :=
  inferInstanceAs (Decidable (_ ∨ _ ∨ _))

/-- Symbols accepted for the message in progress: the trace starts from `log`, is
emptied by every call made outside ReadPayload, and receives the symbol of every payload
block that passes the acceptance test. -/
def acceptedLog {K : Type} [LinearOrderedField K] (cst : Consts) (ext : Ext K) :
    List Nat → Sink K → List (StepIn K) → List Nat
  | log, _, [] => log
  | log, s, x :: rest =>
    acceptedLog cst ext
      (if s.m_state = LoRaStateReadPayload then
        (if blockCompletes s ∧ accepted cst s x then log ++ [payloadSymbol cst s x] else log)
       else [])
      (processSample cst ext x s) rest

/-- Bins detected by the blocks completed in DetectPreamble along a run, in order. -/
def detectedBins {K : Type} [LinearOrderedField K] (cst : Consts) (ext : Ext K) :
    Sink K → List (StepIn K) → List Nat
  | _, [] => []
  | s, x :: rest =>
    (if s.m_state = LoRaStateDetectPreamble ∧ blockCompletes s then [blockBin cst s x]
      else []) ++ detectedBins cst ext (processSample cst ext x s) rest

/-- Peak squared magnitude found by `argmax` in the spectrum `m_fft->out()` of a step,
for an FFT length. -/
def peakOf {K : Type} [LinearOrderedField K] (cst : Consts) (fftLength : Nat) (x : StepIn K) :
    K :=
  (argmax x.fftOut cst.m_fftInterpolation fftLength x.imax0 none cst.m_fftInterpolation).2.1

/-- Invariant of the payload: in ReadPayload the record exists, its symbols are those
of the trace `log`, their number is the chirp count, and the chirp count does not
exceed the maximum number of symbols. -/
def PayloadInv {K : Type} (log : List Nat) (s : Sink K) : Prop :=
  s.m_state = LoRaStateReadPayload →
    ∃ m : MsgDecodeSymbols K, s.m_decodeMsg = some m ∧ m.m_symbols = log ∧
      log.length = s.m_chirpCount ∧ s.m_chirpCount ≤ s.m_settings.m_nbSymbolsMax

/-- The record `m'` left by the step that ends a message is handed to the consumer: it
is pushed to the message queue when a queue is registered in `s`, the sink before the
step, and decoding is active; otherwise the queue is as before (the record is
deleted). -/
def HandedOff {K : Type} (s p : Sink K) (m' : MsgDecodeSymbols K) : Prop :=
  (∀ q, s.m_decoderMsgQueue = some q → s.m_settings.m_decodeActive = true →
      p.m_decoderMsgQueue = some (q ++ [m'])) ∧
    (s.m_decoderMsgQueue = none ∨ s.m_settings.m_decodeActive = false →
      p.m_decoderMsgQueue = s.m_decoderMsgQueue)

/-- Peak squared magnitude `magsqSFD` of the block completed by the step in Preamble:
the peak of the spectrum `m_fftSFD->out()`, whose input is dechirped with the up-chirp
table. -/
def blockMagsqSFD {K : Type} [LinearOrderedField K] (cst : Consts) (s : Sink K)
    (x : StepIn K) : K :=
  (argmaxSFD cst s x).2.1

/-- Test of line 265 on the block completed by the step: the peak of the spectrum
dechirped with the up-chirp exceeds the peak of the spectrum dechirped with the
down-chirp. -/
def sfdFound {K : Type} [LinearOrderedField K] (cst : Consts) (s : Sink K) (x : StepIn K) :
    Prop :=
  blockMagsq cst s x < blockMagsqSFD cst s x

instance {K : Type} [LinearOrderedField K] (cst : Consts) (s : Sink K) (x : StepIn K) :
    Decidable (sfdFound cst s x) :=
  inferInstanceAs (Decidable (_ < _))

/-- Along the run, some call made in Preamble completes a block that passes the test of
line 265. -/
def sfdSeen {K : Type} [LinearOrderedField K] (cst : Consts) (ext : Ext K) :
    Sink K → List (StepIn K) → Bool
  | _, [] => false
  | s, x :: rest =>
    decide (s.m_state = LoRaStatePreamble ∧ blockCompletes s ∧ sfdFound cst s x)
      || sfdSeen cst ext (processSample cst ext x s) rest

/-- The preamble history after the write of line 262 made by the step. -/
def historyAfter {K : Type} [LinearOrderedField K] (cst : Consts) (s : Sink K)
    (x : StepIn K) : List Nat :=
  s.m_preambleHistory.set s.m_chirpCount (blockBin cst s x)

/-- Signed deviation of a preamble bin as the specification words it: a bin `h` counts
as `h - nbSymbols` when it is above `nbSymbols / 2` and as `h` otherwise. -/
def signedDeviation (nbSymbols h : Nat) : Int :=
  if h > nbSymbols / 2 then (h : Int) - (nbSymbols : Int) else (h : Int)

/-- Integer mean, truncated toward zero, of the signed deviations of the preamble chirps
`0 .. c-4`, as the specification words it. -/
def meanDeviation (history : List Nat) (nbSymbols c : Nat) : Int :=
  (Finset.sum (Finset.range (c - 3))
    (fun i => signedDeviation nbSymbols (history.getD i 0))).tdiv ((c - 3 : Nat) : Int)

/-- Inputs that take the sample sink from its construction to the entry into Preamble:
the call for Reset, four blocks with the peak 1 at bin 0 and one symbol period of
resynchronisation. -/
def toPreamble : List (StepIn ℚ) :=
  toPayload.take 21

/-- Inputs that take the sample sink from its construction to the last sample of the
third block of Preamble. -/
def toThirdBlock : List (StepIn ℚ) :=
  toPayload.take 32

/-- Index of the preamble history written by a call of `processSample` (line 262): the
chirp count, when the call is made in Preamble and completes a block. -/
def historyIndexWritten {K : Type} (s : Sink K) : Option Nat :=
  if s.m_state = LoRaStatePreamble ∧ blockCompletes s then some s.m_chirpCount else none

/-- The sample sink built with the spreading factor 3 (symbol period of 8 samples, SFD
skip of 2 samples). -/
def sampleSink8 : Sink ℚ :=
  setDecoderMessageQueue
    (construct sampleConsts sampleExt
      { sampleJunk with m_settings := { sampleSettings with m_spreadFactor := 3 } })
    (some [])

/-- The input of a step whose spectrum `m_fft->out()` of 8 bins holds the real `v` at
the bin `k` and zero elsewhere, and whose spectrum `m_fftSFD->out()` holds the real `w`
at the bin 0 and zero elsewhere. -/
def stepOf8 (k : Nat) (v w : ℚ) : StepIn ℚ :=
  { fftOut := (List.range 8).map (fun i => if i = k then ⟨v, 0⟩ else Cplx.zero)
    fftSFDOut := [⟨w, 0⟩]
    imax0 := 0
    imaxSFD0 := 0 }

/-- Inputs that take `sampleSink8` from its construction to the last sample of the fifth
block of Preamble: the call for Reset, four blocks with the peak at bin 0 (preamble
detection), one symbol period of resynchronisation, preamble blocks with the peak at the
bins 7, 7, 5 and 6, and seven samples. -/
def toSFD8 : List (StepIn ℚ) :=
  stepOf8 0 0 0 :: (List.replicate 32 (stepOf8 0 1 0) ++ List.replicate 8 (stepOf8 0 0 0)
    ++ List.replicate 16 (stepOf8 7 1 0) ++ List.replicate 8 (stepOf8 5 1 0)
    ++ List.replicate 8 (stepOf8 6 1 0) ++ List.replicate 7 (stepOf8 0 1 0))

/-- Index at which a call of `processSample` made in the state `s` reads the chirp
tables: `m_downChirps[m_chirp]` in DetectPreamble (line 148), in Preamble (line 225,
with `m_upChirps[m_chirp]` at line 226) and in ReadPayload (line 384),
`m_upChirps[m_chirp]` in SlideSFD (line 339); the other states read no table. -/
def chirpTableIndex {K : Type} (s : Sink K) : Option Int :=
  match s.m_state with
  | LoRaStateDetectPreamble => some s.m_chirp
  | LoRaStatePreamble => some s.m_chirp
  | LoRaStateSlideSFD => some s.m_chirp
  | LoRaStateReadPayload => some s.m_chirp
  | _ => none

/-- Index at which a call of `processSample` made in the state `s` stores the sample:
`m_fft->in()[m_fftCounter]` in DetectPreamble (line 148), in Preamble (line 225, with
`m_fftSFD->in()[m_fftCounter]` at line 226) and in ReadPayload (line 384),
`m_fftBuffer[m_fftCounter]` in SlideSFD (line 339); the other states store nothing. -/
def fftInputIndex {K : Type} (s : Sink K) : Option Int :=
  match s.m_state with
  | LoRaStateDetectPreamble => some s.m_fftCounter
  | LoRaStatePreamble => some s.m_fftCounter
  | LoRaStateSlideSFD => some s.m_fftCounter
  | LoRaStateReadPayload => some s.m_fftCounter
  | _ => none

/-- Invariant of the indices between two calls of `processSample`, for a symbol period
of `n` samples: the sizes are `n`, the zero reference of the chirp index is 0, the
state is one of those that `processSample` assigns, the chirp index is in `0 .. n-1`
outside SkipSFD, and the sample counter is in `0 .. n-1` in the states that store the
sample. -/
def IndexInv {K : Type} (n : Nat) (s : Sink K) : Prop :=
  s.m_nbSymbols = n ∧ s.m_fftLength = n ∧ s.m_chirp0 = 0 ∧
    s.m_state ≠ LoRaStateSlideSFD ∧ s.m_state ≠ LoRaStateOther ∧
    (s.m_state ≠ LoRaStateSkipSFD → 0 ≤ s.m_chirp ∧ s.m_chirp < (n : Int)) ∧
    (s.m_state = LoRaStateDetectPreamble ∨ s.m_state = LoRaStatePreamble ∨
        s.m_state = LoRaStateReadPayload →
      0 ≤ s.m_fftCounter ∧ s.m_fftCounter < (n : Int))

/-- The sample sink with the squelch set to 10 tenths by `applySettings`. -/
def sampleSinkSquelch10 : Sink ℚ :=
  applySettings sampleConsts sampleExt sampleSink { sampleSettings with m_eomSquelchTenths := 10 }
    false

end LoRaDemodSink

/-! ## Theorems: symbol-to-text decoder -/

namespace LoRaDemodDecoder

open TTYState

theorem tableAt_nonneg (table : List Char) (i : Nat) : 0 ≤ tableAt table i := by
  unfold tableAt
  exact Int.ofNat_nonneg _

theorem activeEntry_nonneg (st : TTYState) (i : Nat) : 0 ≤ activeEntry st i := by
  cases st <;> exact tableAt_nonneg _ _

/-- One turn of the loop of `decodeSymbolsTTY` on a symbol that is not a shift code. -/
theorem ttyStep_other (lt ft : Int) (st : TTYState) (acc : List Int) (sym : Nat)
    (h1 : ((sym &&& 0x1F : Nat) : Int) ≠ lt) (h2 : ((sym &&& 0x1F : Nat) : Int) ≠ ft) :
    ttyStep lt ft (st, acc) sym = (st, acc ++ [activeEntry st (sym &&& 0x1F)]) := by
  cases st
  · simp [ttyStep, h1, h2, activeEntry, tableAt_nonneg]
  · simp [ttyStep, h1, h2, activeEntry, tableAt_nonneg]

theorem ttyStep_letters (lt ft : Int) (st : TTYState) (acc : List Int) (sym : Nat)
    (h1 : ((sym &&& 0x1F : Nat) : Int) = lt) :
    ttyStep lt ft (st, acc) sym = (TTYLetters, acc) := by
  simp [ttyStep, h1]

theorem ttyStep_figures (lt ft : Int) (st : TTYState) (acc : List Int) (sym : Nat)
    (h1 : ((sym &&& 0x1F : Nat) : Int) ≠ lt) (h2 : ((sym &&& 0x1F : Nat) : Int) = ft) :
    ttyStep lt ft (st, acc) sym = (TTYFigures, acc) := by
  have h3 : ¬ ft = lt := fun e => h1 (h2.trans e)
  simp [ttyStep, h2, h3]

/-- The loop of `decodeSymbolsTTY`, started in any shift state with any bytes already
stored, appends the entries of the specification. -/
theorem foldl_ttyStep_snd (lt ft : Int) (symbols : List Nat) (st : TTYState)
    (acc : List Int) :
    (symbols.foldl (ttyStep lt ft) (st, acc)).2 = acc ++ ttySpecEntries lt ft st symbols := by
  induction symbols generalizing st acc with
  | nil => simp [ttySpecEntries]
  | cons sym rest ih =>
    rw [List.foldl_cons]
    by_cases h1 : ((sym &&& 0x1F : Nat) : Int) = lt
    · rw [ttyStep_letters lt ft st acc sym h1, ih]
      simp [ttySpecEntries, h1]
    · by_cases h2 : ((sym &&& 0x1F : Nat) : Int) = ft
      · rw [ttyStep_figures lt ft st acc sym h1 h2, ih]
        have h3 : ¬ ft = lt := fun e => h1 (h2.trans e)
        simp [ttySpecEntries, h2, h3]
      · rw [ttyStep_other lt ft st acc sym h1 h2, ih]
        simp [ttySpecEntries, h1, h2]

theorem ttyBytes_eq_spec (lt ft : Int) (symbols : List Nat) :
    ttyBytes lt ft symbols = ttySpecEntries lt ft TTYLetters symbols := by
  unfold ttyBytes
  rw [foldl_ttyStep_snd]
  simp

theorem qstringOfCStr_eq (bytes : List Int) :
    qstringOfCStr bytes = textOf (bytes.takeWhile (fun b => b != 0)) := rfl

theorem takeWhile_ne_zero_of_forall (bytes : List Int) (h : ∀ b ∈ bytes, b ≠ 0) :
    bytes.takeWhile (fun b => b != 0) = bytes := by
  rw [List.takeWhile_eq_self_iff]
  intro b hb
  simpa using h b hb

theorem textOf_length (codes : List Int) : (textOf codes).length = codes.length := by
  simp [textOf, String.length]

/-- The entries of the specification number one per symbol that is not a shift code. -/
theorem ttySpecEntries_length (lt ft : Int) (symbols : List Nat) (st : TTYState) :
    (ttySpecEntries lt ft st symbols).length =
      (symbols.filter (fun s => !isShift lt ft s)).length := by
  induction symbols generalizing st with
  | nil => simp [ttySpecEntries]
  | cons sym rest ih =>
    by_cases h1 : ((sym &&& 0x1F : Nat) : Int) = lt
    · simp [ttySpecEntries, h1, isShift, ih]
    · by_cases h2 : ((sym &&& 0x1F : Nat) : Int) = ft
      · have h3 : ¬ ft = lt := fun e => h1 (h2.trans e)
        simp [ttySpecEntries, h2, h3, isShift, ih]
      · simp [ttySpecEntries, h1, h2, isShift, ih]

/-- Every entry of both tables at an index from 1 to 31 is a character other than NUL. -/
theorem activeEntry_ne_zero : ∀ i < 32, i ≠ 0 →
    tableAt ttyLetters i ≠ 0 ∧ tableAt ttyFigures i ≠ 0 := by
  decide

theorem and_31_lt (sym : Nat) : sym &&& 0x1F < 32 := by
  have h := Nat.and_pow_two_sub_one_eq_mod sym 5
  norm_num at h
  rw [h]
  exact Nat.mod_lt _ (by norm_num)

/-- Entries of the specification are never NUL when no translated symbol has its low
five bits at zero. -/
theorem ttySpecEntries_ne_zero (lt ft : Int) (symbols : List Nat) (st : TTYState)
    (h : ∀ s ∈ symbols, isShift lt ft s = false → s &&& 0x1F ≠ 0) :
    ∀ b ∈ ttySpecEntries lt ft st symbols, b ≠ 0 := by
  induction symbols generalizing st with
  | nil => simp [ttySpecEntries]
  | cons sym rest ih =>
    have hrest : ∀ s ∈ rest, isShift lt ft s = false → s &&& 0x1F ≠ 0 :=
      fun s hs => h s (List.mem_cons_of_mem _ hs)
    by_cases h1 : ((sym &&& 0x1F : Nat) : Int) = lt
    · simpa [ttySpecEntries, h1] using ih TTYLetters hrest
    · by_cases h2 : ((sym &&& 0x1F : Nat) : Int) = ft
      · have h3 : ¬ ft = lt := fun e => h1 (h2.trans e)
        simpa [ttySpecEntries, h2, h3] using ih TTYFigures hrest
      · have hns : isShift lt ft sym = false := by simp [isShift, h1, h2]
        have hnz := h sym (List.mem_cons_self _ _) hns
        have hent := activeEntry_ne_zero (sym &&& 0x1F) (and_31_lt sym) hnz
        intro b hb
        simp only [ttySpecEntries, h1, h2, if_false, List.mem_cons] at hb
        rcases hb with hb | hb
        · subst hb
          cases st
          · exact hent.1
          · exact hent.2
        · exact ih st hrest b hb

/-- The shift state reached by the loop of `decodeSymbolsTTY` is the table in force
after the symbols read. -/
theorem foldl_ttyStep_fst (lt ft : Int) (symbols : List Nat) :
    (symbols.foldl (ttyStep lt ft) (TTYLetters, [])).1 = activeState lt ft symbols := by
  induction symbols using List.reverseRecOn with
  | nil => simp [activeState]
  | append_singleton pre sym ih =>
    rw [List.foldl_append, List.foldl_cons, List.foldl_nil]
    generalize hq : List.foldl (ttyStep lt ft) (TTYLetters, []) pre = q at ih ⊢
    obtain ⟨st, acc⟩ := q
    simp only at ih
    by_cases h1 : ((sym &&& 0x1F : Nat) : Int) = lt
    · rw [ttyStep_letters lt ft st acc sym h1]
      simp [activeState, isShift, h1]
    · by_cases h2 : ((sym &&& 0x1F : Nat) : Int) = ft
      · rw [ttyStep_figures lt ft st acc sym h1 h2]
        have h3 : ¬ ft = lt := fun e => h1 (h2.trans e)
        simp [activeState, isShift, h2, h3]
      · rw [ttyStep_other lt ft st acc sym h1 h2]
        have hns : isShift lt ft sym = false := by simp [isShift, h1, h2]
        simp only [activeState, List.reverse_append, List.reverse_cons, List.reverse_nil,
          List.nil_append, List.singleton_append, List.find?_cons, hns]
        rw [ih]
        rfl

/-- Bytes stored by the loop of `decodeSymbolsTTY` when one more symbol is read. -/
theorem ttyBytes_append_singleton (lt ft : Int) (pre : List Nat) (sym : Nat) :
    ttyBytes lt ft (pre ++ [sym]) = ttyBytes lt ft pre ++
      (if isShift lt ft sym then []
       else [activeEntry (activeState lt ft pre) (sym &&& 0x1F)]) := by
  have hst := foldl_ttyStep_fst lt ft pre
  unfold ttyBytes
  rw [List.foldl_append, List.foldl_cons, List.foldl_nil]
  generalize List.foldl (ttyStep lt ft) (TTYLetters, []) pre = q at hst ⊢
  obtain ⟨st, acc⟩ := q
  simp only at hst
  subst hst
  by_cases h1 : ((sym &&& 0x1F : Nat) : Int) = lt
  · rw [ttyStep_letters lt ft _ acc sym h1]
    simp [isShift, h1]
  · by_cases h2 : ((sym &&& 0x1F : Nat) : Int) = ft
    · rw [ttyStep_figures lt ft _ acc sym h1 h2]
      simp [isShift, h2]
    · rw [ttyStep_other lt ft _ acc sym h1 h2]
      simp [isShift, h1, h2]

/-- The position by position reading when one more symbol is read. -/
theorem ttyByPosition_append_singleton (lt ft : Int) (pre : List Nat) (sym : Nat) :
    ttyByPosition lt ft (pre ++ [sym]) = ttyByPosition lt ft pre ++
      (if isShift lt ft sym then []
       else [activeEntry (activeState lt ft pre) (sym &&& 0x1F)]) := by
  unfold ttyByPosition
  rw [List.length_append, List.length_singleton, List.range_succ, List.filterMap_append]
  congr 1
  · apply List.filterMap_congr
    intro j hj
    have hj2 : j < pre.length := List.mem_range.mp hj
    have e1 : (pre ++ [sym]).getD j 0 = pre.getD j 0 := by
      simp [List.getD_eq_getElem?_getD, List.getElem?_append_left hj2]
    have e2 : (pre ++ [sym]).take j = pre.take j := by
      rw [List.take_append_of_le_length (Nat.le_of_lt hj2)]
    rw [e1, e2]
  · have e1 : (pre ++ [sym]).getD pre.length 0 = sym := by
      simp [List.getD_eq_getElem?_getD]
    have e2 : (pre ++ [sym]).take pre.length = pre := by
      simp
    simp only [List.filterMap_cons, List.filterMap_nil, e1, e2]
    cases isShift lt ft sym <;> simp

theorem ttyBytes_eq_byPosition (lt ft : Int) (symbols : List Nat) :
    ttyBytes lt ft symbols = ttyByPosition lt ft symbols := by
  induction symbols using List.reverseRecOn with
  | nil => rfl
  | append_singleton pre sym ih =>
    rw [ttyBytes_append_singleton, ttyByPosition_append_singleton, ih]

/-- A sequence of shift symbols only gives no entry. -/
theorem ttySpecEntries_all_shift (lt ft : Int) (symbols : List Nat) (st : TTYState)
    (h : ∀ s ∈ symbols, isShift lt ft s = true) : ttySpecEntries lt ft st symbols = [] := by
  apply List.eq_nil_of_length_eq_zero
  rw [ttySpecEntries_length, List.length_eq_zero, List.filter_eq_nil_iff]
  intro s hs
  simp [h s hs]

theorem and_31_of_lt : ∀ i < 32, i &&& 0x1F = i := by
  decide

theorem textOf_map_toNat (text : List Char) :
    textOf (text.map (fun c => (c.toNat : Int))) = String.mk text := by
  simp [textOf, Function.comp_def]

/-- Symbols that are indices of Letters characters, none of them 0 or a shift code, are
translated to these characters, none of which is NUL. -/
theorem ttySpecEntries_of_letters (lt ft : Int) (text : List Char) (indices : List Nat)
    (h : List.Forall₂ (fun (c : Char) (i : Nat) => i < 32 ∧ i ≠ 0 ∧ (i : Int) ≠ lt ∧ (i : Int) ≠ ft ∧
      ttyLetters.getD i default = c) text indices) :
    ttySpecEntries lt ft TTYLetters indices = text.map (fun c => (c.toNat : Int)) ∧
      ∀ b ∈ text.map (fun c => (c.toNat : Int)), b ≠ 0 := by
  induction h with
  | nil => simp [ttySpecEntries]
  | @cons c i text indices hci _ ih =>
    obtain ⟨hlt, hne, h1, h2, hc⟩ := hci
    have hand := and_31_of_lt i hlt
    have hnz := (activeEntry_ne_zero i hlt hne).1
    have hval : tableAt ttyLetters i = (c.toNat : Int) := by
      unfold tableAt
      rw [hc]
    constructor
    · simp only [ttySpecEntries, hand, h1, h2, if_false, List.map_cons, activeEntry]
      rw [ih.1, hval]
    · intro b hb
      simp only [List.map_cons, List.mem_cons] at hb
      rcases hb with hb | hb
      · rw [hb, ← hval]
        exact hnz
      · exact ih.2 b hb

/-- With 5 bits per symbol the text returned by `decodeSymbolsTTY` is made of the
entries of the specification that come before the first NUL entry. -/
theorem decodeSymbolsTTY_five (lt ft : Int) (symbols : List Nat) (str : String) :
    decodeSymbolsTTY lt ft 5 symbols str =
      textOf ((ttySpecEntries lt ft TTYLetters symbols).takeWhile (fun b => b != 0)) := by
  simp only [decodeSymbolsTTY, ne_eq, not_true_eq_false, if_false]
  rw [qstringOfCStr_eq, ttyBytes_eq_spec]

/-- With 5 bits per symbol and no translated symbol with low five bits at zero, the
text returned by `decodeSymbolsTTY` is made of all the entries of the specification. -/
theorem decodeSymbolsTTY_five_of_ne_zero (lt ft : Int) (symbols : List Nat) (str : String)
    (h : ∀ s ∈ symbols, isShift lt ft s = false → s &&& 0x1F ≠ 0) :
    decodeSymbolsTTY lt ft 5 symbols str =
      textOf (ttySpecEntries lt ft TTYLetters symbols) := by
  rw [decodeSymbolsTTY_five,
    takeWhile_ne_zero_of_forall _ (ttySpecEntries_ne_zero lt ft symbols TTYLetters h)]

/-- Claim C1 (as amended): with 5 bits per symbol, `decodeSymbolsTTY` returns the
entries of the specification (start in Letters, a shift symbol emits nothing and
switches table, any other symbol gives the entry of the active table at its low five
bits) cut before the first NUL entry; when no translated symbol has its low five bits
at zero, no entry is NUL, the text is all the entries, and it has one character per
symbol that is not a shift symbol. -/
theorem C1_decodeSymbolsTTY_text (lt ft : Int) (symbols : List Nat) (str : String) :
    decodeSymbolsTTY lt ft 5 symbols str =
        textOf ((ttySpecEntries lt ft TTYLetters symbols).takeWhile (fun b => b != 0)) ∧
      ((∀ s ∈ symbols, isShift lt ft s = false → s &&& 0x1F ≠ 0) →
        decodeSymbolsTTY lt ft 5 symbols str =
            textOf (ttySpecEntries lt ft TTYLetters symbols) ∧
          (decodeSymbolsTTY lt ft 5 symbols str).length =
            (symbols.filter (fun s => !isShift lt ft s)).length) := by
  refine ⟨decodeSymbolsTTY_five lt ft symbols str, fun h => ?_⟩
  rw [decodeSymbolsTTY_five_of_ne_zero lt ft symbols str h]
  exact ⟨rfl, by rw [textOf_length, ttySpecEntries_length]⟩

/-- Instance of claim C1 (as amended) on the symbols 20, 27, 1, 31, 1 with the shift
codes 31 and 27. -/
theorem C1_decodeSymbolsTTY_text_witness :
    decodeSymbolsTTY 31 27 5 [20, 27, 1, 31, 1] "" =
        textOf (ttySpecEntries 31 27 TTYLetters [20, 27, 1, 31, 1]) ∧
      (decodeSymbolsTTY 31 27 5 [20, 27, 1, 31, 1] "").length =
        ([20, 27, 1, 31, 1].filter (fun s => !isShift 31 27 s)).length :=
  (C1_decodeSymbolsTTY_text 31 27 [20, 27, 1, 31, 1] "").2 (by decide)

/-- Claim C1 as stated fails: with the shift codes 31 and 27, the symbols 0, 1 are two
symbols that are not shift symbols and the specification gives them the two entries NUL
and E, but the text returned is empty. -/
theorem C1_counterexample :
    decodeSymbolsTTY 31 27 5 [0, 1] "" = "" ∧
      ttySpecEntries 31 27 TTYLetters [0, 1] = [0, 69] ∧
      decodeSymbolsTTY 31 27 5 [0, 1] "" ≠ textOf (ttySpecEntries 31 27 TTYLetters [0, 1]) ∧
      (decodeSymbolsTTY 31 27 5 [0, 1] "").length ≠
        ([0, 1].filter (fun s => !isShift 31 27 s)).length := by
  decide

/-- Claim C2: TTY round trip.  For every text and every sequence of indices such that
each character of the text is the entry of the Letters table at the matching index, an
index below 32 that is neither 0 nor a shift code, decoding the indices with
`decodeSymbolsTTY` at 5 bits per symbol gives the text back. -/
theorem C2_tty_round_trip (lt ft : Int) (text : List Char) (indices : List Nat)
    (str : String)
    (h : List.Forall₂ (fun (c : Char) (i : Nat) => i < 32 ∧ i ≠ 0 ∧ (i : Int) ≠ lt ∧ (i : Int) ≠ ft ∧
      ttyLetters.getD i default = c) text indices) :
    decodeSymbolsTTY lt ft 5 indices str = String.mk text := by
  obtain ⟨hent, hnz⟩ := ttySpecEntries_of_letters lt ft text indices h
  simp only [decodeSymbolsTTY, ne_eq, not_true_eq_false, if_false]
  rw [qstringOfCStr_eq, ttyBytes_eq_spec, hent, takeWhile_ne_zero_of_forall _ hnz,
    textOf_map_toNat]

/-- Instance of claim C2: HELLO, encoded as the indices 20, 1, 18, 18, 24, is decoded
to HELLO (shift codes 31 and 27). -/
theorem C2_tty_round_trip_witness :
    decodeSymbolsTTY 31 27 5 [20, 1, 18, 18, 24] "" = "HELLO" :=
  C2_tty_round_trip 31 27 ['H', 'E', 'L', 'L', 'O'] [20, 1, 18, 18, 24] "" (by
    repeat first
      | exact List.Forall₂.nil
      | refine List.Forall₂.cons (by decide) ?_)

/-- The loop of `decodeSymbolsASCII` appends the low seven bits of each symbol. -/
theorem foldl_asciiStep (symbols : List Nat) (acc : List Int) :
    symbols.foldl asciiStep acc =
      acc ++ symbols.map (fun s => ((s &&& 0x7F : Nat) : Int)) := by
  induction symbols generalizing acc with
  | nil => simp
  | cons sym rest ih => simp [List.foldl_cons, ih, asciiStep]

theorem asciiBytes_eq_map (symbols : List Nat) :
    asciiBytes symbols = symbols.map (fun s => ((s &&& 0x7F : Nat) : Int)) := by
  unfold asciiBytes
  rw [foldl_asciiStep]
  simp

/-- Claim C3 (as amended): with 7 bits per symbol, `decodeSymbolsASCII` returns the low
seven bits of the symbols, one character per symbol, cut before the first symbol whose
low seven bits are zero; when no symbol has its low seven bits at zero the text has
exactly one character per symbol, the i-th being the low seven bits of the i-th
symbol. -/
theorem C3_decodeSymbolsASCII_text (symbols : List Nat) (str : String) :
    decodeSymbolsASCII 7 symbols str =
        textOf ((symbols.map (fun s => ((s &&& 0x7F : Nat) : Int))).takeWhile
          (fun b => b != 0)) ∧
      ((∀ s ∈ symbols, s &&& 0x7F ≠ 0) →
        (decodeSymbolsASCII 7 symbols str).length = symbols.length ∧
          (decodeSymbolsASCII 7 symbols str).data =
            symbols.map (fun s => Char.ofNat (s &&& 0x7F))) := by
  have h0 : decodeSymbolsASCII 7 symbols str =
      textOf ((symbols.map (fun s => ((s &&& 0x7F : Nat) : Int))).takeWhile
        (fun b => b != 0)) := by
    simp only [decodeSymbolsASCII, ne_eq, not_true_eq_false, if_false]
    rw [qstringOfCStr_eq, asciiBytes_eq_map]
  refine ⟨h0, fun h => ?_⟩
  have hnz : ∀ b ∈ symbols.map (fun s => ((s &&& 0x7F : Nat) : Int)), b ≠ 0 := by
    intro b hb
    obtain ⟨s, hs, rfl⟩ := List.mem_map.mp hb
    exact_mod_cast h s hs
  rw [h0, takeWhile_ne_zero_of_forall _ hnz]
  constructor
  · rw [textOf_length, List.length_map]
  · simp [textOf, Function.comp_def]

/-- Instance of claim C3 (as amended) on the symbols 72, 105 and 33 + 128. -/
theorem C3_decodeSymbolsASCII_text_witness :
    (decodeSymbolsASCII 7 [72, 105, 161] "").length = 3 ∧
      (decodeSymbolsASCII 7 [72, 105, 161] "").data = ['H', 'i', '!'] :=
  (C3_decodeSymbolsASCII_text [72, 105, 161] "").2 (by decide)

/-- Claim C3 as stated fails: the three symbols 65, 0, 66 are decoded to the text of
one character A, not to a text of three characters. -/
theorem C3_counterexample :
    decodeSymbolsASCII 7 [65, 0, 66] "" = "A" ∧
      (decodeSymbolsASCII 7 [65, 0, 66] "").length ≠ [65, 0, 66].length := by
  decide

/-- Claim C4 (as amended): when the bits per symbol are not 7, `decodeSymbolsASCII`
leaves the output string as it was before the call, for every symbol sequence; the
output string is empty after the call exactly when it was empty before. -/
theorem C4_decodeSymbolsASCII_wrong_width (m_nbSymbolBits : Nat) (symbols : List Nat)
    (str : String) (h : m_nbSymbolBits ≠ 7) :
    decodeSymbolsASCII m_nbSymbolBits symbols str = str := by
  simp [decodeSymbolsASCII, h]

/-- Instance of claim C4 (as amended) at 5 bits per symbol. -/
theorem C4_decodeSymbolsASCII_wrong_width_witness :
    decodeSymbolsASCII 5 [72, 105] "" = "" :=
  C4_decodeSymbolsASCII_wrong_width 5 [72, 105] "" (by decide)

/-- Claim C4 as stated fails: at 5 bits per symbol, an output string holding the text
old before the call still holds it after the call. -/
theorem C4_counterexample :
    decodeSymbolsASCII 5 [72, 105] "old" = "old" ∧
      decodeSymbolsASCII 5 [72, 105] "old" ≠ "" := by
  decide

/-- Claim C5: in `decodeSymbolsTTY` at 5 bits per symbol, a sequence made of shift
symbols only is decoded to the empty text; the byte stored for a symbol that is not a
shift symbol is the entry, at its low five bits, of the Figures table when the most
recent shift symbol before it in the call is figures-shift and of the Letters table
when it is letters-shift or there is none, and nothing is stored for a shift symbol;
when no translated symbol has its low five bits at zero the text returned is made of
exactly these entries. -/
theorem C5_shift_selects_table (lt ft : Int) (symbols : List Nat) (str : String) :
    ((∀ s ∈ symbols, isShift lt ft s = true) →
        decodeSymbolsTTY lt ft 5 symbols str = "") ∧
      ttyBytes lt ft symbols = ttyByPosition lt ft symbols ∧
      ((∀ s ∈ symbols, isShift lt ft s = false → s &&& 0x1F ≠ 0) →
        decodeSymbolsTTY lt ft 5 symbols str = textOf (ttyByPosition lt ft symbols)) := by
  refine ⟨fun h => ?_, ttyBytes_eq_byPosition lt ft symbols, fun h => ?_⟩
  · rw [decodeSymbolsTTY_five, ttySpecEntries_all_shift lt ft symbols TTYLetters h]
    rfl
  · rw [decodeSymbolsTTY_five_of_ne_zero lt ft symbols str h, ← ttyBytes_eq_spec,
      ttyBytes_eq_byPosition]

/-- Instance of claim C5 with the shift codes 31 and 27: three shift symbols give the
empty text, and in 1, 27, 1, 31, 1 the symbol 1 is read through Letters, then through
Figures after the figures-shift, then through Letters again after the letters-shift. -/
theorem C5_shift_selects_table_witness :
    decodeSymbolsTTY 31 27 5 [31, 27, 27] "" = "" ∧
      (decodeSymbolsTTY 31 27 5 [1, 27, 1, 31, 1] "" =
        textOf (ttyByPosition 31 27 [1, 27, 1, 31, 1]) ∧
      textOf (ttyByPosition 31 27 [1, 27, 1, 31, 1]) = "E3E") :=
  ⟨(C5_shift_selects_table 31 27 [31, 27, 27] "").1 (by decide),
    (C5_shift_selects_table 31 27 [1, 27, 1, 31, 1] "").2.2 (by decide), by decide⟩

end LoRaDemodDecoder

/-! ## Theorems: dual-channel correlator -/

namespace InterferometerCorrelator

open CorrelationType

variable {R : Type}

theorem length_resize [Inhabited R] (v : List (Sample R)) (n : Nat) :
    (resize v n).length = n := by
  simp only [resize, List.length_append, List.length_take, List.length_replicate]
  omega

/-- After `adjustTCorrSize`, a time buffer whose size tracker did not exceed its length
holds at least `size` elements, and its tracker still does not exceed its length. -/
theorem adjustTCorrSize_fits [Inhabited R] (s : Correlator R) (size : Nat)
    (hinv : s.m_tcorrSize ≤ s.m_tcorr.length) :
    size ≤ (adjustTCorrSize s size).m_tcorr.length ∧
      (adjustTCorrSize s size).m_tcorrSize ≤ (adjustTCorrSize s size).m_tcorr.length := by
  unfold adjustTCorrSize
  split
  · simp [length_resize]
  · constructor
    · have h : (size : Int) ≤ s.m_tcorr.length := by omega
      exact_mod_cast h
    · exact hinv

theorem adjustTCorrSize_frame [Inhabited R] (s : Correlator R) (size : Nat) :
    (adjustTCorrSize s size).m_corrType = s.m_corrType ∧
      (adjustTCorrSize s size).m_fftSize = s.m_fftSize ∧
      (adjustTCorrSize s size).m_scorr = s.m_scorr ∧
      (adjustTCorrSize s size).m_scorrSize = s.m_scorrSize := by
  unfold adjustTCorrSize
  split <;> simp

theorem length_zipWith_take (f : Sample R → Sample R → Sample R) (a b : List (Sample R)) :
    (List.zipWith f (a.take (min a.length b.length)) b).length = min a.length b.length := by
  simp only [List.length_zipWith, List.length_take]
  omega

theorem getElem?_zipWith_take (f : Sample R → Sample R → Sample R) (a b : List (Sample R))
    (i : Nat) (x y : Sample R) (hx : a[i]? = some x) (hy : b[i]? = some y) :
    (List.zipWith f (a.take (min a.length b.length)) b)[i]? = some (f x y) := by
  have hia : i < a.length := (List.getElem?_eq_some_iff.mp hx).1
  have hib : i < b.length := (List.getElem?_eq_some_iff.mp hy).1
  have hi : i < min a.length b.length := lt_min hia hib
  rw [List.getElem?_zipWith, List.getElem?_take_of_lt hi, hx, hy]

/-- Effect of `performOpCorr` on a correlator whose time-buffer tracker does not exceed
the length of the time buffer: the call completes, the combined samples are stored from
the start of the time buffer, and the counters are set. -/
theorem performOpCorr_ok [Inhabited R] (s : Correlator R) (a b : List (Sample R))
    (f : Sample R → Sample R → Sample R) (hinv : s.m_tcorrSize ≤ s.m_tcorr.length) :
    ∃ s', performOpCorr s a b f = Outcome.ok s' ∧
      min a.length b.length ≤ s'.m_tcorr.length ∧
      s'.m_tcorr.take (min a.length b.length) =
        List.zipWith f (a.take (min a.length b.length)) b ∧
      (∀ (i : Nat) (x y : Sample R), a[i]? = some x → b[i]? = some y → s'.m_tcorr[i]? = some (f x y)) ∧
      s'.m_processed = (min a.length b.length : Nat) ∧ s'.m_remaining = 0 ∧
      s'.m_tcorrSize ≤ s'.m_tcorr.length := by
  have hfit := adjustTCorrSize_fits s (min a.length b.length) hinv
  have hlen := length_zipWith_take f a b
  have hw : writeFromBegin (adjustTCorrSize s (min a.length b.length)).m_tcorr
      (List.zipWith f (a.take (min a.length b.length)) b) =
      some (List.zipWith f (a.take (min a.length b.length)) b ++
        (adjustTCorrSize s (min a.length b.length)).m_tcorr.drop (min a.length b.length)) := by
    unfold writeFromBegin
    rw [hlen, if_pos hfit.1]
  have hcall : performOpCorr s a b f = Outcome.ok
      { adjustTCorrSize s (min a.length b.length) with
        m_tcorr := List.zipWith f (a.take (min a.length b.length)) b ++
          (adjustTCorrSize s (min a.length b.length)).m_tcorr.drop (min a.length b.length)
        m_processed := (min a.length b.length : Nat)
        m_remaining := 0 } := by
    simp only [performOpCorr, hw]
  refine ⟨_, hcall, ?_, ?_, ?_, rfl, rfl, ?_⟩
  · simp only [List.length_append, hlen, List.length_drop]
    omega
  · simp only
    rw [List.take_append_of_le_length (le_of_eq hlen.symm), List.take_of_length_le (le_of_eq hlen)]
  · intro i x y hx hy
    have hia : i < a.length := (List.getElem?_eq_some_iff.mp hx).1
    have hib : i < b.length := (List.getElem?_eq_some_iff.mp hy).1
    have hi : i < (List.zipWith f (a.take (min a.length b.length)) b).length := by
      rw [hlen]
      exact lt_min hia hib
    simp only
    rw [List.getElem?_append_left hi]
    exact getElem?_zipWith_take f a b i x y hx hy
  · simp only [List.length_append, hlen, List.length_drop]
    have h1 := hfit.2
    have h2 := hfit.1
    have h3 : (adjustTCorrSize s (min a.length b.length)).m_tcorrSize ≤
        (adjustTCorrSize s (min a.length b.length)).m_tcorr.length := h1
    push_cast
    omega

/-- The pointwise combination of `k` copies of `x` with `k` copies of `y` through
`performOpCorr` fills the first `k` places of the time buffer with the combination of
`x` and `y`. -/
theorem performOpCorr_replicate [Inhabited R] (s : Correlator R) (k : Nat) (x y : Sample R)
    (f : Sample R → Sample R → Sample R) (hinv : s.m_tcorrSize ≤ s.m_tcorr.length) :
    ∃ s', performOpCorr s (List.replicate k x) (List.replicate k y) f = Outcome.ok s' ∧
      s'.m_tcorr.take k = List.replicate k (f x y) := by
  obtain ⟨s', hcall, _, htake, _⟩ :=
    performOpCorr_ok s (List.replicate k x) (List.replicate k y) f hinv
  refine ⟨s', hcall, ?_⟩
  simpa using htake

/-- Pointwise-add mode on a correlator whose time-buffer size tracker does not exceed
the length of its time buffer: `performCorr` applied to any two sample
vectors `a` and `b` completes, stores in the first `n = min(|a|,|b|)` places of the
time buffer the samples `(re a[i] + re b[i], im a[i] + im b[i])`, sets the processed
count to `n` and the remaining count to 0; in particular `k` samples `(1,0)` and `k`
samples `(2,0)` give `(3,0)` at each of the `k` places. -/
theorem performCorr_add_of_tracker_fits :
    (∀ (R : Type) [Inhabited R] [Add R] [Sub R] [Mul R] (eng : BlockEngine R)
        (s : Correlator R) (a b : List (Sample R)),
        s.m_corrType = CorrelationAdd → s.m_tcorrSize ≤ s.m_tcorr.length →
        ∃ s', performCorr eng s a b = Outcome.ok s' ∧
          min a.length b.length ≤ s'.m_tcorr.length ∧
          (∀ (i : Nat) (x y : Sample R), a[i]? = some x → b[i]? = some y →
            s'.m_tcorr[i]? = some ⟨x.real + y.real, x.imag + y.imag⟩) ∧
          s'.m_processed = (min a.length b.length : Nat) ∧ s'.m_remaining = 0) ∧
      (∀ (eng : BlockEngine Int) (s : Correlator Int) (k : Nat),
        s.m_corrType = CorrelationAdd → s.m_tcorrSize ≤ s.m_tcorr.length →
        ∃ s', performCorr eng s (List.replicate k ⟨1, 0⟩) (List.replicate k ⟨2, 0⟩) =
            Outcome.ok s' ∧
          s'.m_tcorr.take k = List.replicate k ⟨3, 0⟩) := by
  constructor
  · intro R _ _ _ _ eng s a b hmode hinv
    obtain ⟨s', hcall, hlen, _, hget, hp, hr, _⟩ := performOpCorr_ok s a b sAdd hinv
    exact ⟨s', by simp only [performCorr, hmode, hcall], hlen, hget, hp, hr⟩
  · intro eng s k hmode hinv
    obtain ⟨s', hcall, htake⟩ := performOpCorr_replicate s k ⟨1, 0⟩ ⟨2, 0⟩ sAdd hinv
    exact ⟨s', by simp only [performCorr, hmode, hcall], htake⟩

/-- Pointwise-add mode on a correlator built with `fftSize = 4` whose size trackers hold
the length 8 of the buffers, with three samples per channel. -/
theorem performCorr_add_example :
    ∃ s', performCorr zeroEngine (construct 4 8 8 0 0)
        (List.replicate 3 ⟨1, 0⟩) (List.replicate 3 ⟨2, 0⟩) = Outcome.ok s' ∧
      s'.m_tcorr.take 3 = List.replicate 3 ⟨3, 0⟩ :=
  performCorr_add_of_tracker_fits.2 zeroEngine (construct 4 8 8 0 0) 3 rfl (by decide)

/-- Claim C6, the code at the failing input: a correlator is built with `fftSize = 1`
(time buffer of 2 elements) and its time-buffer size tracker, which the constructor does
not set, holds 100.  `performCorr` in pointwise-add mode, the mode set by the
constructor, is called on 5 samples `(1,0)` and 5 samples `(2,0)`:
`adjustTCorrSize(5)` sees `5 > 100` false and leaves the buffer at 2 elements, and the
5 sums are written from its start, past its end, where the claim has 5 output samples
`(3,0)`.  With the tracker at 2, the length of the buffer, the same call completes and
leaves `(3,0)` at the 5 places. -/
theorem C6_add_faults_at_failing_input (eng : BlockEngine Int) :
    (construct 1 100 100 0 0 : Correlator Int).m_corrType = CorrelationAdd ∧
      (construct 1 100 100 0 0 : Correlator Int).m_tcorr.length = 2 ∧
      (adjustTCorrSize (construct 1 100 100 0 0 : Correlator Int) 5).m_tcorr.length = 2 ∧
      writeFromBegin (adjustTCorrSize (construct 1 100 100 0 0 : Correlator Int) 5).m_tcorr
        (List.zipWith sAdd (List.replicate 5 ⟨1, 0⟩) (List.replicate 5 ⟨2, 0⟩)) = none ∧
      performCorr eng (construct 1 100 100 0 0)
        (List.replicate 5 ⟨1, 0⟩) (List.replicate 5 ⟨2, 0⟩) = Outcome.fault ∧
      (∃ s', performCorr eng (construct 1 2 2 0 0)
          (List.replicate 5 ⟨1, 0⟩) (List.replicate 5 ⟨2, 0⟩) = Outcome.ok s' ∧
        s'.m_tcorr.take 5 = List.replicate 5 ⟨3, 0⟩ ∧ s'.m_processed = 5 ∧
        s'.m_remaining = 0) := by
  refine ⟨rfl, by decide, by decide, rfl, rfl, ⟨_, rfl, by decide, rfl, rfl⟩⟩

/-- Conjugate-multiply mode on a correlator whose time-buffer size tracker does not
exceed the length of its time buffer: `performCorr` applied to any
two sample vectors `a` and `b` completes and stores at every place `i` below
`min(|a|,|b|)` of the time buffer the product of `a[i]` by the conjugate of `b[i]`,
with real part `ar*br + ai*bi` and imaginary part `ai*br - ar*bi`; in particular `k`
pairs `(1,1)`, `(1,-1)` give real part 0 and imaginary part 2 at each of the `k`
places. -/
theorem performCorr_mulConj_of_tracker_fits :
    (∀ (R : Type) [Inhabited R] [Add R] [Sub R] [Mul R] (eng : BlockEngine R)
        (s : Correlator R) (a b : List (Sample R)),
        s.m_corrType = CorrelationMultiply → s.m_tcorrSize ≤ s.m_tcorr.length →
        ∃ s', performCorr eng s a b = Outcome.ok s' ∧
          min a.length b.length ≤ s'.m_tcorr.length ∧
          (∀ (i : Nat) (x y : Sample R), a[i]? = some x → b[i]? = some y →
            s'.m_tcorr[i]? = some ⟨x.real * y.real + x.imag * y.imag,
              x.imag * y.real - x.real * y.imag⟩)) ∧
      (∀ (eng : BlockEngine Int) (s : Correlator Int) (k : Nat),
        s.m_corrType = CorrelationMultiply → s.m_tcorrSize ≤ s.m_tcorr.length →
        ∃ s', performCorr eng s (List.replicate k ⟨1, 1⟩) (List.replicate k ⟨1, -1⟩) =
            Outcome.ok s' ∧
          s'.m_tcorr.take k = List.replicate k ⟨0, 2⟩) := by
  constructor
  · intro R _ _ _ _ eng s a b hmode hinv
    obtain ⟨s', hcall, hlen, _, hget, _⟩ := performOpCorr_ok s a b sMulConj hinv
    exact ⟨s', by simp only [performCorr, hmode, hcall], hlen, hget⟩
  · intro eng s k hmode hinv
    obtain ⟨s', hcall, htake⟩ := performOpCorr_replicate s k ⟨1, 1⟩ ⟨1, -1⟩ sMulConj hinv
    exact ⟨s', by simp only [performCorr, hmode, hcall], htake⟩

/-- Conjugate-multiply mode on a correlator built with `fftSize = 4` whose size
trackers hold the length 8 of the buffers, with three samples per channel. -/
theorem performCorr_mulConj_example :
    ∃ s', performCorr zeroEngine (setCorrType (construct 4 8 8 0 0) CorrelationMultiply)
        (List.replicate 3 ⟨1, 1⟩) (List.replicate 3 ⟨1, -1⟩) = Outcome.ok s' ∧
      s'.m_tcorr.take 3 = List.replicate 3 ⟨0, 2⟩ :=
  performCorr_mulConj_of_tracker_fits.2 zeroEngine (setCorrType (construct 4 8 8 0 0) CorrelationMultiply)
    3 rfl (by decide)

/-- Claim C7, the code at the failing input: a correlator is built with `fftSize = 1`
(time buffer of 2 elements), its time-buffer size tracker, which the constructor does
not set, holds 100, and it is set to conjugate-multiply mode.  `performCorr` is called
on 5 samples `(1,1)` and 5 samples `(1,-1)`: `adjustTCorrSize(5)` leaves the buffer at 2
elements and the 5 products are written from its start, past its end, where the claim
has the product `(0,2)` at each of the 5 places.  With the tracker at 2, the length of
the buffer, the same call completes and leaves `(0,2)` at the 5 places. -/
theorem C7_mulConj_faults_at_failing_input (eng : BlockEngine Int) :
    (construct 1 100 100 0 0 : Correlator Int).m_tcorr.length = 2 ∧
      (adjustTCorrSize (setCorrType (construct 1 100 100 0 0 : Correlator Int)
        CorrelationMultiply) 5).m_tcorr.length = 2 ∧
      writeFromBegin (adjustTCorrSize (setCorrType (construct 1 100 100 0 0 : Correlator Int)
          CorrelationMultiply) 5).m_tcorr
        (List.zipWith sMulConj (List.replicate 5 ⟨1, 1⟩) (List.replicate 5 ⟨1, -1⟩)) = none ∧
      performCorr eng (setCorrType (construct 1 100 100 0 0) CorrelationMultiply)
        (List.replicate 5 ⟨1, 1⟩) (List.replicate 5 ⟨1, -1⟩) = Outcome.fault ∧
      (∃ s', performCorr eng (setCorrType (construct 1 2 2 0 0) CorrelationMultiply)
          (List.replicate 5 ⟨1, 1⟩) (List.replicate 5 ⟨1, -1⟩) = Outcome.ok s' ∧
        s'.m_tcorr.take 5 = List.replicate 5 ⟨0, 2⟩) := by
  refine ⟨by decide, by decide, rfl, rfl, ⟨_, rfl, by decide⟩⟩

theorem writeFromBegin_range {α : Type} (buf : List α) (n : Nat) (g : Nat → α)
    (h : n ≤ buf.length) :
    ∃ out, writeFromBegin buf ((List.range n).map g) = some out ∧ out.length = buf.length := by
  refine ⟨(List.range n).map g ++ buf.drop n, ?_, ?_⟩
  · simp [writeFromBegin, h]
  · simp only [List.length_append, List.length_map, List.length_range, List.length_drop]
    omega

/-- Number of samples consumed by the loop of `performFFTCorr` started with `size`
samples and blocks of `f` samples: the loop runs while more than `f` samples are left. -/
theorem consumed_step (f size : Nat) (hf : 1 ≤ f) (h : f < size) :
    f * ((size - 1) / f) = f + f * ((size - f - 1) / f) := by
  have e : size - 1 = (size - f - 1) + f := by omega
  conv_lhs => rw [e]
  rw [Nat.add_div_right _ (by omega : 0 < f), Nat.mul_succ, Nat.add_comm]

theorem consumed_le (f size : Nat) : f * ((size - 1) / f) ≤ size := by
  have h := Nat.mul_div_le (size - 1) f
  omega

/-- The loop of `performFFTCorr`, with blocks of at least one sample, enough turns, and
result buffers that hold `2*m_fftSize` elements (or no block to process), ends after
consuming `m_fftSize * ((size - 1) / m_fftSize)` samples and leaves the lengths of the
result buffers and the size trackers as they were. -/
theorem fftLoop_ok (eng : BlockEngine R) (data0 data1 : List (Sample R)) (fuel : Nat) :
    ∀ (size done : Nat) (s : Correlator R), 1 ≤ s.m_fftSize → size ≤ fuel →
      (size ≤ s.m_fftSize ∨
        (2 * s.m_fftSize ≤ s.m_scorr.length ∧ 2 * s.m_fftSize ≤ s.m_tcorr.length)) →
      ∃ s', fftLoop eng data0 data1 fuel size done s =
          Outcome.ok (size - s.m_fftSize * ((size - 1) / s.m_fftSize),
            done + s.m_fftSize * ((size - 1) / s.m_fftSize), s') ∧
        s'.m_fftSize = s.m_fftSize ∧ s'.m_corrType = s.m_corrType ∧
        s'.m_scorr.length = s.m_scorr.length ∧ s'.m_tcorr.length = s.m_tcorr.length ∧
        s'.m_scorrSize = s.m_scorrSize ∧ s'.m_tcorrSize = s.m_tcorrSize := by
  induction fuel with
  | zero =>
    intro size done s hf hfuel _
    have h0 : size = 0 := by omega
    subst h0
    exact ⟨s, by simp [fftLoop], rfl, rfl, rfl, rfl, rfl, rfl⟩
  | succ fuel ih =>
    intro size done s hf hfuel hbuf
    by_cases hgt : size > s.m_fftSize
    · have hb : 2 * s.m_fftSize ≤ s.m_scorr.length ∧ 2 * s.m_fftSize ≤ s.m_tcorr.length := by
        rcases hbuf with h | h
        · omega
        · exact h
      obtain ⟨sc, hsc, hscl⟩ := writeFromBegin_range s.m_scorr (2 * s.m_fftSize)
        (eng.spectrum ((data0.drop done).take s.m_fftSize) ((data1.drop done).take s.m_fftSize))
        hb.1
      obtain ⟨tc, htc, htcl⟩ := writeFromBegin_range s.m_tcorr (2 * s.m_fftSize)
        (eng.time ((data0.drop done).take s.m_fftSize) ((data1.drop done).take s.m_fftSize))
        hb.2
      obtain ⟨s', hcall, h1, h2, h3, h4, h5, h6⟩ :=
        ih (size - s.m_fftSize) (done + s.m_fftSize)
          { s with m_scorr := sc, m_tcorr := tc } hf (by omega)
          (Or.inr ⟨by simpa [hscl] using hb.1, by simpa [htcl] using hb.2⟩)
      refine ⟨s', ?_, h1, h2, by simpa [hscl] using h3, by simpa [htcl] using h4, h5, h6⟩
      simp only [fftLoop, hgt, if_true, hsc, htc]
      rw [hcall]
      have e := consumed_step s.m_fftSize size hf hgt
      have hle := consumed_le s.m_fftSize (size - s.m_fftSize)
      simp only at e hle ⊢
      rw [e]
      congr 2
      · omega
      · congr 1
        omega
    · have hq : (size - 1) / s.m_fftSize = 0 := Nat.div_eq_of_lt (by omega)
      refine ⟨s, ?_, rfl, rfl, rfl, rfl, rfl, rfl⟩
      simp [fftLoop, hgt, hq]

/-- A buffer whose length does not exceed its size tracker is not shortened by
`adjustSCorrSize`, and its length still does not exceed its tracker. -/
theorem adjustSCorrSize_no_shrink [Inhabited R] (s : Correlator R) (size : Nat)
    (h : (s.m_scorr.length : Int) ≤ s.m_scorrSize) :
    s.m_scorr.length ≤ (adjustSCorrSize s size).m_scorr.length ∧
      ((adjustSCorrSize s size).m_scorr.length : Int) ≤ (adjustSCorrSize s size).m_scorrSize := by
  unfold adjustSCorrSize
  split
  · simp only [length_resize]
    constructor
    · have h2 : (s.m_scorr.length : Int) ≤ size := by omega
      exact_mod_cast h2
    · exact le_refl _
  · exact ⟨le_refl _, h⟩

/-- A buffer whose length does not exceed its size tracker is not shortened by
`adjustTCorrSize`, and its length still does not exceed its tracker. -/
theorem adjustTCorrSize_no_shrink [Inhabited R] (s : Correlator R) (size : Nat)
    (h : (s.m_tcorr.length : Int) ≤ s.m_tcorrSize) :
    s.m_tcorr.length ≤ (adjustTCorrSize s size).m_tcorr.length ∧
      ((adjustTCorrSize s size).m_tcorr.length : Int) ≤ (adjustTCorrSize s size).m_tcorrSize := by
  unfold adjustTCorrSize
  split
  · simp only [length_resize]
    constructor
    · have h2 : (s.m_tcorr.length : Int) ≤ size := by omega
      exact_mod_cast h2
    · exact le_refl _
  · exact ⟨le_refl _, h⟩

theorem adjustSCorrSize_frame [Inhabited R] (s : Correlator R) (size : Nat) :
    (adjustSCorrSize s size).m_corrType = s.m_corrType ∧
      (adjustSCorrSize s size).m_fftSize = s.m_fftSize ∧
      (adjustSCorrSize s size).m_tcorr = s.m_tcorr ∧
      (adjustSCorrSize s size).m_tcorrSize = s.m_tcorrSize := by
  unfold adjustSCorrSize
  split <;> simp

/-- Counters left by `performFFTCorr`, with blocks of `f = m_fftSize ≥ 1` samples, on a
correlator whose result buffers hold at least `2*f` elements and are not longer than
their size trackers say: with `n = min(|a|,|b|)`, the call completes, the processed
count is `f * ((n - 1) / f)`, the remaining count is the number of samples left minus
`f`, and the two counts add up to `n - f`. -/
theorem performFFTCorr_ok [Inhabited R] (eng : BlockEngine R) (s : Correlator R)
    (a b : List (Sample R)) (hf : 1 ≤ s.m_fftSize)
    (hs1 : 2 * s.m_fftSize ≤ s.m_scorr.length) (hs2 : (s.m_scorr.length : Int) ≤ s.m_scorrSize)
    (ht1 : 2 * s.m_fftSize ≤ s.m_tcorr.length) (ht2 : (s.m_tcorr.length : Int) ≤ s.m_tcorrSize) :
    ∃ s', performFFTCorr eng s a b = Outcome.ok s' ∧
      s'.m_processed = ((s.m_fftSize * ((min a.length b.length - 1) / s.m_fftSize) : Nat) : Int) ∧
      s'.m_remaining = ((min a.length b.length -
        s.m_fftSize * ((min a.length b.length - 1) / s.m_fftSize) : Nat) : Int) - s.m_fftSize ∧
      s'.m_processed + s'.m_remaining = (min a.length b.length : Nat) - (s.m_fftSize : Int) ∧
      s.m_scorr.length ≤ s'.m_scorr.length ∧ s.m_tcorr.length ≤ s'.m_tcorr.length := by
  have hS := adjustSCorrSize_no_shrink s (min a.length b.length) hs2
  have hSf := adjustSCorrSize_frame s (min a.length b.length)
  have hT := adjustTCorrSize_no_shrink (adjustSCorrSize s (min a.length b.length))
    (min a.length b.length) (by rw [hSf.2.2.1, hSf.2.2.2]; exact ht2)
  have hTf := adjustTCorrSize_frame (adjustSCorrSize s (min a.length b.length))
    (min a.length b.length)
  have hfs : (adjustTCorrSize (adjustSCorrSize s (min a.length b.length))
      (min a.length b.length)).m_fftSize = s.m_fftSize := by rw [hTf.2.1, hSf.2.1]
  obtain ⟨s3, hloop, h1, _, h3, h4, _, _⟩ := fftLoop_ok eng a b (min a.length b.length)
    (min a.length b.length) 0
    (adjustTCorrSize (adjustSCorrSize s (min a.length b.length)) (min a.length b.length))
    (by rw [hfs]; exact hf) (le_refl _)
    (Or.inr ⟨by rw [hfs, hTf.2.2.1]; exact le_trans hs1 hS.1,
      by rw [hfs]; rw [hSf.2.2.1] at hT; exact le_trans ht1 hT.1⟩)
  rw [hfs] at hloop
  have hle := consumed_le s.m_fftSize (min a.length b.length)
  refine ⟨{ s3 with
      m_processed := ((0 + s.m_fftSize * ((min a.length b.length - 1) / s.m_fftSize) : Nat) : Int)
      m_remaining := ((min a.length b.length -
        s.m_fftSize * ((min a.length b.length - 1) / s.m_fftSize) : Nat) : Int) - s3.m_fftSize },
    by simp only [performFFTCorr, hloop], ?_, ?_, ?_, ?_, ?_⟩
  · simp
  · simp only [h1, hfs]
  · simp only [h1, hfs]
    push_cast [Nat.cast_sub hle]
    ring
  · simp only [h3, hTf.2.2.1]
    exact hS.1
  · simp only [h4]
    rw [hSf.2.2.1] at hT
    exact hT.1

theorem writeFromBegin_length {α : Type} (buf vals out : List α)
    (h : writeFromBegin buf vals = some out) : out.length = buf.length := by
  unfold writeFromBegin at h
  split at h
  · rename_i hle
    cases h
    simp only [List.length_append, List.length_drop]
    omega
  · cases h

/-- Whenever the loop of `performFFTCorr` ends, the lengths of both result buffers, the
size trackers, the transform size and the mode are as they were when it started. -/
theorem fftLoop_frame (eng : BlockEngine R) (data0 data1 : List (Sample R)) (fuel : Nat) :
    ∀ (size done : Nat) (s : Correlator R) (size' done' : Nat) (s' : Correlator R),
      fftLoop eng data0 data1 fuel size done s = Outcome.ok (size', done', s') →
      s'.m_scorr.length = s.m_scorr.length ∧ s'.m_tcorr.length = s.m_tcorr.length ∧
        s'.m_scorrSize = s.m_scorrSize ∧ s'.m_tcorrSize = s.m_tcorrSize ∧
        s'.m_fftSize = s.m_fftSize ∧ s'.m_corrType = s.m_corrType := by
  induction fuel with
  | zero =>
    intro size done s size' done' s' h
    unfold fftLoop at h
    split at h
    · cases h
    · cases h
      exact ⟨rfl, rfl, rfl, rfl, rfl, rfl⟩
  | succ fuel ih =>
    intro size done s size' done' s' h
    unfold fftLoop at h
    split at h
    · simp only at h
      split at h
      · rename_i sc tc hsc htc
        obtain ⟨h1, h2, h3, h4, h5, h6⟩ := ih _ _ _ _ _ _ h
        have e1 := writeFromBegin_length _ _ _ hsc
        have e2 := writeFromBegin_length _ _ _ htc
        simp only at h1 h2 h3 h4 h5 h6
        exact ⟨h1.trans e1, h2.trans e2, h3, h4, h5, h6⟩
      · cases h
    · cases h
      exact ⟨rfl, rfl, rfl, rfl, rfl, rfl⟩

/-- One `performCorr` call, in any mode, on a correlator whose result buffers are not
longer than their size trackers say: when the call completes, neither buffer is shorter
than before, and the buffers are still not longer than their trackers say. -/
theorem performCorr_no_shrink [Inhabited R] [Add R] [Sub R] [Mul R] (eng : BlockEngine R)
    (s s' : Correlator R) (a b : List (Sample R))
    (hs : (s.m_scorr.length : Int) ≤ s.m_scorrSize)
    (ht : (s.m_tcorr.length : Int) ≤ s.m_tcorrSize)
    (hcall : performCorr eng s a b = Outcome.ok s') :
    (s.m_scorr.length ≤ s'.m_scorr.length ∧ s.m_tcorr.length ≤ s'.m_tcorr.length) ∧
      (s'.m_scorr.length : Int) ≤ s'.m_scorrSize ∧
      (s'.m_tcorr.length : Int) ≤ s'.m_tcorrSize := by
  have hT := adjustTCorrSize_no_shrink s (min a.length b.length) ht
  have hTf := adjustTCorrSize_frame s (min a.length b.length)
  have hop : ∀ f : Sample R → Sample R → Sample R, performOpCorr s a b f = Outcome.ok s' →
      (s.m_scorr.length ≤ s'.m_scorr.length ∧ s.m_tcorr.length ≤ s'.m_tcorr.length) ∧
        (s'.m_scorr.length : Int) ≤ s'.m_scorrSize ∧
        (s'.m_tcorr.length : Int) ≤ s'.m_tcorrSize := by
    intro f h
    unfold performOpCorr at h
    simp only at h
    split at h
    · rename_i tc htc
      have e := writeFromBegin_length _ _ _ htc
      cases h
      simp only [e, hTf.2.2.1, hTf.2.2.2]
      exact ⟨⟨le_refl _, hT.1⟩, hs, hT.2⟩
    · cases h
  unfold performCorr at hcall
  split at hcall
  · exact hop _ hcall
  · exact hop _ hcall
  · unfold performFFTCorr at hcall
    simp only at hcall
    split at hcall
    · rename_i size' done' s3 hloop
      cases hcall
      obtain ⟨h1, h2, h3, h4, _, _⟩ := fftLoop_frame eng a b _ _ _ _ _ _ _ hloop
      have hS := adjustSCorrSize_no_shrink s (min a.length b.length) hs
      have hSf := adjustSCorrSize_frame s (min a.length b.length)
      have hT2 := adjustTCorrSize_no_shrink (adjustSCorrSize s (min a.length b.length))
        (min a.length b.length) (by rw [hSf.2.2.1, hSf.2.2.2]; exact ht)
      have hTf2 := adjustTCorrSize_frame (adjustSCorrSize s (min a.length b.length))
        (min a.length b.length)
      simp only [h1, h2, h3, h4, hTf2.2.2.1, hTf2.2.2.2]
      rw [hSf.2.2.1] at hT2
      exact ⟨⟨hS.1, hT2.1⟩, hS.2, hT2.2⟩
    · cases hcall
    · cases hcall
  · cases hcall
    exact ⟨⟨le_refl _, le_refl _⟩, hs, ht⟩

/-- Through any sequence of `performCorr` calls in any modes, started on a correlator
whose result buffers are not longer than their size trackers say, the lengths of the
two result buffers never decrease from one call to the next. -/
theorem performCorrCalls_no_shrink [Inhabited R] [Add R] [Sub R] [Mul R]
    (eng : BlockEngine R)
    (calls : List (CorrelationType × List (Sample R) × List (Sample R))) :
    ∀ s : Correlator R, (s.m_scorr.length : Int) ≤ s.m_scorrSize →
      (s.m_tcorr.length : Int) ≤ s.m_tcorrSize →
      List.Chain (fun x y : Correlator R =>
        x.m_scorr.length ≤ y.m_scorr.length ∧ x.m_tcorr.length ≤ y.m_tcorr.length)
        s (performCorrCalls eng s calls) := by
  induction calls with
  | nil =>
    intro s _ _
    exact List.Chain.nil
  | cons call rest ih =>
    intro s hs ht
    obtain ⟨mode, a, b⟩ := call
    unfold performCorrCalls
    split
    · rename_i s' hcall
      obtain ⟨hmono, hs', ht'⟩ := performCorr_no_shrink eng (setCorrType s mode) s' a b hs ht hcall
      exact List.Chain.cons hmono (ih s' hs' ht')
    · exact List.Chain.nil

/-- On the correlators of `performFFTCorr_ok`, the processed count and the remaining
count left by `performFFTCorr` never add up to the number of samples given. -/
theorem performFFTCorr_sum_ne [Inhabited R] (eng : BlockEngine R) (s : Correlator R)
    (a b : List (Sample R)) (hf : 1 ≤ s.m_fftSize)
    (hs1 : 2 * s.m_fftSize ≤ s.m_scorr.length) (hs2 : (s.m_scorr.length : Int) ≤ s.m_scorrSize)
    (ht1 : 2 * s.m_fftSize ≤ s.m_tcorr.length) (ht2 : (s.m_tcorr.length : Int) ≤ s.m_tcorrSize) :
    ∃ s', performFFTCorr eng s a b = Outcome.ok s' ∧
      s'.m_processed + s'.m_remaining ≠ (min a.length b.length : Nat) := by
  obtain ⟨s', hcall, _, _, hsum, _⟩ := performFFTCorr_ok eng s a b hf hs1 hs2 ht1 ht2
  refine ⟨s', hcall, ?_⟩
  rw [hsum]
  have h : (1 : Int) ≤ s.m_fftSize := by exact_mod_cast hf
  omega

/-- Claim C8, the code at the failing input: a correlator built with `fftSize = 4`,
whose size trackers hold the length 8 of the buffers, is set to FFT cross-correlation
mode and given 10 samples per channel.  The call completes with a processed count of 8
and a remaining count of `2 - 4 = -2` (4294967294 when read as an unsigned 32-bit
number): their sum is 6 and not the 10 samples given. -/
theorem C8_fft_counters_at_failing_input (eng : BlockEngine Int) :
    ∃ s', performCorr eng (setCorrType (construct 4 8 8 0 0) CorrelationCorrelation)
        (List.replicate 10 ⟨1, 0⟩) (List.replicate 10 ⟨2, 0⟩) = Outcome.ok s' ∧
      s'.m_processed = 8 ∧ s'.m_remaining = -2 ∧
      s'.m_remaining % 4294967296 = 4294967294 ∧
      s'.m_processed + s'.m_remaining = 6 ∧
      s'.m_processed + s'.m_remaining ≠
        (min (List.replicate 10 (⟨1, 0⟩ : Sample Int)).length
          (List.replicate 10 (⟨2, 0⟩ : Sample Int)).length : Nat) := by
  obtain ⟨s', hcall, hp, hr, _, _⟩ := performFFTCorr_ok eng
    (setCorrType (construct 4 8 8 0 0) CorrelationCorrelation)
    (List.replicate 10 ⟨1, 0⟩) (List.replicate 10 ⟨2, 0⟩)
    (by decide) (by decide) (by decide) (by decide) (by decide)
  have hp8 : s'.m_processed = 8 := by
    rw [hp]
    decide
  have hr2 : s'.m_remaining = -2 := by
    rw [hr]
    decide
  refine ⟨s', hcall, hp8, hr2, ?_, ?_, ?_⟩
  · rw [hr2]
    decide
  · rw [hp8, hr2]
    decide
  · rw [hp8, hr2]
    decide

/-- Claim C9, the code at the failing input: a correlator built with `fftSize = 4`,
whose size trackers hold the length 8 of the buffers, is set to FFT cross-correlation
mode and given 8 samples per channel, two full blocks.  The call completes with a
processed count of 4, not `4 * (8 / 4) = 8`: a full block of 4 samples is left. -/
theorem C9_fft_blocks_at_failing_input (eng : BlockEngine Int) :
    ∃ s', performCorr eng (setCorrType (construct 4 8 8 0 0) CorrelationCorrelation)
        (List.replicate 8 ⟨1, 0⟩) (List.replicate 8 ⟨2, 0⟩) = Outcome.ok s' ∧
      s'.m_processed = 4 ∧
      s'.m_processed ≠ ((4 * (8 / 4) : Nat) : Int) ∧
      ¬ ((8 : Int) - s'.m_processed < 4) := by
  obtain ⟨s', hcall, hp, _, _, _⟩ := performFFTCorr_ok eng
    (setCorrType (construct 4 8 8 0 0) CorrelationCorrelation)
    (List.replicate 8 ⟨1, 0⟩) (List.replicate 8 ⟨2, 0⟩)
    (by decide) (by decide) (by decide) (by decide) (by decide)
  have hp4 : s'.m_processed = 4 := by
    rw [hp]
    decide
  refine ⟨s', hcall, hp4, ?_, ?_⟩
  · rw [hp4]
    decide
  · rw [hp4]
    decide

/-- Whatever value the time-buffer size tracker holds after construction, there are a
transform size and an input length for which `adjustTCorrSize`, called on the
correlator just built, shortens the time buffer. -/
theorem adjustTCorrSize_shrinks_after_construct (c d p r : Int) :
    ∃ fftSize size : Nat, 1 ≤ fftSize ∧
      (adjustTCorrSize (construct fftSize d c p r : Correlator Int) size).m_tcorr.length <
        (construct fftSize d c p r : Correlator Int).m_tcorr.length := by
  refine ⟨(c + 1).toNat + 1, (c + 1).toNat, by omega, ?_⟩
  have h : ((c + 1).toNat : Int) > c := by
    have := Int.self_le_toNat (c + 1)
    omega
  simp only [adjustTCorrSize, construct, h, if_true, length_resize]
  omega

/-- The other face of the unset tracker: on a correlator built with `fftSize = 1` (time
buffer of 2 elements) whose time-buffer size tracker holds 100, `adjustTCorrSize(5)`
does not resize and the 5 results of a pointwise call are written past the end of the
buffer. -/
theorem performOpCorr_fault_when_tracker_too_large (eng : BlockEngine Int) :
    performCorr eng (construct 1 100 100 0 0)
      (List.replicate 5 ⟨1, 0⟩) (List.replicate 5 ⟨2, 0⟩) = Outcome.fault := by
  rfl

/-- Claim C10, the code at the failing input: a correlator is built with `fftSize = 4`
(both buffers of 8 elements) and its size trackers, which the constructor does not set,
hold 0.  One `performCorr` call in the mode set by the constructor (pointwise add) on
one sample per channel leaves a time buffer of 1 element; one call in FFT
cross-correlation mode on one sample per channel leaves both buffers with 1 element.
The calls `adjustTCorrSize(1)` and `adjustSCorrSize(1)` are what shortens them. -/
theorem C10_buffers_shrink_at_failing_input (eng : BlockEngine Int) :
    (construct 4 0 0 0 0 : Correlator Int).m_scorr.length = 8 ∧
      (construct 4 0 0 0 0 : Correlator Int).m_tcorr.length = 8 ∧
      (∃ s', performCorr eng (construct 4 0 0 0 0) [⟨1, 0⟩] [⟨2, 0⟩] = Outcome.ok s' ∧
        s'.m_tcorr.length = 1) ∧
      (∃ s', performCorr eng (setCorrType (construct 4 0 0 0 0) CorrelationCorrelation)
          [⟨1, 0⟩] [⟨2, 0⟩] = Outcome.ok s' ∧
        s'.m_scorr.length = 1 ∧ s'.m_tcorr.length = 1) ∧
      (adjustTCorrSize (construct 4 0 0 0 0 : Correlator Int) 1).m_tcorr.length = 1 ∧
      (adjustSCorrSize (construct 4 0 0 0 0 : Correlator Int) 1).m_scorr.length = 1 := by
  refine ⟨by decide, by decide, ⟨_, rfl, rfl⟩, ⟨_, rfl, rfl, rfl⟩, by decide, by decide⟩

/-- Whatever value the spectrum-buffer size tracker holds after construction, there are
a transform size and an input length for which the first block stored by a call in FFT
cross-correlation mode, made on the correlator just built, is written past the end of
the buffers. -/
theorem performFFTCorr_fault_after_construct (eng : BlockEngine Int) (c d p r : Int) :
    ∃ fftSize n : Nat, 1 ≤ fftSize ∧
      performCorr eng (setCorrType (construct fftSize c d p r) CorrelationCorrelation)
        (List.replicate n ⟨1, 0⟩) (List.replicate n ⟨2, 0⟩) = Outcome.fault := by
  refine ⟨c.toNat + 2, c.toNat + 3, by omega, ?_⟩
  have hc : ((c.toNat + 3 : Nat) : Int) > c := by
    have := Int.self_le_toNat c
    omega
  have hlen : (resize (resize ([] : List (Sample Int)) (2 * (c.toNat + 2)))
      (c.toNat + 3)).length < ((List.range (2 * (c.toNat + 2))).map
        (eng.spectrum ((List.replicate (c.toNat + 3) (⟨1, 0⟩ : Sample Int)).take (c.toNat + 2))
          ((List.replicate (c.toNat + 3) (⟨2, 0⟩ : Sample Int)).take (c.toNat + 2)))).length := by
    rw [length_resize, List.length_map, List.length_range]
    omega
  simp only [performCorr, setCorrType, performFFTCorr, construct, List.length_replicate,
    min_self, adjustSCorrSize, hc, if_true]
  rw [fftLoop]
  simp only [adjustTCorrSize_frame, adjustTCorrSize]
  have hgt : c.toNat + 3 > c.toNat + 2 := by omega
  split_ifs <;>
    simp only [hgt, if_true, List.drop_zero, writeFromBegin, not_le.mpr hlen, if_false]

/-- Claim C30, the code at the failing input: a correlator is built with `fftSize = 2`
(both buffers of 4 elements) and its size trackers, which the constructor does not set,
hold 0.  A call in FFT cross-correlation mode on 3 samples per channel first resizes
both buffers to 3 elements (`adjustSCorrSize(3)`, `adjustTCorrSize(3)`), then stores the
results of one block, `2 * fftSize = 4` samples, from the start of each buffer: the
store does not fit and the call writes past the end of both buffers. -/
theorem C30_fft_store_overflows_at_failing_input (eng : BlockEngine Int) :
    (construct 2 0 0 0 0 : Correlator Int).m_scorr.length = 4 ∧
      (construct 2 0 0 0 0 : Correlator Int).m_tcorr.length = 4 ∧
      (adjustSCorrSize (construct 2 0 0 0 0 : Correlator Int) 3).m_scorr.length = 3 ∧
      (adjustTCorrSize (construct 2 0 0 0 0 : Correlator Int) 3).m_tcorr.length = 3 ∧
      writeFromBegin (adjustSCorrSize (construct 2 0 0 0 0 : Correlator Int) 3).m_scorr
        ((List.range (2 * 2)).map (eng.spectrum [⟨1, 0⟩, ⟨1, 0⟩] [⟨2, 0⟩, ⟨2, 0⟩])) = none ∧
      writeFromBegin (adjustTCorrSize (construct 2 0 0 0 0 : Correlator Int) 3).m_tcorr
        ((List.range (2 * 2)).map (eng.time [⟨1, 0⟩, ⟨1, 0⟩] [⟨2, 0⟩, ⟨2, 0⟩])) = none ∧
      performCorr eng (setCorrType (construct 2 0 0 0 0) CorrelationCorrelation)
        (List.replicate 3 ⟨1, 0⟩) (List.replicate 3 ⟨2, 0⟩) = Outcome.fault := by
  refine ⟨by decide, by decide, by decide, by decide, rfl, rfl, rfl⟩

end InterferometerCorrelator

/-! ## Theorems: LoRa demodulator sink -/

namespace LoRaDemodSink

open LoRaState

variable {K : Type} [LinearOrderedField K]

theorem Cplx.norm_nonneg (c : Cplx K) : 0 ≤ c.norm :=
  add_nonneg (mul_self_nonneg _) (mul_self_nonneg _)

theorem Cplx.norm_zero : (Cplx.zero : Cplx K).norm = 0 := by
  simp [Cplx.norm, Cplx.zero]

theorem Cplx.norm_pos_of_ne_zero (c : Cplx K) (h : c ≠ Cplx.zero) : 0 < c.norm := by
  rcases lt_or_eq_of_le (Cplx.norm_nonneg c) with h1 | h1
  · exact h1
  · exfalso
    apply h
    have h2 := (mul_self_add_mul_self_eq_zero.mp h1.symm)
    cases c
    simp only [Cplx.zero, Cplx.mk.injEq]
    exact h2

/-- The index and the maximum kept by one turn of the loop of `argmax` do not depend on
the spectrum buffer. -/
theorem argmaxStep_max (fftBins : List (Cplx K)) (specDecim : Nat) (v : ArgmaxVars K)
    (i : Nat) :
    (argmaxStep fftBins specDecim v i).magsqMax =
        (if (fftBins.getD i Cplx.zero).norm > v.magsqMax then (fftBins.getD i Cplx.zero).norm
          else v.magsqMax) ∧
      (argmaxStep fftBins specDecim v i).imax =
        (if (fftBins.getD i Cplx.zero).norm > v.magsqMax then i else v.imax) := by
  unfold argmaxStep
  by_cases h : (fftBins.getD i Cplx.zero).norm > v.magsqMax
  · simp only [h, if_true]
    cases v.specBuffer with
    | none => simp
    | some buf => by_cases h2 : i % specDecim = specDecim - 1 <;> simp [h2]
  · simp only [h, if_false]
    cases v.specBuffer with
    | none => simp
    | some buf => by_cases h2 : i % specDecim = specDecim - 1 <;> simp [h2]

/-- State of the loop of `argmax` after `m` turns: the maximum kept bounds the squared
magnitudes seen; either it is still 0 and the index still holds its initial value, or it
is positive and the index is the first place where it is reached. -/
theorem argmax_loop (fftBins : List (Cplx K)) (specDecim imax0 : Nat)
    (specBuffer : Option (List (Cplx K))) (m : Nat) :
    let v := (List.range m).foldl (argmaxStep fftBins specDecim)
      { magsqMax := 0, imax := imax0, magSum := 0, specBuffer := specBuffer }
    (∀ j < m, (fftBins.getD j Cplx.zero).norm ≤ v.magsqMax) ∧
      ((v.magsqMax = 0 ∧ v.imax = imax0) ∨
        (0 < v.magsqMax ∧ v.imax < m ∧ (fftBins.getD v.imax Cplx.zero).norm = v.magsqMax ∧
          ∀ j < v.imax, (fftBins.getD j Cplx.zero).norm < v.magsqMax)) := by
  induction m with
  | zero => simp
  | succ m ih =>
    simp only [List.range_succ, List.foldl_append, List.foldl_cons, List.foldl_nil]
    generalize (List.range m).foldl (argmaxStep fftBins specDecim)
      { magsqMax := 0, imax := imax0, magSum := 0, specBuffer := specBuffer } = v at ih ⊢
    obtain ⟨hmax, hcase⟩ := ih
    obtain ⟨e1, e2⟩ := argmaxStep_max fftBins specDecim v m
    rw [e1, e2]
    by_cases h : (fftBins.getD m Cplx.zero).norm > v.magsqMax
    · simp only [h, if_true]
      refine ⟨?_, Or.inr ⟨?_, Nat.lt_succ_self m, trivial, ?_⟩⟩
      · intro j hj
        rcases Nat.lt_succ_iff_lt_or_eq.mp hj with hj | hj
        · exact le_of_lt (lt_of_le_of_lt (hmax j hj) h)
        · rw [hj]
      · rcases hcase with ⟨h0, _⟩ | ⟨h0, _⟩
        · rw [h0] at h
          exact h
        · exact lt_trans h0 h
      · intro j hj
        exact lt_of_le_of_lt (hmax j hj) h
    · simp only [h, if_false]
      refine ⟨?_, ?_⟩
      · intro j hj
        rcases Nat.lt_succ_iff_lt_or_eq.mp hj with hj | hj
        · exact hmax j hj
        · rw [hj]
          exact le_of_not_gt h
      · rcases hcase with h0 | ⟨h0, h1, h2, h3⟩
        · exact Or.inl h0
        · exact Or.inr ⟨h0, Nat.lt_succ_of_lt h1, h2, h3⟩

/-- On a spectrum with a bin of positive squared magnitude, `argmax` returns the first
index at which the largest squared magnitude is reached, and that magnitude. -/
theorem argmax_of_pos (fftBins : List (Cplx K)) (fftMult fftLength imax0 specDecim : Nat)
    (specBuffer : Option (List (Cplx K)))
    (h : ∃ j < fftMult * fftLength, 0 < (fftBins.getD j Cplx.zero).norm) :
    (argmax fftBins fftMult fftLength imax0 specBuffer specDecim).1 < fftMult * fftLength ∧
      (fftBins.getD (argmax fftBins fftMult fftLength imax0 specBuffer specDecim).1
        Cplx.zero).norm =
        (argmax fftBins fftMult fftLength imax0 specBuffer specDecim).2.1 ∧
      (∀ j < fftMult * fftLength, (fftBins.getD j Cplx.zero).norm ≤
        (argmax fftBins fftMult fftLength imax0 specBuffer specDecim).2.1) ∧
      (∀ j < (argmax fftBins fftMult fftLength imax0 specBuffer specDecim).1,
        (fftBins.getD j Cplx.zero).norm <
          (argmax fftBins fftMult fftLength imax0 specBuffer specDecim).2.1) := by
  obtain ⟨hmax, hcase⟩ := argmax_loop fftBins specDecim imax0 specBuffer (fftMult * fftLength)
  obtain ⟨j, hj, hpos⟩ := h
  simp only [argmax]
  rcases hcase with ⟨h0, _⟩ | ⟨_, h1, h2, h3⟩
  · exfalso
    have := hmax j hj
    rw [h0] at this
    exact absurd hpos (not_lt.mpr this)
  · exact ⟨h1, h2, hmax, h3⟩

/-- On a spectrum whose bins all have squared magnitude 0, `argmax` returns the value
that its local `imax` held before the loop, and the maximum 0. -/
theorem argmax_all_zero (fftBins : List (Cplx K)) (fftMult fftLength imax0 specDecim : Nat)
    (specBuffer : Option (List (Cplx K)))
    (h : ∀ j < fftMult * fftLength, (fftBins.getD j Cplx.zero).norm = 0) :
    (argmax fftBins fftMult fftLength imax0 specBuffer specDecim).1 = imax0 ∧
      (argmax fftBins fftMult fftLength imax0 specBuffer specDecim).2.1 = 0 := by
  obtain ⟨_, hcase⟩ := argmax_loop fftBins specDecim imax0 specBuffer (fftMult * fftLength)
  simp only [argmax]
  rcases hcase with ⟨h0, h1⟩ | ⟨h0, h1, h2, _⟩
  · exact ⟨h1, h0⟩
  · exfalso
    rw [h _ h1] at h2
    rw [← h2] at h0
    exact lt_irrefl _ h0

/-- The index and the maximum kept by one turn of the loop of `argmax`, for any value
computed by `std::norm`. -/
theorem argmaxStepWith_max (norm : Cplx K → K) (fftBins : List (Cplx K)) (specDecim : Nat)
    (v : ArgmaxVars K) (i : Nat) :
    (argmaxStepWith norm fftBins specDecim v i).magsqMax =
        (if norm (fftBins.getD i Cplx.zero) > v.magsqMax then norm (fftBins.getD i Cplx.zero)
          else v.magsqMax) ∧
      (argmaxStepWith norm fftBins specDecim v i).imax =
        (if norm (fftBins.getD i Cplx.zero) > v.magsqMax then i else v.imax) := by
  unfold argmaxStepWith
  by_cases h : norm (fftBins.getD i Cplx.zero) > v.magsqMax
  · simp only [h, if_true]
    cases v.specBuffer with
    | none => simp
    | some buf => by_cases h2 : i % specDecim = specDecim - 1 <;> simp [h2]
  · simp only [h, if_false]
    cases v.specBuffer with
    | none => simp
    | some buf => by_cases h2 : i % specDecim = specDecim - 1 <;> simp [h2]

/-- State of the loop of `argmax` after `m` turns, for any value computed by
`std::norm`: the maximum kept bounds the computed magnitudes seen; either it is still 0
and the index still holds its initial value, or it is positive and the index is the
first place where it is reached. -/
theorem argmaxWith_loop (norm : Cplx K → K) (fftBins : List (Cplx K))
    (specDecim imax0 : Nat) (specBuffer : Option (List (Cplx K))) (m : Nat) :
    let v := (List.range m).foldl (argmaxStepWith norm fftBins specDecim)
      { magsqMax := 0, imax := imax0, magSum := 0, specBuffer := specBuffer }
    (∀ j < m, norm (fftBins.getD j Cplx.zero) ≤ v.magsqMax) ∧
      ((v.magsqMax = 0 ∧ v.imax = imax0) ∨
        (0 < v.magsqMax ∧ v.imax < m ∧ norm (fftBins.getD v.imax Cplx.zero) = v.magsqMax ∧
          ∀ j < v.imax, norm (fftBins.getD j Cplx.zero) < v.magsqMax)) := by
  induction m with
  | zero => simp
  | succ m ih =>
    simp only [List.range_succ, List.foldl_append, List.foldl_cons, List.foldl_nil]
    generalize (List.range m).foldl (argmaxStepWith norm fftBins specDecim)
      { magsqMax := 0, imax := imax0, magSum := 0, specBuffer := specBuffer } = v at ih ⊢
    obtain ⟨hmax, hcase⟩ := ih
    obtain ⟨e1, e2⟩ := argmaxStepWith_max norm fftBins specDecim v m
    rw [e1, e2]
    by_cases h : norm (fftBins.getD m Cplx.zero) > v.magsqMax
    · simp only [h, if_true]
      refine ⟨?_, Or.inr ⟨?_, Nat.lt_succ_self m, trivial, ?_⟩⟩
      · intro j hj
        rcases Nat.lt_succ_iff_lt_or_eq.mp hj with hj | hj
        · exact le_of_lt (lt_of_le_of_lt (hmax j hj) h)
        · rw [hj]
      · rcases hcase with ⟨h0, _⟩ | ⟨h0, _⟩
        · rw [h0] at h
          exact h
        · exact lt_trans h0 h
      · intro j hj
        exact lt_of_le_of_lt (hmax j hj) h
    · simp only [h, if_false]
      refine ⟨?_, ?_⟩
      · intro j hj
        rcases Nat.lt_succ_iff_lt_or_eq.mp hj with hj | hj
        · exact hmax j hj
        · rw [hj]
          exact le_of_not_gt h
      · rcases hcase with h0 | ⟨h0, h1, h2, h3⟩
        · exact Or.inl h0
        · exact Or.inr ⟨h0, Nat.lt_succ_of_lt h1, h2, h3⟩

/-- With the exact value of `std::norm`, `argmaxWith` is `argmax`. -/
theorem argmaxWith_exact (fftBins : List (Cplx K)) (fftMult fftLength imax0 specDecim : Nat)
    (specBuffer : Option (List (Cplx K))) :
    argmaxWith Cplx.norm fftBins fftMult fftLength imax0 specBuffer specDecim =
      argmax fftBins fftMult fftLength imax0 specBuffer specDecim :=
  rfl

/-- The search of the binade, given enough steps to reach an exponent that bounds the
number, returns an exponent that bounds it. -/
theorem binadeOf_bound (n d : Nat) :
    ∀ fuel j : Nat, n < 2 ^ (24 + (j + fuel)) * d → n < 2 ^ (24 + binadeOf n d fuel j) * d := by
  intro fuel
  induction fuel with
  | zero =>
    intro j h
    exact h
  | succ fuel ih =>
    intro j h
    unfold binadeOf
    split
    · assumption
    · exact ih (j + 1) (by rw [show j + 1 + fuel = j + (fuel + 1) by omega]; exact h)

/-- Claim C11 (as amended): for every spectrum of `fftMult*fftLength` bins with at least
one bin whose squared magnitude, as `std::norm` computes it, is positive, `argmax`
returns the smallest index whose computed squared magnitude is the maximum over all bins
(an index below `fftMult*fftLength`, no bin has a larger computed magnitude, every bin
before it has a smaller one) and leaves that maximum in `magsqMax`; in particular, when
the only bin other than zero is the positive real `v` at index `k` and its computed
square is positive, it returns `k` and leaves the computed square in `magsqMax`.  The
value computed by `std::norm` is any function `norm` of the bin. -/
theorem C11_argmax_first_maximum (norm : Cplx K → K) (fftBins : List (Cplx K))
    (fftMult fftLength imax0 specDecim : Nat) (specBuffer : Option (List (Cplx K)))
    (hpos : ∃ j < fftMult * fftLength, 0 < norm (fftBins.getD j Cplx.zero)) :
    ((argmaxWith norm fftBins fftMult fftLength imax0 specBuffer specDecim).1 <
        fftMult * fftLength ∧
      norm (fftBins.getD
        (argmaxWith norm fftBins fftMult fftLength imax0 specBuffer specDecim).1 Cplx.zero) =
        (argmaxWith norm fftBins fftMult fftLength imax0 specBuffer specDecim).2.1 ∧
      (∀ j < fftMult * fftLength, norm (fftBins.getD j Cplx.zero) ≤
        (argmaxWith norm fftBins fftMult fftLength imax0 specBuffer specDecim).2.1) ∧
      (∀ j < (argmaxWith norm fftBins fftMult fftLength imax0 specBuffer specDecim).1,
        norm (fftBins.getD j Cplx.zero) <
          (argmaxWith norm fftBins fftMult fftLength imax0 specBuffer specDecim).2.1)) ∧
    (∀ (k : Nat) (v : K), k < fftMult * fftLength → norm Cplx.zero = 0 → 0 < norm ⟨v, 0⟩ →
      (∀ j < fftMult * fftLength,
        fftBins.getD j Cplx.zero = if j = k then ⟨v, 0⟩ else Cplx.zero) →
      (argmaxWith norm fftBins fftMult fftLength imax0 specBuffer specDecim).1 = k ∧
        (argmaxWith norm fftBins fftMult fftLength imax0 specBuffer specDecim).2.1 =
          norm ⟨v, 0⟩) := by
  obtain ⟨hmax, hcase⟩ := argmaxWith_loop norm fftBins specDecim imax0 specBuffer
    (fftMult * fftLength)
  obtain ⟨j, hj, hjpos⟩ := hpos
  simp only [argmaxWith]
  rcases hcase with ⟨h0, _⟩ | ⟨_, h1, h2, h3⟩
  · exfalso
    have := hmax j hj
    rw [h0] at this
    exact absurd hjpos (not_lt.mpr this)
  · refine ⟨⟨h1, h2, hmax, h3⟩, ?_⟩
    intro k v hk hzero hv hbins
    have hnk : norm (fftBins.getD k Cplx.zero) = norm ⟨v, 0⟩ := by
      rw [hbins k hk, if_pos rfl]
    have hge := hmax k hk
    rw [hnk] at hge
    generalize (List.range (fftMult * fftLength)).foldl (argmaxStepWith norm fftBins specDecim)
      { magsqMax := 0, imax := imax0, magSum := 0, specBuffer := specBuffer } = w
      at h1 h2 h3 hge ⊢
    by_cases hik : w.imax = k
    · refine ⟨hik, ?_⟩
      rw [← h2, hik, hnk]
    · exfalso
      rw [hbins _ h1, if_neg hik, hzero] at h2
      rw [← h2] at hge
      exact absurd hv (not_lt.mpr hge)

/-- Instance of claim C11 (as amended) with the value computed in single precision, on
the four bins 0, 2, 0, 0. -/
theorem C11_argmax_first_maximum_witness :
    (argmaxWith normSingle [Cplx.zero, ⟨2, 0⟩, Cplx.zero, Cplx.zero] 1 4 9 none 1).1 = 1 ∧
      (argmaxWith normSingle [Cplx.zero, ⟨2, 0⟩, Cplx.zero, Cplx.zero] 1 4 9 none 1).2.1 =
        normSingle ⟨2, 0⟩ :=
  (C11_argmax_first_maximum normSingle [Cplx.zero, ⟨2, 0⟩, Cplx.zero, Cplx.zero] 1 4 9 1 none
    ⟨1, by decide, by decide!⟩).2 1 2 (by decide) (by decide!) (by decide!) (by decide!)

/-- Claim C11 as stated fails, the squared magnitudes being computed in single
precision.  On the two bins `(1, 0)` and `(1, 2^-13)` the computed squared magnitudes
are both 1, and `argmax` returns the index 0, while the squared magnitude of the bin 1,
`1 + 2^-26`, is the maximum over all bins and is reached at the index 1 only.  On the
spectrum of one bin `(2^-80, 0)`, which is not zero, the computed squared magnitude is
0 and `argmax` returns the value 7 that its local `imax` held before the loop, which is
not the index of a bin. -/
theorem C11_counterexample :
    normSingle ⟨1, 0⟩ = 1 ∧ normSingle ⟨1, 1 / 2 ^ 13⟩ = 1 ∧
      argmaxWith normSingle [⟨1, 0⟩, ⟨1, 1 / 2 ^ 13⟩] 1 2 7 none 1 = (0, 1, none) ∧
      (⟨1, 0⟩ : Cplx ℚ).norm < (⟨1, 1 / 2 ^ 13⟩ : Cplx ℚ).norm ∧
      (⟨1 / 2 ^ 80, 0⟩ : Cplx ℚ) ≠ Cplx.zero ∧
      normSingle ⟨1 / 2 ^ 80, 0⟩ = 0 ∧
      argmaxWith normSingle [⟨1 / 2 ^ 80, 0⟩] 1 1 7 none 1 = (7, 0, none) ∧
      ¬ (argmaxWith normSingle [⟨1 / 2 ^ 80, 0⟩] 1 1 7 none 1).1 < 1 * 1 := by
  decide!

/-- Claim C12, the code at the failing input: on the all-zero spectrum of one bin
(`fftMult = 1`, `fftLength = 1`), when the local `imax`, which is declared without a
value, holds 7 before the loop, `argmax` leaves 0 in `magsqMax` and returns 7, which is
not below `fftMult*fftLength = 1`. -/
theorem C12_argmax_all_zero_at_failing_input :
    (argmax [(Cplx.zero : Cplx ℚ)] 1 1 7 none 1).2.1 = 0 ∧
      (argmax [(Cplx.zero : Cplx ℚ)] 1 1 7 none 1).1 = 7 ∧
      ¬ (argmax [(Cplx.zero : Cplx ℚ)] 1 1 7 none 1).1 < 1 * 1 := by
  obtain ⟨h1, h2⟩ := argmax_all_zero [(Cplx.zero : Cplx ℚ)] 1 1 7 1 none (by
    intro j hj
    have hj0 : j = 0 := by omega
    subst hj0
    exact Cplx.norm_zero)
  rw [h1]
  exact ⟨h2, rfl, by decide⟩

/-- The loop that fills the chirp tables keeps their lengths. -/
theorem foldl_chirpStep_length (ext : Ext K) (nbSymbols : Nat) (l : List Nat)
    (v : K × K × List (Cplx K) × List (Cplx K)) :
    (l.foldl (chirpStep ext nbSymbols) v).2.2.1.length = v.2.2.1.length ∧
      (l.foldl (chirpStep ext nbSymbols) v).2.2.2.length = v.2.2.2.length := by
  induction l generalizing v with
  | nil => exact ⟨rfl, rfl⟩
  | cons i rest ih =>
    rw [List.foldl_cons]
    obtain ⟨h1, h2⟩ := ih (chirpStep ext nbSymbols v i)
    rw [h1, h2]
    simp [chirpStep]

/-- A table of `2*n` elements whose first half has been copied onto its second half
still has `2*n` elements, and its element `i + n` is its element `i` for `i < n`. -/
theorem copyFirstHalf_spec {α : Type} (n : Nat) (table : List α)
    (h : table.length = 2 * n) :
    (copyFirstHalf n table).length = 2 * n ∧
      ∀ i < n, (copyFirstHalf n table)[i + n]? = (copyFirstHalf n table)[i]? ∧
        ((copyFirstHalf n table)[i]?).isSome = true := by
  have hd : table.drop (2 * n) = [] := List.drop_of_length_le (le_of_eq h)
  have ht : (table.take n).length = n := by
    rw [List.length_take]
    omega
  unfold copyFirstHalf
  rw [hd, List.append_nil]
  constructor
  · rw [List.length_append, ht]
    omega
  · intro i hi
    have h1 : (table.take n ++ table.take n)[i + n]? = (table.take n)[i]? := by
      rw [List.getElem?_append_right (by rw [ht]; omega), ht, Nat.add_sub_cancel]
    have h2 : (table.take n ++ table.take n)[i]? = (table.take n)[i]? :=
      List.getElem?_append_left (by rw [ht]; exact hi)
    rw [h1, h2]
    refine ⟨rfl, ?_⟩
    rw [List.getElem?_eq_getElem (by rw [ht]; exact hi)]
    rfl

/-- Lengths of the chirp tables before the copy of their first half in `initSF`. -/
theorem initSF_loop_length (ext : Ext K) (sf : Nat) :
    ((List.range (1 <<< sf)).foldl (chirpStep ext (1 <<< sf))
        ((0 : K), -ext.pi, List.replicate (2 * (1 <<< sf)) Cplx.zero,
          List.replicate (2 * (1 <<< sf)) Cplx.zero)).2.2.1.length = 2 * (1 <<< sf) ∧
      ((List.range (1 <<< sf)).foldl (chirpStep ext (1 <<< sf))
        ((0 : K), -ext.pi, List.replicate (2 * (1 <<< sf)) Cplx.zero,
          List.replicate (2 * (1 <<< sf)) Cplx.zero)).2.2.2.length = 2 * (1 <<< sf) := by
  obtain ⟨h1, h2⟩ := foldl_chirpStep_length ext (1 <<< sf) (List.range (1 <<< sf))
    ((0 : K), -ext.pi, List.replicate (2 * (1 <<< sf)) Cplx.zero,
      List.replicate (2 * (1 <<< sf)) Cplx.zero)
  rw [h1, h2]
  simp

/-- The chirp tables made by `initSF`: both have `2 * 2^sf` elements and their second
half repeats their first half; the symbol counts and the state are set. -/
theorem initSF_spec (cst : Consts) (ext : Ext K) (s : Sink K) (sf deBits : Nat) :
    (initSF cst ext s sf deBits).m_upChirps.length = 2 * 2 ^ sf ∧
      (initSF cst ext s sf deBits).m_downChirps.length = 2 * 2 ^ sf ∧
      (∀ i < 2 ^ sf,
        (initSF cst ext s sf deBits).m_upChirps[i + 2 ^ sf]? =
            (initSF cst ext s sf deBits).m_upChirps[i]? ∧
          ((initSF cst ext s sf deBits).m_upChirps[i]?).isSome = true ∧
          (initSF cst ext s sf deBits).m_downChirps[i + 2 ^ sf]? =
            (initSF cst ext s sf deBits).m_downChirps[i]? ∧
          ((initSF cst ext s sf deBits).m_downChirps[i]?).isSome = true) ∧
      (initSF cst ext s sf deBits).m_nbSymbols = 2 ^ sf ∧
      (initSF cst ext s sf deBits).m_nbSymbolsEff = 2 ^ (sf - deBits) ∧
      (initSF cst ext s sf deBits).m_fftLength = 2 ^ sf ∧
      (initSF cst ext s sf deBits).m_sfdSkip = 2 ^ sf / 4 ∧
      (initSF cst ext s sf deBits).m_state = LoRaStateReset := by
  obtain ⟨hd, hu⟩ := initSF_loop_length ext sf
  obtain ⟨hd1, hd2⟩ := copyFirstHalf_spec (1 <<< sf) _ hd
  obtain ⟨hu1, hu2⟩ := copyFirstHalf_spec (1 <<< sf) _ hu
  simp only [initSF]
  rw [Nat.one_shiftLeft] at hd1 hd2 hu1 hu2 ⊢
  refine ⟨hu1, hd1, ?_, ?_⟩
  · intro i hi
    exact ⟨(hu2 i hi).1, (hu2 i hi).2, (hd2 i hi).1, (hd2 i hi).2⟩
  · simp [Nat.one_shiftLeft]

/-- Claim C13: for every spreading factor SF and every number of DE bits, after `initSF`
the up-chirp table and the down-chirp table each have `2 * 2^SF` elements and the
element `i + 2^SF` of each table is its element `i`, for every `i < 2^SF`. -/
theorem C13_chirp_tables_duplicated (cst : Consts) (ext : Ext K) (s : Sink K)
    (sf deBits : Nat) :
    (initSF cst ext s sf deBits).m_upChirps.length = 2 * 2 ^ sf ∧
      (initSF cst ext s sf deBits).m_downChirps.length = 2 * 2 ^ sf ∧
      ∀ i < 2 ^ sf,
        (initSF cst ext s sf deBits).m_upChirps[i + 2 ^ sf]? =
            (initSF cst ext s sf deBits).m_upChirps[i]? ∧
          ((initSF cst ext s sf deBits).m_upChirps[i]?).isSome = true ∧
          (initSF cst ext s sf deBits).m_downChirps[i + 2 ^ sf]? =
            (initSF cst ext s sf deBits).m_downChirps[i]? ∧
          ((initSF cst ext s sf deBits).m_downChirps[i]?).isSome = true := by
  obtain ⟨h1, h2, h3, _⟩ := initSF_spec cst ext s sf deBits
  exact ⟨h1, h2, h3⟩

/-- Claim C14: `applySettings(settings, force)` stores the new settings in every case.
When the spreading factor differs from the current one, or the DE bits differ, or
`force` is true, it runs `initSF` on the new values: the chirp tables are made anew with
`2 * 2^SF` elements, the symbol counts are recomputed and the state is Reset.  When
neither differs and `force` is false, the chirp tables, the symbol counts, the FFT
length and the state are those of before the call. -/
theorem C14_applySettings_reinit_iff (cst : Consts) (ext : Ext K) (s : Sink K)
    (settings : Settings) (force : Bool) :
    (applySettings cst ext s settings force).m_settings = settings ∧
      ((settings.m_spreadFactor ≠ s.m_settings.m_spreadFactor
          ∨ settings.m_deBits ≠ s.m_settings.m_deBits ∨ force = true) →
        applySettings cst ext s settings force =
            { initSF cst ext s settings.m_spreadFactor settings.m_deBits with
              m_settings := settings } ∧
          (applySettings cst ext s settings force).m_upChirps.length =
            2 * 2 ^ settings.m_spreadFactor ∧
          (applySettings cst ext s settings force).m_downChirps.length =
            2 * 2 ^ settings.m_spreadFactor ∧
          (applySettings cst ext s settings force).m_nbSymbols = 2 ^ settings.m_spreadFactor ∧
          (applySettings cst ext s settings force).m_nbSymbolsEff =
            2 ^ (settings.m_spreadFactor - settings.m_deBits) ∧
          (applySettings cst ext s settings force).m_state = LoRaStateReset) ∧
      (¬ (settings.m_spreadFactor ≠ s.m_settings.m_spreadFactor
          ∨ settings.m_deBits ≠ s.m_settings.m_deBits ∨ force = true) →
        applySettings cst ext s settings force = { s with m_settings := settings } ∧
          (applySettings cst ext s settings force).m_upChirps = s.m_upChirps ∧
          (applySettings cst ext s settings force).m_downChirps = s.m_downChirps ∧
          (applySettings cst ext s settings force).m_nbSymbols = s.m_nbSymbols ∧
          (applySettings cst ext s settings force).m_nbSymbolsEff = s.m_nbSymbolsEff ∧
          (applySettings cst ext s settings force).m_fftLength = s.m_fftLength ∧
          (applySettings cst ext s settings force).m_state = s.m_state) := by
  refine ⟨?_, ?_, ?_⟩
  · simp only [applySettings]
  · intro h
    obtain ⟨h1, h2, _, h4, h5, _, _, h8⟩ :=
      initSF_spec cst ext s settings.m_spreadFactor settings.m_deBits
    simp only [applySettings, h, if_true]
    exact ⟨trivial, h1, h2, h4, h5, h8⟩
  · intro h
    simp only [applySettings, h, if_false, and_self]

/-- Instance of claim C14: on the sample sink (spreading factor 1), changing the
squelch only, without `force`, keeps the chirp tables and the state, and changing the
spreading factor to 3 makes tables of 16 elements and sets the state to Reset. -/
theorem C14_applySettings_reinit_iff_witness :
    ((applySettings sampleConsts sampleExt
          (run sampleConsts sampleExt sampleSink [stepOf 0 0 0])
          { sampleSettings with m_eomSquelchTenths := 50 } false).m_upChirps =
        (run sampleConsts sampleExt sampleSink [stepOf 0 0 0]).m_upChirps ∧
      (applySettings sampleConsts sampleExt
          (run sampleConsts sampleExt sampleSink [stepOf 0 0 0])
          { sampleSettings with m_eomSquelchTenths := 50 } false).m_state =
        (run sampleConsts sampleExt sampleSink [stepOf 0 0 0]).m_state) ∧
    ((applySettings sampleConsts sampleExt
          (run sampleConsts sampleExt sampleSink [stepOf 0 0 0])
          { sampleSettings with m_spreadFactor := 3 } false).m_upChirps.length = 2 * 2 ^ 3 ∧
      (applySettings sampleConsts sampleExt
          (run sampleConsts sampleExt sampleSink [stepOf 0 0 0])
          { sampleSettings with m_spreadFactor := 3 } false).m_state = LoRaStateReset) :=
  ⟨⟨((C14_applySettings_reinit_iff sampleConsts sampleExt
        (run sampleConsts sampleExt sampleSink [stepOf 0 0 0])
        { sampleSettings with m_eomSquelchTenths := 50 } false).2.2 (by decide)).2.1,
    ((C14_applySettings_reinit_iff sampleConsts sampleExt
        (run sampleConsts sampleExt sampleSink [stepOf 0 0 0])
        { sampleSettings with m_eomSquelchTenths := 50 } false).2.2 (by decide)).2.2.2.2.2.2⟩,
   ⟨((C14_applySettings_reinit_iff sampleConsts sampleExt
        (run sampleConsts sampleExt sampleSink [stepOf 0 0 0])
        { sampleSettings with m_spreadFactor := 3 } false).2.1 (by decide)).2.1,
    ((C14_applySettings_reinit_iff sampleConsts sampleExt
        (run sampleConsts sampleExt sampleSink [stepOf 0 0 0])
        { sampleSettings with m_spreadFactor := 3 } false).2.1 (by decide)).2.2.2.2.2⟩⟩

/-- Rounding done by `evalSymbol` for an even spread, on integers: twice the distance
from the raw bin to the symbol times the spread is above minus the spread and at most
the spread. -/
theorem evalSymbol_even (cst : Consts) (settings : Settings) (r : Nat)
    (h2 : 2 ≤ cst.m_fftInterpolation * 2 ^ settings.m_deBits)
    (hev : (cst.m_fftInterpolation * 2 ^ settings.m_deBits) % 2 = 0) :
    -((cst.m_fftInterpolation * 2 ^ settings.m_deBits : Nat) : Int) <
        2 * ((r : Int) - (evalSymbol cst settings r *
          (cst.m_fftInterpolation * 2 ^ settings.m_deBits) : Nat)) ∧
      2 * ((r : Int) - (evalSymbol cst settings r *
          (cst.m_fftInterpolation * 2 ^ settings.m_deBits) : Nat)) ≤
        ((cst.m_fftInterpolation * 2 ^ settings.m_deBits : Nat) : Int) := by
  unfold evalSymbol
  simp only [Nat.one_shiftLeft]
  generalize cst.m_fftInterpolation * 2 ^ settings.m_deBits = spread at h2 hev ⊢
  rw [if_neg (by omega)]
  have hpos : 0 < spread := by omega
  have hdm := Nat.div_add_mod (r + spread / 2 - 1) spread
  have hmod := Nat.mod_lt (r + spread / 2 - 1) hpos
  rw [Nat.mul_comm] at hdm
  generalize (r + spread / 2 - 1) / spread * spread = q at hdm ⊢
  generalize (r + spread / 2 - 1) % spread = m at hdm hmod
  omega

/-- Claim C16: `evalSymbol` rounds to the nearest effective symbol with the exact
midpoint going down.  For an interpolation factor that is 1 or even, for
`spread = fftInterpolation * 2^deBits >= 2` and every raw bin `r`, the result `s`
satisfies `-spread/2 < r - s*spread <= spread/2` as rationals, so `s` is the integer
nearest to `r/spread`, and a tie `r = s*spread + spread/2` is given the symbol `s`; for
a spread below 2 the result is `r` itself. -/
theorem C16_evalSymbol_rounding (cst : Consts) (settings : Settings) (r : Nat)
    (hinterp : cst.m_fftInterpolation = 1 ∨ cst.m_fftInterpolation % 2 = 0) :
    (cst.m_fftInterpolation * 2 ^ settings.m_deBits < 2 → evalSymbol cst settings r = r) ∧
      (2 ≤ cst.m_fftInterpolation * 2 ^ settings.m_deBits →
        (-(((cst.m_fftInterpolation * 2 ^ settings.m_deBits : Nat) : ℚ) / 2) <
            (r : ℚ) - (evalSymbol cst settings r : ℚ) *
              ((cst.m_fftInterpolation * 2 ^ settings.m_deBits : Nat) : ℚ) ∧
          (r : ℚ) - (evalSymbol cst settings r : ℚ) *
              ((cst.m_fftInterpolation * 2 ^ settings.m_deBits : Nat) : ℚ) ≤
            ((cst.m_fftInterpolation * 2 ^ settings.m_deBits : Nat) : ℚ) / 2) ∧
        ∀ s : Nat, r = s * (cst.m_fftInterpolation * 2 ^ settings.m_deBits) +
            cst.m_fftInterpolation * 2 ^ settings.m_deBits / 2 →
          evalSymbol cst settings r = s) := by
  constructor
  · intro h
    simp [evalSymbol, Nat.one_shiftLeft, h]
  · intro h2
    have hev : (cst.m_fftInterpolation * 2 ^ settings.m_deBits) % 2 = 0 := by
      rcases hinterp with h1 | h1
      · rw [h1, Nat.one_mul] at h2 ⊢
        cases hd : settings.m_deBits with
        | zero => rw [hd] at h2; simp at h2
        | succ d => rw [Nat.pow_succ, Nat.mul_mod_left]
      · rw [Nat.mul_mod, h1, Nat.zero_mul, Nat.zero_mod]
    obtain ⟨h3, h4⟩ := evalSymbol_even cst settings r h2 hev
    have h3q : ((-((cst.m_fftInterpolation * 2 ^ settings.m_deBits : Nat) : Int) : Int) : ℚ) <
        ((2 * ((r : Int) - (evalSymbol cst settings r *
          (cst.m_fftInterpolation * 2 ^ settings.m_deBits) : Nat)) : Int) : ℚ) := by
      exact_mod_cast h3
    have h4q : ((2 * ((r : Int) - (evalSymbol cst settings r *
          (cst.m_fftInterpolation * 2 ^ settings.m_deBits) : Nat)) : Int) : ℚ) ≤
        ((((cst.m_fftInterpolation * 2 ^ settings.m_deBits : Nat) : Int) : Int) : ℚ) := by
      exact_mod_cast h4
    refine ⟨?_, ?_⟩
    · push_cast at h3q h4q ⊢
      constructor <;> linarith
    · intro s hs
      unfold evalSymbol
      simp only [Nat.one_shiftLeft]
      generalize cst.m_fftInterpolation * 2 ^ settings.m_deBits = spread at h2 hev hs ⊢
      rw [if_neg (by omega)]
      have hmul : (s + 1) * spread = s * spread + spread := Nat.succ_mul s spread
      apply Nat.div_eq_of_lt_le
      · rw [hs]
        omega
      · rw [hs, hmul]
        omega

/-- Instance of claim C16 with no interpolation and 2 DE bits (spread 4): the raw bin
6, midway between the symbols 1 and 2, is given the symbol 1. -/
theorem C16_evalSymbol_rounding_witness :
    (-((((1 * 2 ^ 2 : Nat) : ℚ)) / 2) <
        ((6 : Nat) : ℚ) - (evalSymbol sampleConsts { sampleSettings with m_deBits := 2 } 6 : ℚ) *
          ((1 * 2 ^ 2 : Nat) : ℚ) ∧
      ((6 : Nat) : ℚ) - (evalSymbol sampleConsts { sampleSettings with m_deBits := 2 } 6 : ℚ) *
          ((1 * 2 ^ 2 : Nat) : ℚ) ≤ (((1 * 2 ^ 2 : Nat) : ℚ)) / 2) ∧
      evalSymbol sampleConsts { sampleSettings with m_deBits := 2 } 6 = 1 :=
  ⟨((C16_evalSymbol_rounding sampleConsts { sampleSettings with m_deBits := 2 } 6
      (Or.inl rfl)).2 (by decide)).1,
    ((C16_evalSymbol_rounding sampleConsts { sampleSettings with m_deBits := 2 } 6
      (Or.inl rfl)).2 (by decide)).2 1 (by decide)⟩

/-- The final advance of the chirp index changes no other member. -/
theorem advanceChirp_frame {K : Type} (s : Sink K) :
    (advanceChirp s).m_state = s.m_state ∧
      (advanceChirp s).m_decodeMsg = s.m_decodeMsg ∧
      (advanceChirp s).m_decoderMsgQueue = s.m_decoderMsgQueue ∧
      (advanceChirp s).m_chirpCount = s.m_chirpCount ∧
      (advanceChirp s).m_settings = s.m_settings ∧
      (advanceChirp s).m_demodActive = s.m_demodActive ∧
      (advanceChirp s).m_fftLength = s.m_fftLength ∧
      (advanceChirp s).m_fftCounter = s.m_fftCounter ∧
      (advanceChirp s).m_magsqMax = s.m_magsqMax ∧
      (advanceChirp s).m_chirp0 = s.m_chirp0 ∧
      (advanceChirp s).m_argMaxHistory = s.m_argMaxHistory ∧
      (advanceChirp s).m_argMaxHistoryCounter = s.m_argMaxHistoryCounter := by
  unfold advanceChirp
  split <;> simp

/-- The levels set and the push done by `handOff` change neither the state, nor the
counters, nor the symbols or the sync word of the record. -/
theorem handOff_frame (ext : Ext K) (s : Sink K) :
    (handOff ext s).m_state = s.m_state ∧
      (handOff ext s).m_chirpCount = s.m_chirpCount ∧
      (handOff ext s).m_settings = s.m_settings ∧
      (handOff ext s).m_demodActive = s.m_demodActive ∧
      (handOff ext s).m_fftLength = s.m_fftLength ∧
      (handOff ext s).m_magsqMax = s.m_magsqMax := by
  unfold handOff
  cases s.m_decodeMsg with
  | none => simp
  | some m =>
    simp only
    cases s.m_decoderMsgQueue with
    | none => simp
    | some q => cases s.m_settings.m_decodeActive <;> simp

/-- The record after `handOff`, and the queue of the consumer: the record is pushed
exactly when a queue is registered and decoding is active. -/
theorem handOff_msg (ext : Ext K) (s : Sink K) (m : MsgDecodeSymbols K)
    (hm : s.m_decodeMsg = some m) :
    ∃ m' : MsgDecodeSymbols K, (handOff ext s).m_decodeMsg = some m' ∧
      m'.m_symbols = m.m_symbols ∧ m'.m_syncWord = m.m_syncWord ∧
      (∀ q, s.m_decoderMsgQueue = some q → s.m_settings.m_decodeActive = true →
        (handOff ext s).m_decoderMsgQueue = some (q ++ [m'])) ∧
      (s.m_decoderMsgQueue = none ∨ s.m_settings.m_decodeActive = false →
        (handOff ext s).m_decoderMsgQueue = s.m_decoderMsgQueue) := by
  unfold handOff
  rw [hm]
  simp only
  cases hq : s.m_decoderMsgQueue with
  | none => simp
  | some q =>
    cases ha : s.m_settings.m_decodeActive with
    | false => simp
    | true => simp

theorem ite_gt_eq_max (a b : K) : (if a > b then a else b) = max b a := by
  by_cases h : a > b
  · rw [if_pos h, max_eq_right (le_of_lt h)]
  · rw [if_neg h, max_eq_left (not_lt.mp h)]

/-- The acceptance test of the specification is the condition of lines 416-418. -/
theorem accepted_iff (cst : Consts) (s : Sink K) (x : StepIn K) :
    accepted cst s x ↔
      (s.m_chirpCount = 0 ∨ s.m_settings.m_eomSquelchTenths = (121 : Int)
        ∨ ((s.m_settings.m_eomSquelchTenths : K) * (argmaxFft cst s x).2.1) / 10 >
          (if (argmaxFft cst s x).2.1 > s.m_magsqMax then (argmaxFft cst s x).2.1
            else s.m_magsqMax)) := by
  unfold accepted blockMagsq
  rw [ite_gt_eq_max]

/-- A payload block that fails the acceptance test: the state becomes Reset, the chirp
count is kept, the symbol just stored is removed from the record and the record is
handed off. -/
theorem payload_step_rejected (cst : Consts) (ext : Ext K) (x : StepIn K) (s : Sink K)
    (m : MsgDecodeSymbols K) (hst : s.m_state = LoRaStateReadPayload)
    (hc : blockCompletes s) (hm : s.m_decodeMsg = some m) (hr : ¬ accepted cst s x) :
    (processSample cst ext x s).m_state = LoRaStateReset ∧
      (processSample cst ext x s).m_chirpCount = s.m_chirpCount ∧
      ∃ m' : MsgDecodeSymbols K, (processSample cst ext x s).m_decodeMsg = some m' ∧
        m'.m_symbols = m.m_symbols ∧ m'.m_syncWord = m.m_syncWord ∧
        HandedOff s (processSample cst ext x s) m' := by
  rw [accepted_iff] at hr
  unfold blockCompletes at hc
  have hbody : processSampleBody cst ext x s = handOff ext
      { s with
        m_fftCounter := 0
        m_spectrumBuffer := (argmaxFft cst s x).2.2.getD s.m_spectrumBuffer
        m_magsqMax := (if (argmaxFft cst s x).2.1 > s.m_magsqMax then (argmaxFft cst s x).2.1
          else s.m_magsqMax)
        m_decodeMsg := some m
        m_state := LoRaStateReset } := by
    simp only [processSampleBody, hst, hc, if_true, hm, Option.map_some', hr, if_false]
    congr 3
    simp [MsgDecodeSymbols.popSymbol, MsgDecodeSymbols.pushBackSymbol]
  obtain ⟨f1, f2, f3, f4, _⟩ := advanceChirp_frame (processSampleBody cst ext x s)
  obtain ⟨g1, g2, _⟩ := handOff_frame ext
      { s with
        m_fftCounter := 0
        m_spectrumBuffer := (argmaxFft cst s x).2.2.getD s.m_spectrumBuffer
        m_magsqMax := (if (argmaxFft cst s x).2.1 > s.m_magsqMax then (argmaxFft cst s x).2.1
          else s.m_magsqMax)
        m_decodeMsg := some m
        m_state := LoRaStateReset }
  obtain ⟨m', k1, k2, k3, k4, k5⟩ := handOff_msg ext
      { s with
        m_fftCounter := 0
        m_spectrumBuffer := (argmaxFft cst s x).2.2.getD s.m_spectrumBuffer
        m_magsqMax := (if (argmaxFft cst s x).2.1 > s.m_magsqMax then (argmaxFft cst s x).2.1
          else s.m_magsqMax)
        m_decodeMsg := some m
        m_state := LoRaStateReset } m rfl
  unfold processSample HandedOff
  rw [f1, f2, f3, f4, hbody, g1, g2]
  exact ⟨rfl, rfl, m', k1, k2, k3, k4, k5⟩

/-- A payload block that passes the acceptance test while the maximum number of symbols
is not exceeded: the symbol is kept in the record, the chirp count is incremented and
the state stays ReadPayload. -/
theorem payload_step_accepted (cst : Consts) (ext : Ext K) (x : StepIn K) (s : Sink K)
    (m : MsgDecodeSymbols K) (hst : s.m_state = LoRaStateReadPayload)
    (hc : blockCompletes s) (hm : s.m_decodeMsg = some m) (ha : accepted cst s x)
    (hle : s.m_chirpCount + 1 ≤ s.m_settings.m_nbSymbolsMax) :
    (processSample cst ext x s).m_state = LoRaStateReadPayload ∧
      (processSample cst ext x s).m_chirpCount = s.m_chirpCount + 1 ∧
      (processSample cst ext x s).m_decodeMsg =
        some (m.pushBackSymbol (payloadSymbol cst s x)) ∧
      (processSample cst ext x s).m_decoderMsgQueue = s.m_decoderMsgQueue ∧
      (processSample cst ext x s).m_settings = s.m_settings := by
  rw [accepted_iff] at ha
  unfold blockCompletes at hc
  have hng : ¬ (s.m_chirpCount + 1 > s.m_settings.m_nbSymbolsMax) := by omega
  obtain ⟨f1, f2, f3, f4, f5, _⟩ := advanceChirp_frame (processSampleBody cst ext x s)
  unfold processSample
  rw [f1, f2, f3, f4, f5]
  simp only [processSampleBody, hst, hc, if_true, hm, Option.map_some', ha, hng, if_false,
    payloadSymbol, and_self]

/-- A payload block that passes the acceptance test and brings the chirp count above the
maximum number of symbols: the state becomes Reset and the record, with the symbol of
the block kept, is handed off. -/
theorem payload_step_full (cst : Consts) (ext : Ext K) (x : StepIn K) (s : Sink K)
    (m : MsgDecodeSymbols K) (hst : s.m_state = LoRaStateReadPayload)
    (hc : blockCompletes s) (hm : s.m_decodeMsg = some m) (ha : accepted cst s x)
    (hgt : s.m_chirpCount + 1 > s.m_settings.m_nbSymbolsMax) :
    (processSample cst ext x s).m_state = LoRaStateReset ∧
      (processSample cst ext x s).m_chirpCount = s.m_chirpCount + 1 ∧
      ∃ m' : MsgDecodeSymbols K, (processSample cst ext x s).m_decodeMsg = some m' ∧
        m'.m_symbols = m.m_symbols ++ [payloadSymbol cst s x] ∧
        m'.m_syncWord = m.m_syncWord ∧
        HandedOff s (processSample cst ext x s) m' := by
  rw [accepted_iff] at ha
  unfold blockCompletes at hc
  have hbody : processSampleBody cst ext x s = handOff ext
      { s with
        m_fftCounter := 0
        m_spectrumBuffer := (argmaxFft cst s x).2.2.getD s.m_spectrumBuffer
        m_magsqMax := (if (argmaxFft cst s x).2.1 > s.m_magsqMax then (argmaxFft cst s x).2.1
          else s.m_magsqMax)
        m_decodeMsg := some (m.pushBackSymbol (payloadSymbol cst s x))
        m_magsqOnAvg := s.m_magsqOnAvg ++ [(argmaxFft cst s x).2.1]
        m_chirpCount := s.m_chirpCount + 1
        m_state := LoRaStateReset } := by
    simp only [processSampleBody, hst, hc, if_true, hm, Option.map_some', ha, hgt, payloadSymbol]
  obtain ⟨f1, f2, f3, f4, _⟩ := advanceChirp_frame (processSampleBody cst ext x s)
  obtain ⟨g1, g2, _⟩ := handOff_frame ext
      { s with
        m_fftCounter := 0
        m_spectrumBuffer := (argmaxFft cst s x).2.2.getD s.m_spectrumBuffer
        m_magsqMax := (if (argmaxFft cst s x).2.1 > s.m_magsqMax then (argmaxFft cst s x).2.1
          else s.m_magsqMax)
        m_decodeMsg := some (m.pushBackSymbol (payloadSymbol cst s x))
        m_magsqOnAvg := s.m_magsqOnAvg ++ [(argmaxFft cst s x).2.1]
        m_chirpCount := s.m_chirpCount + 1
        m_state := LoRaStateReset }
  obtain ⟨m', k1, k2, k3, k4, k5⟩ := handOff_msg ext
      { s with
        m_fftCounter := 0
        m_spectrumBuffer := (argmaxFft cst s x).2.2.getD s.m_spectrumBuffer
        m_magsqMax := (if (argmaxFft cst s x).2.1 > s.m_magsqMax then (argmaxFft cst s x).2.1
          else s.m_magsqMax)
        m_decodeMsg := some (m.pushBackSymbol (payloadSymbol cst s x))
        m_magsqOnAvg := s.m_magsqOnAvg ++ [(argmaxFft cst s x).2.1]
        m_chirpCount := s.m_chirpCount + 1
        m_state := LoRaStateReset } (m.pushBackSymbol (payloadSymbol cst s x)) rfl
  unfold processSample HandedOff
  rw [f1, f2, f3, f4, hbody, g1, g2]
  exact ⟨rfl, rfl, m', k1, k2, k3, k4, k5⟩

/-- A call in ReadPayload that does not complete a block only counts the sample. -/
theorem payload_step_inside (cst : Consts) (ext : Ext K) (x : StepIn K) (s : Sink K)
    (hst : s.m_state = LoRaStateReadPayload) (hc : ¬ blockCompletes s) :
    (processSample cst ext x s).m_state = LoRaStateReadPayload ∧
      (processSample cst ext x s).m_chirpCount = s.m_chirpCount ∧
      (processSample cst ext x s).m_decodeMsg = s.m_decodeMsg ∧
      (processSample cst ext x s).m_decoderMsgQueue = s.m_decoderMsgQueue ∧
      (processSample cst ext x s).m_settings = s.m_settings := by
  unfold blockCompletes at hc
  obtain ⟨f1, f2, f3, f4, f5, _⟩ := advanceChirp_frame (processSampleBody cst ext x s)
  unfold processSample
  rw [f1, f2, f3, f4, f5]
  simp only [processSampleBody, hst, hc, if_false, and_self]

/-- The state ReadPayload is entered only with a new record, without symbols, and a
chirp count of 0. -/
theorem enter_payload (cst : Consts) (ext : Ext K) (x : StepIn K) (s : Sink K)
    (hst : s.m_state ≠ LoRaStateReadPayload)
    (hp : (processSample cst ext x s).m_state = LoRaStateReadPayload) :
    (∃ m : MsgDecodeSymbols K, (processSample cst ext x s).m_decodeMsg = some m ∧
        m.m_symbols = [] ∧ m.m_syncWord = s.m_syncWord) ∧
      (processSample cst ext x s).m_chirpCount = 0 := by
  obtain ⟨f1, f2, f3, f4, _⟩ := advanceChirp_frame (processSampleBody cst ext x s)
  unfold processSample at hp ⊢
  rw [f1] at hp
  rw [f2, f4]
  unfold processSampleBody at hp ⊢
  cases hs : s.m_state with
  | LoRaStateReadPayload => exact absurd hs hst
  | LoRaStateReset => simp [hs, reset] at hp
  | LoRaStateOther => simp [hs] at hp
  | LoRaStatePreambleResyc =>
    simp only [hs] at hp
    split at hp <;> simp [hs] at hp
  | LoRaStateDetectPreamble =>
    simp only [hs] at hp
    split at hp
    · split at hp
      · split at hp <;> simp [hs] at hp
      · simp [hs] at hp
    · simp [hs] at hp
  | LoRaStatePreamble =>
    simp only [hs] at hp
    split at hp
    · split at hp
      · split at hp <;> simp [hs] at hp
      · split at hp <;> simp [hs] at hp
    · simp [hs] at hp
  | LoRaStateSkipSFD =>
    simp only [hs] at hp ⊢
    split at hp
    · rename_i h1
      split at hp
      · rename_i h2
        simp [h1, h2, startPayload, MsgDecodeSymbols.create]
      · simp [hs] at hp
    · simp [hs] at hp
  | LoRaStateSlideSFD =>
    simp only [hs] at hp ⊢
    split at hp
    · rename_i h1
      split at hp
      · rename_i h2
        simp [h1, h2, startPayload, MsgDecodeSymbols.create]
      · simp [hs] at hp
    · simp [hs] at hp

/-- One call of `processSample` keeps the invariant of the payload, the trace being
updated as in `acceptedLog`. -/
theorem payloadInv_step (cst : Consts) (ext : Ext K) (x : StepIn K) (s : Sink K)
    (log : List Nat) (h : PayloadInv log s) :
    PayloadInv
      (if s.m_state = LoRaStateReadPayload then
        (if blockCompletes s ∧ accepted cst s x then log ++ [payloadSymbol cst s x] else log)
       else [])
      (processSample cst ext x s) := by
  intro hp
  by_cases hst : s.m_state = LoRaStateReadPayload
  · obtain ⟨m, hm, hsym, hlen, hmax⟩ := h hst
    rw [if_pos hst]
    by_cases hc : blockCompletes s
    · by_cases ha : accepted cst s x
      · by_cases hle : s.m_chirpCount + 1 ≤ s.m_settings.m_nbSymbolsMax
        · obtain ⟨_, p2, p3, _, p5⟩ := payload_step_accepted cst ext x s m hst hc hm ha hle
          rw [if_pos ⟨hc, ha⟩]
          refine ⟨_, p3, ?_, ?_, ?_⟩
          · simp [MsgDecodeSymbols.pushBackSymbol, hsym]
          · rw [p2, List.length_append, hlen]
            rfl
          · rw [p2, p5]
            exact hle
        · obtain ⟨p1, _⟩ := payload_step_full cst ext x s m hst hc hm ha (by omega)
          rw [p1] at hp
          cases hp
      · obtain ⟨p1, _⟩ := payload_step_rejected cst ext x s m hst hc hm ha
        rw [p1] at hp
        cases hp
    · obtain ⟨_, p2, p3, _, p5⟩ := payload_step_inside cst ext x s hst hc
      rw [if_neg (fun hh => hc hh.1)]
      exact ⟨m, by rw [p3, hm], hsym, by rw [p2, hlen], by rw [p2, p5]; exact hmax⟩
  · obtain ⟨⟨m, hm, hsym, _⟩, hcount⟩ := enter_payload cst ext x s hst hp
    rw [if_neg hst]
    exact ⟨m, hm, hsym, by rw [hcount]; rfl, by rw [hcount]; exact Nat.zero_le _⟩

/-- The invariant of the payload holds all along a run, with the trace `acceptedLog`. -/
theorem payloadInv_run (cst : Consts) (ext : Ext K) (inputs : List (StepIn K)) :
    ∀ (log : List Nat) (s : Sink K), PayloadInv log s →
      PayloadInv (acceptedLog cst ext log s inputs) (run cst ext s inputs) := by
  induction inputs with
  | nil =>
    intro log s h
    exact h
  | cons x rest ih =>
    intro log s h
    exact ih _ _ (payloadInv_step cst ext x s log h)

/-- The invariant of the payload holds with the empty trace in a sink that is not in
ReadPayload. -/
theorem payloadInv_of_ne {K : Type} (s : Sink K) (h : s.m_state ≠ LoRaStateReadPayload) :
    PayloadInv [] s :=
  fun hst => absurd hst h

/-- Claim C17: when the squelch ends a message in ReadPayload (a block is completed and
fails the acceptance test), the state becomes Reset and the record left holds, in
order, exactly the symbols accepted before the terminating one (the trace of the
message), which are at least one; the record is pushed to the consumer when a queue is
registered and decoding is active, and is not pushed otherwise.  The run starts from any
sink that is not in ReadPayload, such as the sink just constructed. -/
theorem C17_squelch_end_drops_last (cst : Consts) (ext : Ext K) (s0 : Sink K)
    (inputs : List (StepIn K)) (x : StepIn K)
    (h0 : s0.m_state ≠ LoRaStateReadPayload)
    (hst : (run cst ext s0 inputs).m_state = LoRaStateReadPayload)
    (hc : blockCompletes (run cst ext s0 inputs))
    (hr : ¬ accepted cst (run cst ext s0 inputs) x) :
    (processSample cst ext x (run cst ext s0 inputs)).m_state = LoRaStateReset ∧
      ∃ m' : MsgDecodeSymbols K,
        (processSample cst ext x (run cst ext s0 inputs)).m_decodeMsg = some m' ∧
        m'.m_symbols = acceptedLog cst ext [] s0 inputs ∧
        1 ≤ m'.m_symbols.length ∧
        HandedOff (run cst ext s0 inputs) (processSample cst ext x (run cst ext s0 inputs))
          m' := by
  obtain ⟨m, hm, hsym, hlen, _⟩ :=
    payloadInv_run cst ext inputs [] s0 (payloadInv_of_ne s0 h0) hst
  obtain ⟨p1, _, m', p3, p4, _, p6⟩ :=
    payload_step_rejected cst ext x (run cst ext s0 inputs) m hst hc hm hr
  refine ⟨p1, m', p3, by rw [p4, hsym], ?_, p6⟩
  rw [p4, hsym, hlen]
  have hne : (run cst ext s0 inputs).m_chirpCount ≠ 0 := fun h => hr (Or.inl h)
  omega

/-- Instance of claim C17 on the sample sink: after the symbols 1 and 2, a block of peak
1/100 ends the message, and the record left holds the symbols 1, 2. -/
theorem C17_squelch_end_drops_last_witness :
    (processSample sampleConsts sampleExt (stepOf 3 (1 / 100) 0)
        (run sampleConsts sampleExt sampleSink twoSymbols)).m_state = LoRaStateReset ∧
      ∃ m' : MsgDecodeSymbols ℚ,
        (processSample sampleConsts sampleExt (stepOf 3 (1 / 100) 0)
          (run sampleConsts sampleExt sampleSink twoSymbols)).m_decodeMsg = some m' ∧
        m'.m_symbols = acceptedLog sampleConsts sampleExt [] sampleSink twoSymbols ∧
        1 ≤ m'.m_symbols.length ∧
        HandedOff (run sampleConsts sampleExt sampleSink twoSymbols)
          (processSample sampleConsts sampleExt (stepOf 3 (1 / 100) 0)
            (run sampleConsts sampleExt sampleSink twoSymbols)) m' :=
  C17_squelch_end_drops_last sampleConsts sampleExt sampleSink twoSymbols
    (stepOf 3 (1 / 100) 0) (by decide!) (by decide!) (by decide!) (by decide!)

/-- Claim C18: when a message ends because the maximum symbol count is exceeded (a
block is completed, passes the acceptance test and brings the chirp count above
`m_nbSymbolsMax`), the state becomes Reset and no symbol is dropped: the record handed
off holds every accepted symbol, the trace of the message followed by the symbol of
this block, which makes exactly `m_nbSymbolsMax + 1` symbols; and whenever a completed
payload block leaves the state Reset, the record holds at most `m_nbSymbolsMax + 1`
symbols.  The run starts from any sink that is not in ReadPayload. -/
theorem C18_max_count_end_keeps_all (cst : Consts) (ext : Ext K) (s0 : Sink K)
    (inputs : List (StepIn K)) (x : StepIn K)
    (h0 : s0.m_state ≠ LoRaStateReadPayload)
    (hst : (run cst ext s0 inputs).m_state = LoRaStateReadPayload)
    (hc : blockCompletes (run cst ext s0 inputs)) :
    (accepted cst (run cst ext s0 inputs) x →
        (run cst ext s0 inputs).m_chirpCount + 1 >
          (run cst ext s0 inputs).m_settings.m_nbSymbolsMax →
        (processSample cst ext x (run cst ext s0 inputs)).m_state = LoRaStateReset ∧
          ∃ m' : MsgDecodeSymbols K,
            (processSample cst ext x (run cst ext s0 inputs)).m_decodeMsg = some m' ∧
            m'.m_symbols = acceptedLog cst ext [] s0 inputs ++
              [payloadSymbol cst (run cst ext s0 inputs) x] ∧
            m'.m_symbols = acceptedLog cst ext [] s0 (inputs ++ [x]) ∧
            m'.m_symbols.length = (run cst ext s0 inputs).m_settings.m_nbSymbolsMax + 1 ∧
            HandedOff (run cst ext s0 inputs)
              (processSample cst ext x (run cst ext s0 inputs)) m') ∧
      ((processSample cst ext x (run cst ext s0 inputs)).m_state = LoRaStateReset →
        ∃ m' : MsgDecodeSymbols K,
          (processSample cst ext x (run cst ext s0 inputs)).m_decodeMsg = some m' ∧
          m'.m_symbols.length ≤ (run cst ext s0 inputs).m_settings.m_nbSymbolsMax + 1) := by
  obtain ⟨m, hm, hsym, hlen, hmax⟩ :=
    payloadInv_run cst ext inputs [] s0 (payloadInv_of_ne s0 h0) hst
  have hlog : ∀ (l : List (StepIn K)) (log : List Nat) (s : Sink K),
      acceptedLog cst ext log s (l ++ [x]) =
        (if (run cst ext s l).m_state = LoRaStateReadPayload then
          (if blockCompletes (run cst ext s l) ∧ accepted cst (run cst ext s l) x then
            acceptedLog cst ext log s l ++ [payloadSymbol cst (run cst ext s l) x]
           else acceptedLog cst ext log s l)
         else []) := by
    intro l
    induction l with
    | nil =>
      intro log s
      rfl
    | cons y rest ih =>
      intro log s
      exact ih _ _
  constructor
  · intro ha hgt
    obtain ⟨p1, _, m', p3, p4, _, p6⟩ :=
      payload_step_full cst ext x (run cst ext s0 inputs) m hst hc hm ha hgt
    refine ⟨p1, m', p3, by rw [p4, hsym], ?_, ?_, p6⟩
    · rw [hlog inputs [] s0, if_pos hst, if_pos ⟨hc, ha⟩, p4, hsym]
    · rw [p4, List.length_append, hsym, hlen]
      simp only [List.length_singleton]
      omega
  · intro hp
    by_cases ha : accepted cst (run cst ext s0 inputs) x
    · by_cases hle : (run cst ext s0 inputs).m_chirpCount + 1 ≤
          (run cst ext s0 inputs).m_settings.m_nbSymbolsMax
      · obtain ⟨p1, _⟩ :=
          payload_step_accepted cst ext x (run cst ext s0 inputs) m hst hc hm ha hle
        rw [p1] at hp
        cases hp
      · obtain ⟨_, _, m', p3, p4, _⟩ :=
          payload_step_full cst ext x (run cst ext s0 inputs) m hst hc hm ha (by omega)
        refine ⟨m', p3, ?_⟩
        rw [p4, List.length_append, hsym, hlen]
        simp only [List.length_singleton]
        omega
    · obtain ⟨_, _, m', p3, p4, _⟩ :=
        payload_step_rejected cst ext x (run cst ext s0 inputs) m hst hc hm ha
      refine ⟨m', p3, ?_⟩
      rw [p4, hsym, hlen]
      omega

/-- Instance of claim C18 on the sample sink, whose maximum is 3 symbols: the fourth
accepted block ends the message, and the record holds the 4 symbols 1, 2, 3, 0. -/
theorem C18_max_count_end_keeps_all_witness :
    (processSample sampleConsts sampleExt (stepOf 0 1 0)
        (run sampleConsts sampleExt sampleSink threeSymbols)).m_state = LoRaStateReset ∧
      ∃ m' : MsgDecodeSymbols ℚ,
        (processSample sampleConsts sampleExt (stepOf 0 1 0)
          (run sampleConsts sampleExt sampleSink threeSymbols)).m_decodeMsg = some m' ∧
        m'.m_symbols = acceptedLog sampleConsts sampleExt [] sampleSink threeSymbols ++
          [payloadSymbol sampleConsts (run sampleConsts sampleExt sampleSink threeSymbols)
            (stepOf 0 1 0)] ∧
        m'.m_symbols = acceptedLog sampleConsts sampleExt [] sampleSink
          (threeSymbols ++ [stepOf 0 1 0]) ∧
        m'.m_symbols.length =
          (run sampleConsts sampleExt sampleSink threeSymbols).m_settings.m_nbSymbolsMax + 1 ∧
        HandedOff (run sampleConsts sampleExt sampleSink threeSymbols)
          (processSample sampleConsts sampleExt (stepOf 0 1 0)
            (run sampleConsts sampleExt sampleSink threeSymbols)) m' :=
  (C18_max_count_end_keeps_all sampleConsts sampleExt sampleSink threeSymbols (stepOf 0 1 0)
    (by decide!) (by decide!) (by decide!)).1 (by decide!) (by decide!)

/-- Control of a completed payload block, whatever the record: the chirp count is
incremented exactly when the block passes the acceptance test; a block that passes
leaves the state ReadPayload unless the chirp count exceeds the maximum, a block that
fails leaves the state Reset; the peak kept is the larger of the former peak and the
magnitude of the block. -/
theorem payload_step_control (cst : Consts) (ext : Ext K) (x : StepIn K) (s : Sink K)
    (hst : s.m_state = LoRaStateReadPayload) (hc : blockCompletes s) :
    (accepted cst s x →
        (processSample cst ext x s).m_chirpCount = s.m_chirpCount + 1 ∧
          (s.m_chirpCount + 1 ≤ s.m_settings.m_nbSymbolsMax →
            (processSample cst ext x s).m_state = LoRaStateReadPayload) ∧
          (s.m_chirpCount + 1 > s.m_settings.m_nbSymbolsMax →
            (processSample cst ext x s).m_state = LoRaStateReset)) ∧
      (¬ accepted cst s x →
        (processSample cst ext x s).m_state = LoRaStateReset ∧
          (processSample cst ext x s).m_chirpCount = s.m_chirpCount) ∧
      (processSample cst ext x s).m_magsqMax = max s.m_magsqMax (blockMagsq cst s x) := by
  obtain ⟨f1, _, _, f4, _, _, _, _, f9, _⟩ := advanceChirp_frame (processSampleBody cst ext x s)
  unfold processSample
  rw [f1, f4, f9]
  unfold blockCompletes at hc
  refine ⟨?_, ?_, ?_⟩
  · intro ha
    rw [accepted_iff] at ha
    by_cases hgt : s.m_chirpCount + 1 > s.m_settings.m_nbSymbolsMax
    · simp only [processSampleBody, hst, hc, if_true, ha, hgt]
      rw [(handOff_frame ext _).1, (handOff_frame ext _).2.1]
      exact ⟨rfl, fun h => absurd hgt (by omega), fun _ => rfl⟩
    · have hle : s.m_chirpCount + 1 ≤ s.m_settings.m_nbSymbolsMax := by omega
      simp [processSampleBody, hst, hc, ha, hgt, hle]
  · intro hr
    rw [accepted_iff] at hr
    simp only [processSampleBody, hst, hc, if_true, hr, if_false]
    rw [(handOff_frame ext _).1, (handOff_frame ext _).2.1]
    exact ⟨rfl, rfl⟩
  · rw [← ite_gt_eq_max]
    unfold blockMagsq
    by_cases ha : accepted cst s x
    · rw [accepted_iff] at ha
      by_cases hgt : s.m_chirpCount + 1 > s.m_settings.m_nbSymbolsMax
      · simp only [processSampleBody, hst, hc, if_true, ha, hgt]
        rw [(handOff_frame ext _).2.2.2.2.2]
      · simp only [processSampleBody, hst, hc, if_true, ha, hgt, if_false]
    · rw [accepted_iff] at ha
      simp only [processSampleBody, hst, hc, if_true, ha, if_false]
      rw [(handOff_frame ext _).2.2.2.2.2]

/-- Claim C19 (as amended): in ReadPayload a completed symbol block is accepted (its
symbol is counted) if and only if it is the first payload symbol of the message, or the
squelch setting equals the sentinel 121, or the squelch tenths times the magnitude of
the block over 10 exceed the running peak, which already includes the block.  A block
that is not accepted ends the message (state Reset); an accepted block ends it only
when the chirp count exceeds the maximum number of symbols.  Hence the first symbol is
never refused by the squelch and ends the message only when `m_nbSymbolsMax` is 0, and
with the sentinel set a message only ends by exceeding the maximum symbol count. -/
theorem C19_payload_acceptance (cst : Consts) (ext : Ext K) (x : StepIn K) (s : Sink K)
    (hst : s.m_state = LoRaStateReadPayload) (hc : blockCompletes s) :
    ((processSample cst ext x s).m_chirpCount = s.m_chirpCount + 1 ↔
        (s.m_chirpCount = 0 ∨ s.m_settings.m_eomSquelchTenths = (121 : Int)
          ∨ ((s.m_settings.m_eomSquelchTenths : K) * blockMagsq cst s x) / 10 >
            (processSample cst ext x s).m_magsqMax)) ∧
      (processSample cst ext x s).m_magsqMax = max s.m_magsqMax (blockMagsq cst s x) ∧
      (¬ accepted cst s x →
        (processSample cst ext x s).m_state = LoRaStateReset ∧
          (processSample cst ext x s).m_chirpCount = s.m_chirpCount) ∧
      (accepted cst s x →
        ((processSample cst ext x s).m_state = LoRaStateReadPayload ↔
          s.m_chirpCount + 1 ≤ s.m_settings.m_nbSymbolsMax)) ∧
      (s.m_chirpCount = 0 →
        accepted cst s x ∧
          ((processSample cst ext x s).m_state = LoRaStateReset ↔
            s.m_settings.m_nbSymbolsMax = 0)) ∧
      (s.m_settings.m_eomSquelchTenths = (121 : Int) →
        accepted cst s x ∧
          ((processSample cst ext x s).m_state = LoRaStateReset →
            s.m_chirpCount + 1 > s.m_settings.m_nbSymbolsMax)) := by
  obtain ⟨ha, hr, hmax⟩ := payload_step_control cst ext x s hst hc
  have hstate : accepted cst s x →
      ((processSample cst ext x s).m_state = LoRaStateReadPayload ↔
        s.m_chirpCount + 1 ≤ s.m_settings.m_nbSymbolsMax) := by
    intro h
    obtain ⟨_, h2, h3⟩ := ha h
    constructor
    · intro hp
      by_contra hn
      rw [h3 (by omega)] at hp
      cases hp
    · exact h2
  have hreset : accepted cst s x →
      ((processSample cst ext x s).m_state = LoRaStateReset ↔
        s.m_chirpCount + 1 > s.m_settings.m_nbSymbolsMax) := by
    intro h
    obtain ⟨_, h2, h3⟩ := ha h
    constructor
    · intro hp
      by_contra hn
      rw [h2 (by omega)] at hp
      cases hp
    · exact h3
  refine ⟨?_, hmax, hr, hstate, ?_, ?_⟩
  · rw [hmax]
    constructor
    · intro hcount
      by_contra hn
      have := (hr hn).2
      omega
    · intro h
      exact (ha h).1
  · intro h0
    have hacc : accepted cst s x := Or.inl h0
    refine ⟨hacc, ?_⟩
    rw [hreset hacc, h0]
    omega
  · intro h121
    have hacc : accepted cst s x := Or.inr (Or.inl h121)
    exact ⟨hacc, (hreset hacc).mp⟩

/-- Instance of claim C19 (as amended) on the sample sink (at most 3 symbols): the first
block of the payload is accepted and does not end the message. -/
theorem C19_payload_acceptance_witness :
    accepted sampleConsts (run sampleConsts sampleExt sampleSink firstSymbol) (stepOf 1 1 0) ∧
      ((processSample sampleConsts sampleExt (stepOf 1 1 0)
          (run sampleConsts sampleExt sampleSink firstSymbol)).m_state = LoRaStateReset ↔
        (run sampleConsts sampleExt sampleSink firstSymbol).m_settings.m_nbSymbolsMax = 0) :=
  (C19_payload_acceptance sampleConsts sampleExt (stepOf 1 1 0)
    (run sampleConsts sampleExt sampleSink firstSymbol) (by decide!) (by decide!)).2.2.2.2.1
    (by decide!)

/-- Claim C19 as stated fails when the maximum number of symbols is 0: the first payload
block of the message is completed in ReadPayload with a chirp count of 0, and it is the
end of the message; the state becomes Reset and the record, with its one symbol, is
pushed to the consumer. -/
theorem C19_counterexample :
    (run sampleConsts sampleExt sampleSinkMax0 firstSymbol).m_state = LoRaStateReadPayload ∧
      (run sampleConsts sampleExt sampleSinkMax0 firstSymbol).m_chirpCount = 0 ∧
      blockCompletes (run sampleConsts sampleExt sampleSinkMax0 firstSymbol) ∧
      (processSample sampleConsts sampleExt (stepOf 1 1 0)
        (run sampleConsts sampleExt sampleSinkMax0 firstSymbol)).m_state = LoRaStateReset ∧
      (processSample sampleConsts sampleExt (stepOf 1 1 0)
        (run sampleConsts sampleExt sampleSinkMax0 firstSymbol)).m_decoderMsgQueue =
          some [⟨[1], 0, some 0, some 0⟩] := by
  decide!

/-- The index and the maximum found by the loop of `argmax` depend only on the values
they start from, not on the rest of the local variables. -/
theorem argmax_fold_indep (fftBins : List (Cplx K)) (specDecim : Nat) (l : List Nat) :
    ∀ v w : ArgmaxVars K, v.magsqMax = w.magsqMax → v.imax = w.imax →
      (l.foldl (argmaxStep fftBins specDecim) v).magsqMax =
          (l.foldl (argmaxStep fftBins specDecim) w).magsqMax ∧
        (l.foldl (argmaxStep fftBins specDecim) v).imax =
          (l.foldl (argmaxStep fftBins specDecim) w).imax := by
  induction l with
  | nil =>
    intro v w h1 h2
    exact ⟨h1, h2⟩
  | cons i rest ih =>
    intro v w h1 h2
    rw [List.foldl_cons, List.foldl_cons]
    obtain ⟨a1, a2⟩ := argmaxStep_max fftBins specDecim v i
    obtain ⟨b1, b2⟩ := argmaxStep_max fftBins specDecim w i
    apply ih
    · rw [a1, b1, h1]
    · rw [a2, b2, h1, h2]

/-- The index returned by `argmax` and the maximum it leaves do not depend on the
spectrum buffer passed. -/
theorem argmax_indep_spec (fftBins : List (Cplx K)) (fftMult fftLength imax0 specDecim : Nat)
    (specBuffer : Option (List (Cplx K))) :
    (argmax fftBins fftMult fftLength imax0 specBuffer specDecim).1 =
        (argmax fftBins fftMult fftLength imax0 none specDecim).1 ∧
      (argmax fftBins fftMult fftLength imax0 specBuffer specDecim).2.1 =
        (argmax fftBins fftMult fftLength imax0 none specDecim).2.1 := by
  obtain ⟨h1, h2⟩ := argmax_fold_indep fftBins specDecim (List.range (fftMult * fftLength))
    { magsqMax := 0, imax := imax0, magSum := 0, specBuffer := specBuffer }
    { magsqMax := 0, imax := imax0, magSum := 0, specBuffer := none } rfl rfl
  exact ⟨h2, h1⟩

theorem blockMagsq_eq_peakOf (cst : Consts) (s : Sink K) (x : StepIn K) :
    blockMagsq cst s x = peakOf cst s.m_fftLength x :=
  (argmax_indep_spec _ _ _ _ _ _).2

/-- One call of `processSample` on a sink that is in Reset or DetectPreamble, inactive
and without record, when the peak of the block does not exceed the threshold: the sink
is still in Reset or DetectPreamble, inactive and without record, and the queue of the
consumer, the settings and the FFT length are unchanged. -/
theorem noise_step (cst : Consts) (ext : Ext K) (x : StepIn K) (s : Sink K)
    (hst : s.m_state = LoRaStateReset ∨ s.m_state = LoRaStateDetectPreamble)
    (hact : s.m_demodActive = false) (hmsg : s.m_decodeMsg = none)
    (hpeak : peakOf cst s.m_fftLength x ≤ threshold) :
    ((processSample cst ext x s).m_state = LoRaStateReset ∨
        (processSample cst ext x s).m_state = LoRaStateDetectPreamble) ∧
      (processSample cst ext x s).m_demodActive = false ∧
      (processSample cst ext x s).m_decodeMsg = none ∧
      (processSample cst ext x s).m_decoderMsgQueue = s.m_decoderMsgQueue ∧
      (processSample cst ext x s).m_fftLength = s.m_fftLength := by
  obtain ⟨f1, f2, f3, _, _, f6, f7, _⟩ := advanceChirp_frame (processSampleBody cst ext x s)
  unfold processSample
  rw [f1, f2, f3, f6, f7]
  have hmag : ¬ (argmaxFft cst s x).2.1 > threshold := by
    have := blockMagsq_eq_peakOf cst s x
    unfold blockMagsq at this
    rw [this]
    exact not_lt.mpr hpeak
  rcases hst with hst | hst
  · simp [processSampleBody, hst, reset, hmsg]
  · unfold processSampleBody
    simp only [hst]
    split
    · split
      · simp only [hmag, and_false, if_false]
        simp [hst, hact, hmsg]
      · simp [hst, hact, hmsg]
    · simp [hst, hact, hmsg]

/-- Claim C15: noise never produces a message.  From the sink just constructed, with
any queue registered for the consumer, for every sequence of inputs in which the peak
squared magnitude of the spectrum of every block is at most the threshold 1e-9, after
every call of `processSample` the state is Reset or DetectPreamble, demodulation is not
active, no record has been created and nothing has been pushed to the consumer. -/
theorem C15_noise_no_message (cst : Consts) (ext : Ext K) (junk : Sink K)
    (queue : Option (List (MsgDecodeSymbols K))) (inputs : List (StepIn K))
    (hnoise : ∀ x ∈ inputs, peakOf cst (2 ^ junk.m_settings.m_spreadFactor) x ≤ threshold)
    (k : Nat) :
    ((run cst ext (setDecoderMessageQueue (construct cst ext junk) queue)
          (inputs.take k)).m_state = LoRaStateReset ∨
        (run cst ext (setDecoderMessageQueue (construct cst ext junk) queue)
          (inputs.take k)).m_state = LoRaStateDetectPreamble) ∧
      (run cst ext (setDecoderMessageQueue (construct cst ext junk) queue)
        (inputs.take k)).m_demodActive = false ∧
      (run cst ext (setDecoderMessageQueue (construct cst ext junk) queue)
        (inputs.take k)).m_decodeMsg = none ∧
      (run cst ext (setDecoderMessageQueue (construct cst ext junk) queue)
        (inputs.take k)).m_decoderMsgQueue = queue := by
  have hgen : ∀ (l : List (StepIn K)) (s : Sink K),
      (∀ x ∈ l, peakOf cst (2 ^ junk.m_settings.m_spreadFactor) x ≤ threshold) →
      (s.m_state = LoRaStateReset ∨ s.m_state = LoRaStateDetectPreamble) →
      s.m_demodActive = false → s.m_decodeMsg = none → s.m_decoderMsgQueue = queue →
      s.m_fftLength = 2 ^ junk.m_settings.m_spreadFactor →
      ((run cst ext s l).m_state = LoRaStateReset ∨
          (run cst ext s l).m_state = LoRaStateDetectPreamble) ∧
        (run cst ext s l).m_demodActive = false ∧
        (run cst ext s l).m_decodeMsg = none ∧
        (run cst ext s l).m_decoderMsgQueue = queue := by
    intro l
    induction l with
    | nil =>
      intro s _ h1 h2 h3 h4 _
      exact ⟨h1, h2, h3, h4⟩
    | cons x rest ih =>
      intro s hl h1 h2 h3 h4 h5
      obtain ⟨g1, g2, g3, g4, g5⟩ := noise_step cst ext x s h1 h2 h3
        (by rw [h5]; exact hl x (List.mem_cons_self _ _))
      exact ih (processSample cst ext x s) (fun y hy => hl y (List.mem_cons_of_mem _ hy))
        g1 g2 g3 (by rw [g4, h4]) (by rw [g5, h5])
  apply hgen (inputs.take k) _ (fun x hx => hnoise x (List.mem_of_mem_take hx))
  · left
    simp [setDecoderMessageQueue, construct, initSF]
  · simp [setDecoderMessageQueue, construct, initSF]
  · simp [setDecoderMessageQueue, construct, initSF]
  · simp [setDecoderMessageQueue]
  · simp [setDecoderMessageQueue, construct, initSF, Nat.one_shiftLeft]

/-- Instance of claim C15 on the sample sink with 20 calls of noise. -/
theorem C15_noise_no_message_witness :
    ((run sampleConsts sampleExt
          (setDecoderMessageQueue (construct sampleConsts sampleExt sampleJunk) (some []))
          (noiseInputs.take 20)).m_state = LoRaStateReset ∨
        (run sampleConsts sampleExt
          (setDecoderMessageQueue (construct sampleConsts sampleExt sampleJunk) (some []))
          (noiseInputs.take 20)).m_state = LoRaStateDetectPreamble) ∧
      (run sampleConsts sampleExt
        (setDecoderMessageQueue (construct sampleConsts sampleExt sampleJunk) (some []))
        (noiseInputs.take 20)).m_demodActive = false ∧
      (run sampleConsts sampleExt
        (setDecoderMessageQueue (construct sampleConsts sampleExt sampleJunk) (some []))
        (noiseInputs.take 20)).m_decodeMsg = none ∧
      (run sampleConsts sampleExt
        (setDecoderMessageQueue (construct sampleConsts sampleExt sampleJunk) (some []))
        (noiseInputs.take 20)).m_decoderMsgQueue = some [] :=
  C15_noise_no_message sampleConsts sampleExt sampleJunk (some []) noiseInputs
    (by decide!) 20

/-- The loop of lines 177-186 finds a preamble exactly when the entries `0 .. n-1` of
the history are all equal to entry 0. -/
theorem preambleFound_iff (n : Nat) (history : List Nat) :
    preambleFound n history = true ↔
      ∀ i < n, history.getD i 0 = history.getD 0 0 := by
  unfold preambleFound
  rw [List.all_eq_true]
  constructor
  · intro h i hi
    by_cases h0 : i = 0
    · rw [h0]
    · have hm : i ∈ List.range' 1 (n - 1) := by
        rw [List.mem_range'_1]
        omega
      have := h i hm
      simp only [beq_iff_eq] at this
      exact this.symm
  · intro h i hi
    rw [List.mem_range'_1] at hi
    simp only [beq_iff_eq]
    exact (h i (by omega)).symm

/-- Claim C20 (as amended): in DetectPreamble the history is examined only at the
completion of a block at which the history counter reaches `m_requiredPreambleChirps`,
that is every `m_requiredPreambleChirps`-th block since the counter was last 0.  At the
completion of such a block, if the `m_requiredPreambleChirps` bins held by the history
are all equal to `b` and the peak squared magnitude of the block exceeds the threshold
1e-9, the preamble is confirmed: `b` is assigned to the chirp phase index (which the
final advance of the same call moves to `b + 1`, or to 0 at the end of the symbol
period) and to the sample counter, the chirp count is reset to 0 and the state becomes
PreambleResyc.  At the completion of any other block the bin is recorded in the history
and the state stays DetectPreamble, whatever the most recent bins. -/
theorem C20_preamble_confirmation (cst : Consts) (ext : Ext K) (x : StepIn K) (s : Sink K)
    (hst : s.m_state = LoRaStateDetectPreamble) (hc : blockCompletes s) :
    (s.m_argMaxHistoryCounter + 1 ≠ cst.m_requiredPreambleChirps →
        (processSample cst ext x s).m_state = LoRaStateDetectPreamble ∧
          (processSample cst ext x s).m_argMaxHistory =
            s.m_argMaxHistory.set s.m_argMaxHistoryCounter (blockBin cst s x) ∧
          (processSample cst ext x s).m_argMaxHistoryCounter = s.m_argMaxHistoryCounter + 1) ∧
      (s.m_argMaxHistoryCounter + 1 = cst.m_requiredPreambleChirps →
        ∀ b : Nat,
          (∀ i < cst.m_requiredPreambleChirps,
            (s.m_argMaxHistory.set s.m_argMaxHistoryCounter (blockBin cst s x)).getD i 0 = b) →
          blockMagsq cst s x > threshold →
          (processSample cst ext x s).m_state = LoRaStatePreambleResyc ∧
            (processSampleBody cst ext x s).m_chirp = (b : Int) ∧
            (processSample cst ext x s).m_chirp =
              (if (b : Int) + 1 ≥ (s.m_nbSymbols : Int) then 0 else (b : Int) + 1) ∧
            (processSample cst ext x s).m_fftCounter = (b : Int) ∧
            (processSample cst ext x s).m_chirp0 = 0 ∧
            (processSample cst ext x s).m_chirpCount = 0) ∧
      (s.m_argMaxHistoryCounter + 1 = cst.m_requiredPreambleChirps →
        ¬ ((∀ i < cst.m_requiredPreambleChirps,
            (s.m_argMaxHistory.set s.m_argMaxHistoryCounter (blockBin cst s x)).getD i 0 =
              (s.m_argMaxHistory.set s.m_argMaxHistoryCounter (blockBin cst s x)).getD 0 0) ∧
          blockMagsq cst s x > threshold) →
        (processSample cst ext x s).m_state = LoRaStateDetectPreamble ∧
          (processSample cst ext x s).m_argMaxHistoryCounter = 0) := by
  obtain ⟨f1, _, _, f4, _, _, _, f8, _, f10, f11, f12⟩ :=
    advanceChirp_frame (processSampleBody cst ext x s)
  unfold blockCompletes at hc
  unfold blockBin blockMagsq
  refine ⟨?_, ?_, ?_⟩
  · intro hne
    unfold processSample
    rw [f1, f11, f12]
    simp only [processSampleBody, hst, hc, if_true, hne, if_false, and_self]
  · intro heq b hb hmag
    have hfound : preambleFound cst.m_requiredPreambleChirps
        (s.m_argMaxHistory.set s.m_argMaxHistoryCounter
          ((argmaxFft cst s x).1 / cst.m_fftInterpolation)) = true := by
      rw [preambleFound_iff]
      intro i hi
      rw [hb i hi, hb 0 (by omega)]
    have hb0 := hb 0 (by omega)
    have hbody : processSampleBody cst ext x s =
        { s with
          m_spectrumBuffer := (argmaxFft cst s x).2.2.getD s.m_spectrumBuffer
          m_magsqQueue :=
            (if s.m_magsqQueue.length > cst.m_requiredPreambleChirps + 1 then
              s.m_magsqQueue.tail else s.m_magsqQueue) ++ [(argmaxFft cst s x).2.1]
          m_argMaxHistory := s.m_argMaxHistory.set s.m_argMaxHistoryCounter
            ((argmaxFft cst s x).1 / cst.m_fftInterpolation)
          m_argMaxHistoryCounter := 0
          m_chirp := (b : Int)
          m_fftCounter := (b : Int)
          m_chirp0 := 0
          m_chirpCount := 0
          m_state := LoRaStatePreambleResyc } := by
      simp only [processSampleBody, hst, hc, if_true, heq, hfound, hmag, and_self, hb0]
    unfold processSample
    rw [f1, f4, f8, f10, hbody]
    refine ⟨rfl, rfl, ?_, rfl, rfl, rfl⟩
    unfold advanceChirp
    simp only [zero_add]
    split <;> rfl
  · intro heq hno
    have hcond : ¬ (preambleFound cst.m_requiredPreambleChirps
        (s.m_argMaxHistory.set s.m_argMaxHistoryCounter
          ((argmaxFft cst s x).1 / cst.m_fftInterpolation)) = true ∧
        (argmaxFft cst s x).2.1 > threshold) := by
      rw [preambleFound_iff]
      exact hno
    unfold processSample
    rw [f1, f12]
    simp only [processSampleBody, hst, hc, if_true, heq, hcond, if_false, and_self]

/-- Instance of claim C20 (as amended) on the sample sink, which requires 4 chirps: the
fourth block since Reset, like the three before it, has its peak 1 at the bin 2, and
the preamble is confirmed on it. -/
theorem C20_preamble_confirmation_witness :
    (processSample sampleConsts sampleExt (stepOf 2 1 0)
        (run sampleConsts sampleExt sampleSink alignedPreamble)).m_state =
        LoRaStatePreambleResyc ∧
      (processSampleBody sampleConsts sampleExt (stepOf 2 1 0)
        (run sampleConsts sampleExt sampleSink alignedPreamble)).m_chirp = ((2 : Nat) : Int) ∧
      (processSample sampleConsts sampleExt (stepOf 2 1 0)
        (run sampleConsts sampleExt sampleSink alignedPreamble)).m_chirp =
        (if ((2 : Nat) : Int) + 1 ≥
            ((run sampleConsts sampleExt sampleSink alignedPreamble).m_nbSymbols : Int)
          then 0 else ((2 : Nat) : Int) + 1) ∧
      (processSample sampleConsts sampleExt (stepOf 2 1 0)
        (run sampleConsts sampleExt sampleSink alignedPreamble)).m_fftCounter =
        ((2 : Nat) : Int) ∧
      (processSample sampleConsts sampleExt (stepOf 2 1 0)
        (run sampleConsts sampleExt sampleSink alignedPreamble)).m_chirp0 = 0 ∧
      (processSample sampleConsts sampleExt (stepOf 2 1 0)
        (run sampleConsts sampleExt sampleSink alignedPreamble)).m_chirpCount = 0 :=
  (C20_preamble_confirmation sampleConsts sampleExt (stepOf 2 1 0)
    (run sampleConsts sampleExt sampleSink alignedPreamble) (by decide!) (by decide!)).2.1
    (by decide!) 2 (by decide!) (by decide!)

/-- Claim C20 as stated fails: on the sample sink, which requires 4 chirps, the blocks
completed in DetectPreamble detect the bins 1, 0, 0, 0, 0.  At the completion of the
fifth block the 4 most recent bins are identical and the peak 1 of the block exceeds the
threshold, yet the state is still DetectPreamble: the history was examined at the fourth
block and will be examined next at the eighth. -/
theorem C20_counterexample :
    detectedBins sampleConsts sampleExt sampleSink (shiftedPreamble ++ [stepOf 0 1 0]) =
        [1, 0, 0, 0, 0] ∧
      blockCompletes (run sampleConsts sampleExt sampleSink shiftedPreamble) ∧
      blockMagsq sampleConsts (run sampleConsts sampleExt sampleSink shiftedPreamble)
        (stepOf 0 1 0) > threshold ∧
      (run sampleConsts sampleExt sampleSink shiftedPreamble).m_state =
        LoRaStateDetectPreamble ∧
      (processSample sampleConsts sampleExt (stepOf 0 1 0)
        (run sampleConsts sampleExt sampleSink shiftedPreamble)).m_state =
        LoRaStateDetectPreamble ∧
      (processSample sampleConsts sampleExt (stepOf 0 1 0)
        (run sampleConsts sampleExt sampleSink shiftedPreamble)).m_state ≠
        LoRaStatePreambleResyc := by
  decide!

/-- Further members that the final advance of the chirp index leaves unchanged. -/
theorem advanceChirp_frame_more {K : Type} (s : Sink K) :
    (advanceChirp s).m_syncWord = s.m_syncWord ∧
      (advanceChirp s).m_preambleHistory = s.m_preambleHistory ∧
      (advanceChirp s).m_sfdSkipCounter = s.m_sfdSkipCounter ∧
      (advanceChirp s).m_sfdSkip = s.m_sfdSkip ∧
      (advanceChirp s).m_nbSymbols = s.m_nbSymbols ∧
      (advanceChirp s).m_magsqQueue = s.m_magsqQueue := by
  unfold advanceChirp
  split <;> simp

/-- The value of the chirp index after the final advance. -/
theorem advanceChirp_chirp {K : Type} (s : Sink K) :
    (advanceChirp s).m_chirp =
      (if s.m_chirp + 1 ≥ s.m_chirp0 + (s.m_nbSymbols : Int) then s.m_chirp0
        else s.m_chirp + 1) := by
  unfold advanceChirp
  split <;> rfl

/-- The call that confirms a preamble in DetectPreamble: the common bin of the history
is assigned to the sample counter and the state becomes PreambleResyc. -/
theorem confirm_step (cst : Consts) (ext : Ext K) (x : StepIn K) (s : Sink K) (b : Nat)
    (hst : s.m_state = LoRaStateDetectPreamble) (hc : blockCompletes s)
    (heq : s.m_argMaxHistoryCounter + 1 = cst.m_requiredPreambleChirps)
    (hb : ∀ i < cst.m_requiredPreambleChirps,
      (s.m_argMaxHistory.set s.m_argMaxHistoryCounter (blockBin cst s x)).getD i 0 = b)
    (hmag : blockMagsq cst s x > threshold) :
    (processSample cst ext x s).m_state = LoRaStatePreambleResyc ∧
      (processSample cst ext x s).m_fftCounter = (b : Int) ∧
      (processSample cst ext x s).m_fftLength = s.m_fftLength := by
  obtain ⟨f1, _, _, _, _, _, f7, f8, _⟩ := advanceChirp_frame (processSampleBody cst ext x s)
  unfold blockCompletes at hc
  unfold blockBin at hb
  unfold blockMagsq at hmag
  have hfound : preambleFound cst.m_requiredPreambleChirps
      (s.m_argMaxHistory.set s.m_argMaxHistoryCounter
        ((argmaxFft cst s x).1 / cst.m_fftInterpolation)) = true := by
    rw [preambleFound_iff]
    intro i hi
    rw [hb i hi, hb 0 (by omega)]
  have hb0 := hb 0 (by omega)
  unfold processSample
  rw [f1, f7, f8]
  simp only [processSampleBody, hst, hc, if_true, heq, hfound, hmag, and_self, hb0]

/-- One call of `processSample` in PreambleResyc: the sample is counted, and when the
counter reaches `m_fftLength` it is reset, demodulation is marked active and the state
becomes Preamble. -/
theorem resyc_step (cst : Consts) (ext : Ext K) (x : StepIn K) (s : Sink K)
    (hst : s.m_state = LoRaStatePreambleResyc) :
    (blockCompletes s →
        (processSample cst ext x s).m_state = LoRaStatePreamble ∧
          (processSample cst ext x s).m_fftCounter = 0 ∧
          (processSample cst ext x s).m_demodActive = true ∧
          (processSample cst ext x s).m_chirpCount = s.m_chirpCount ∧
          (processSample cst ext x s).m_fftLength = s.m_fftLength) ∧
      (¬ blockCompletes s →
        (processSample cst ext x s).m_state = LoRaStatePreambleResyc ∧
          (processSample cst ext x s).m_fftCounter = s.m_fftCounter + 1 ∧
          (processSample cst ext x s).m_fftLength = s.m_fftLength) := by
  obtain ⟨f1, _, _, f4, _, f6, f7, f8, _⟩ := advanceChirp_frame (processSampleBody cst ext x s)
  unfold blockCompletes processSample
  rw [f1, f4, f6, f7, f8]
  constructor
  · intro hc
    simp only [processSampleBody, hst, hc, if_true, and_self]
  · intro hc
    simp only [processSampleBody, hst, hc, if_false, and_self]

/-- A run of `processSample` from PreambleResyc, the sample counter being `e + 1` short
of `m_fftLength`: the state is PreambleResyc during the first `e` calls and becomes
Preamble, with the counter at 0 and demodulation active, at call `e + 1`. -/
theorem resyc_run (cst : Consts) (ext : Ext K) :
    ∀ (inputs : List (StepIn K)) (s : Sink K) (e : Nat),
      s.m_state = LoRaStatePreambleResyc →
      s.m_fftCounter + ((e : Int) + 1) = (s.m_fftLength : Int) →
      (inputs.length ≤ e → (run cst ext s inputs).m_state = LoRaStatePreambleResyc) ∧
        (inputs.length = e + 1 →
          (run cst ext s inputs).m_state = LoRaStatePreamble ∧
            (run cst ext s inputs).m_fftCounter = 0 ∧
            (run cst ext s inputs).m_demodActive = true ∧
            (run cst ext s inputs).m_chirpCount = s.m_chirpCount ∧
            (run cst ext s inputs).m_fftLength = s.m_fftLength) := by
  intro inputs
  induction inputs with
  | nil =>
    intro s e hst _
    exact ⟨fun _ => hst, fun h => absurd h (by simp)⟩
  | cons x rest ih =>
    intro s e hst he
    obtain ⟨hyes, hno⟩ := resyc_step cst ext x s hst
    have hrun : run cst ext s (x :: rest) = run cst ext (processSample cst ext x s) rest := rfl
    rw [hrun]
    cases e with
    | zero =>
      have hc : blockCompletes s := by
        unfold blockCompletes
        simpa using he
      obtain ⟨p1, p2, p3, p4, p5⟩ := hyes hc
      refine ⟨fun h => absurd h (by simp), fun h => ?_⟩
      have hnil : rest = [] := by
        cases rest with
        | nil => rfl
        | cons y ys => simp at h
      subst hnil
      exact ⟨p1, p2, p3, p4, p5⟩
    | succ e' =>
      have hc : ¬ blockCompletes s := by
        unfold blockCompletes
        intro h
        push_cast at he
        omega
      obtain ⟨p1, p2, p3⟩ := hno hc
      have he' : (processSample cst ext x s).m_fftCounter + ((e' : Int) + 1) =
          ((processSample cst ext x s).m_fftLength : Int) := by
        rw [p2, p3]
        push_cast at he
        omega
      obtain ⟨q1, q2⟩ := ih (processSample cst ext x s) e' p1 he'
      refine ⟨fun h => q1 (by simpa using h), fun h => ?_⟩
      obtain ⟨r1, r2, r3, r4, r5⟩ := q2 (by simpa using h)
      refine ⟨r1, r2, r3, ?_, by rw [r5, p3]⟩
      rw [r4]
      obtain ⟨_, _, _, f4, _⟩ := advanceChirp_frame (processSampleBody cst ext x s)
      unfold processSample
      rw [f4]
      unfold blockCompletes at hc
      simp only [processSampleBody, hst, hc, if_false]

/-- Claim C21 (as amended): the call that confirms a preamble on the bin `b`, with
`b < 2^SF` (`m_fftLength`), leaves the sample counter at `b`, so the machine stays in
PreambleResyc for exactly `m_fftLength - b` processed samples, a full symbol period only
when `b = 0`; then it moves to Preamble with the sample counter at 0 and demodulation
marked active. -/
theorem C21_resync_duration (cst : Consts) (ext : Ext K) (x : StepIn K) (s : Sink K)
    (b : Nat) (inputs : List (StepIn K))
    (hst : s.m_state = LoRaStateDetectPreamble) (hc : blockCompletes s)
    (heq : s.m_argMaxHistoryCounter + 1 = cst.m_requiredPreambleChirps)
    (hb : ∀ i < cst.m_requiredPreambleChirps,
      (s.m_argMaxHistory.set s.m_argMaxHistoryCounter (blockBin cst s x)).getD i 0 = b)
    (hmag : blockMagsq cst s x > threshold)
    (hlt : b < s.m_fftLength) :
    (processSample cst ext x s).m_state = LoRaStatePreambleResyc ∧
      (inputs.length < s.m_fftLength - b →
        (run cst ext (processSample cst ext x s) inputs).m_state = LoRaStatePreambleResyc) ∧
      (inputs.length = s.m_fftLength - b →
        (run cst ext (processSample cst ext x s) inputs).m_state = LoRaStatePreamble ∧
          (run cst ext (processSample cst ext x s) inputs).m_fftCounter = 0 ∧
          (run cst ext (processSample cst ext x s) inputs).m_demodActive = true) := by
  obtain ⟨p1, p2, p3⟩ := confirm_step cst ext x s b hst hc heq hb hmag
  have he : (processSample cst ext x s).m_fftCounter + (((s.m_fftLength - b - 1 : Nat) : Int) + 1)
      = ((processSample cst ext x s).m_fftLength : Int) := by
    rw [p2, p3]
    omega
  obtain ⟨q1, q2⟩ := resyc_run cst ext inputs (processSample cst ext x s)
    (s.m_fftLength - b - 1) p1 he
  refine ⟨p1, fun h => q1 (by omega), fun h => ?_⟩
  obtain ⟨r1, r2, r3, _⟩ := q2 (by omega)
  exact ⟨r1, r2, r3⟩

/-- Instance of claim C21 (as amended) on the sample sink, whose symbol period is 4
samples: the preamble is confirmed on the bin 2 and the state after 2 more samples is
Preamble. -/
theorem C21_resync_duration_witness :
    (run sampleConsts sampleExt
        (processSample sampleConsts sampleExt (stepOf 2 1 0)
          (run sampleConsts sampleExt sampleSink alignedPreamble))
        (List.replicate 2 (stepOf 0 0 0))).m_state = LoRaStatePreamble ∧
      (run sampleConsts sampleExt
        (processSample sampleConsts sampleExt (stepOf 2 1 0)
          (run sampleConsts sampleExt sampleSink alignedPreamble))
        (List.replicate 2 (stepOf 0 0 0))).m_fftCounter = 0 ∧
      (run sampleConsts sampleExt
        (processSample sampleConsts sampleExt (stepOf 2 1 0)
          (run sampleConsts sampleExt sampleSink alignedPreamble))
        (List.replicate 2 (stepOf 0 0 0))).m_demodActive = true :=
  (C21_resync_duration sampleConsts sampleExt (stepOf 2 1 0)
    (run sampleConsts sampleExt sampleSink alignedPreamble) 2 (List.replicate 2 (stepOf 0 0 0))
    (by decide!) (by decide!) (by decide!) (by decide!) (by decide!) (by decide!)).2.2
    (by decide!)

/-- Claim C21 as stated fails: on the sample sink, whose symbol period is 4 samples, the
preamble is confirmed on the bin 2, inside the range of 4 bins; the state is
PreambleResyc with the sample counter at 2, it is still PreambleResyc after one more
sample and it is already Preamble after 2 samples, not after 4. -/
theorem C21_counterexample :
    (run sampleConsts sampleExt sampleSink alignedPreamble).m_state =
        LoRaStateDetectPreamble ∧
      blockBin sampleConsts (run sampleConsts sampleExt sampleSink alignedPreamble)
        (stepOf 2 1 0) = 2 ∧
      (run sampleConsts sampleExt sampleSink alignedPreamble).m_fftLength = 2 ^ 2 ∧
      (run sampleConsts sampleExt sampleSink (alignedPreamble ++ [stepOf 2 1 0])).m_state =
        LoRaStatePreambleResyc ∧
      (run sampleConsts sampleExt sampleSink (alignedPreamble ++ [stepOf 2 1 0])).m_fftCounter
        = 2 ∧
      (run sampleConsts sampleExt sampleSink
        (alignedPreamble ++ [stepOf 2 1 0] ++ List.replicate 1 (stepOf 0 0 0))).m_state =
        LoRaStatePreambleResyc ∧
      (run sampleConsts sampleExt sampleSink
        (alignedPreamble ++ [stepOf 2 1 0] ++ List.replicate 2 (stepOf 0 0 0))).m_state =
        LoRaStatePreamble ∧
      (run sampleConsts sampleExt sampleSink
        (alignedPreamble ++ [stepOf 2 1 0] ++ List.replicate 2 (stepOf 0 0 0))).m_state ≠
        LoRaStatePreambleResyc := by
  decide!

/-- A call in Preamble that does not complete a block only counts the sample. -/
theorem preamble_body_inside (cst : Consts) (ext : Ext K) (x : StepIn K) (s : Sink K)
    (hst : s.m_state = LoRaStatePreamble) (hc : ¬ blockCompletes s) :
    processSampleBody cst ext x s = { s with m_fftCounter := s.m_fftCounter + 1 } := by
  unfold blockCompletes at hc
  simp only [processSampleBody, hst, hc, if_false]

/-- The call in Preamble that completes a block passing the test of line 265 before 3
chirps are counted: the bin is recorded, the chirp is counted and the state becomes
Reset. -/
theorem preamble_body_early (cst : Consts) (ext : Ext K) (x : StepIn K) (s : Sink K)
    (hst : s.m_state = LoRaStatePreamble) (hc : blockCompletes s)
    (hsfd : sfdFound cst s x) (hearly : s.m_chirpCount + 1 < 3) :
    processSampleBody cst ext x s =
      { s with
        m_fftCounter := 0
        m_spectrumBuffer := (argmaxFft cst s x).2.2.getD s.m_spectrumBuffer
        m_preambleHistory := historyAfter cst s x
        m_chirpCount := s.m_chirpCount + 1
        m_state := LoRaStateReset } := by
  unfold blockCompletes at hc
  unfold sfdFound blockMagsq blockMagsqSFD at hsfd
  simp only [processSampleBody, hst, hc, if_true, hsfd, hearly, historyAfter, blockBin]

/-- The call in Preamble that completes a block passing the test of line 265 once 3
chirps are counted: the sync word and the timing correction are computed and the state
becomes SkipSFD. -/
theorem preamble_body_sfd (cst : Consts) (ext : Ext K) (x : StepIn K) (s : Sink K)
    (hst : s.m_state = LoRaStatePreamble) (hc : blockCompletes s)
    (hsfd : sfdFound cst s x) (hvalid : 3 ≤ s.m_chirpCount + 1) :
    processSampleBody cst ext x s =
      { s with
        m_spectrumBuffer := (argmaxFft cst s x).2.2.getD s.m_spectrumBuffer
        m_preambleHistory := historyAfter cst s x
        m_chirpCount := s.m_chirpCount + 1
        m_syncWord := syncWordOf (historyAfter cst s x) (s.m_chirpCount + 1)
        m_sfdSkipCounter := 0
        m_fftCounter := (s.m_fftLength : Int) - (s.m_sfdSkip : Int) +
          zeroAdjust (historyAfter cst s x) s.m_nbSymbols (s.m_chirpCount + 1) s.m_sfdSkip
        m_chirp := s.m_chirp +
          zeroAdjust (historyAfter cst s x) s.m_nbSymbols (s.m_chirpCount + 1) s.m_sfdSkip
        m_state := LoRaStateSkipSFD } := by
  unfold blockCompletes at hc
  unfold sfdFound blockMagsq blockMagsqSFD at hsfd
  have hnot : ¬ s.m_chirpCount + 1 < 3 := by omega
  simp only [processSampleBody, hst, hc, if_true, hsfd, hnot, if_false, historyAfter, blockBin]

/-- The call in Preamble that completes a block failing the test of line 265: the bin
is recorded and the chirp is counted; the state becomes Reset when the count exceeds
`m_maxSFDSearchChirps`, and the magnitude is fed to the moving average otherwise. -/
theorem preamble_body_search (cst : Consts) (ext : Ext K) (x : StepIn K) (s : Sink K)
    (hst : s.m_state = LoRaStatePreamble) (hc : blockCompletes s)
    (hsfd : ¬ sfdFound cst s x) :
    (s.m_chirpCount + 1 > cst.m_maxSFDSearchChirps →
        processSampleBody cst ext x s =
          { s with
            m_fftCounter := 0
            m_spectrumBuffer := (argmaxFft cst s x).2.2.getD s.m_spectrumBuffer
            m_preambleHistory := historyAfter cst s x
            m_chirpCount := s.m_chirpCount + 1
            m_state := LoRaStateReset }) ∧
      (s.m_chirpCount + 1 ≤ cst.m_maxSFDSearchChirps →
        processSampleBody cst ext x s =
          { s with
            m_fftCounter := 0
            m_spectrumBuffer := (argmaxFft cst s x).2.2.getD s.m_spectrumBuffer
            m_preambleHistory := historyAfter cst s x
            m_chirpCount := s.m_chirpCount + 1
            m_magsqOnAvg := s.m_magsqOnAvg ++ [(argmaxFft cst s x).2.1] }) := by
  unfold blockCompletes at hc
  unfold sfdFound blockMagsq blockMagsqSFD at hsfd
  constructor
  · intro hgt
    simp only [processSampleBody, hst, hc, if_true, hsfd, if_false, hgt, historyAfter, blockBin]
  · intro hle
    have hnot : ¬ s.m_chirpCount + 1 > cst.m_maxSFDSearchChirps := by omega
    simp only [processSampleBody, hst, hc, if_true, hsfd, if_false, hnot, historyAfter,
      blockBin]

/-- Claim C22: SFD found too early is a false alarm.  When a call in Preamble completes
a block whose peak dechirped with the up-chirp exceeds its peak dechirped with the
down-chirp and fewer than 3 blocks, this one counted, have been completed since Preamble
was entered (the chirp count, 0 at the entry, counts them), the state becomes Reset; the
sync word is not computed (it keeps its value), no timing correction is applied (the
sample counter is reset to 0 as at the end of any block, the chirp index only receives
the final advance, the skip counter keeps its value) and no record is created (the
record pointer and the queue of the consumer are unchanged). -/
theorem C22_sfd_too_early (cst : Consts) (ext : Ext K) (x : StepIn K) (s : Sink K)
    (hst : s.m_state = LoRaStatePreamble) (hc : blockCompletes s)
    (hsfd : sfdFound cst s x) (hearly : s.m_chirpCount + 1 < 3) :
    (processSample cst ext x s).m_state = LoRaStateReset ∧
      (processSample cst ext x s).m_syncWord = s.m_syncWord ∧
      (processSample cst ext x s).m_fftCounter = 0 ∧
      (processSampleBody cst ext x s).m_chirp = s.m_chirp ∧
      (processSample cst ext x s).m_sfdSkipCounter = s.m_sfdSkipCounter ∧
      (processSample cst ext x s).m_decodeMsg = s.m_decodeMsg ∧
      (processSample cst ext x s).m_decoderMsgQueue = s.m_decoderMsgQueue := by
  obtain ⟨f1, f2, f3, _, _, _, _, f8, _⟩ := advanceChirp_frame (processSampleBody cst ext x s)
  obtain ⟨g1, _, g3, _⟩ := advanceChirp_frame_more (processSampleBody cst ext x s)
  unfold processSample
  rw [f1, f2, f3, f8, g1, g3, preamble_body_early cst ext x s hst hc hsfd hearly]
  exact ⟨rfl, rfl, rfl, rfl, rfl, rfl, rfl⟩

/-- Instance of claim C22 on the sample sink: the first block completed in Preamble has
the peak 2 with the up-chirp and the peak 1 with the down-chirp, and the state becomes
Reset. -/
theorem C22_sfd_too_early_witness :
    (processSample sampleConsts sampleExt (stepOf 0 1 2)
        (run sampleConsts sampleExt sampleSink (toPreamble ++ List.replicate 3 (stepOf 0 1 0)))
      ).m_state = LoRaStateReset ∧
      (processSample sampleConsts sampleExt (stepOf 0 1 2)
        (run sampleConsts sampleExt sampleSink (toPreamble ++ List.replicate 3 (stepOf 0 1 0)))
      ).m_syncWord = 3 ∧
      (processSample sampleConsts sampleExt (stepOf 0 1 2)
        (run sampleConsts sampleExt sampleSink (toPreamble ++ List.replicate 3 (stepOf 0 1 0)))
      ).m_decodeMsg = none := by
  obtain ⟨h1, h2, _, _, _, h6, _⟩ := C22_sfd_too_early sampleConsts sampleExt (stepOf 0 1 2)
    (run sampleConsts sampleExt sampleSink (toPreamble ++ List.replicate 3 (stepOf 0 1 0)))
    (by decide!) (by decide!) (by decide!) (by decide!)
  refine ⟨h1, ?_, ?_⟩
  · rw [h2]
    decide!
  · rw [h6]
    decide!

/-- A run of `processSample` from Preamble in which no block passes the test of line
265, the chirp count being `d` short of `m_maxSFDSearchChirps` and the sample counter
`e + 1` short of `m_fftLength`: the state is Preamble, with a chirp count of at most
`m_maxSFDSearchChirps`, during the first `d * m_fftLength + e` calls, and becomes Reset,
with the chirp count `m_maxSFDSearchChirps + 1`, at the next call. -/
theorem search_run (cst : Consts) (ext : Ext K) :
    ∀ (inputs : List (StepIn K)) (s : Sink K) (d e : Nat),
      s.m_state = LoRaStatePreamble → 0 < s.m_fftLength →
      s.m_chirpCount + d = cst.m_maxSFDSearchChirps →
      s.m_fftCounter + ((e : Int) + 1) = (s.m_fftLength : Int) →
      sfdSeen cst ext s inputs = false →
      (inputs.length ≤ d * s.m_fftLength + e →
          (run cst ext s inputs).m_state = LoRaStatePreamble ∧
            (run cst ext s inputs).m_chirpCount ≤ cst.m_maxSFDSearchChirps) ∧
        (inputs.length = d * s.m_fftLength + e + 1 →
          (run cst ext s inputs).m_state = LoRaStateReset ∧
            (run cst ext s inputs).m_chirpCount = cst.m_maxSFDSearchChirps + 1) := by
  intro inputs
  induction inputs with
  | nil =>
    intro s d e hst _ hd _ _
    exact ⟨fun _ => ⟨hst, by unfold run; simp only [List.foldl_nil]; omega⟩,
      fun h => absurd h (by simp)⟩
  | cons x rest ih =>
    intro s d e hst hL hd he hno
    have hrun : run cst ext s (x :: rest) = run cst ext (processSample cst ext x s) rest := rfl
    rw [hrun]
    obtain ⟨f1, _, _, f4, _, _, f7, f8, _⟩ := advanceChirp_frame (processSampleBody cst ext x s)
    simp only [sfdSeen, Bool.or_eq_false_iff, decide_eq_false_iff_not] at hno
    obtain ⟨hx, hrest⟩ := hno
    cases e with
    | succ e' =>
      have hc : ¬ blockCompletes s := by
        unfold blockCompletes
        intro h
        push_cast at he
        omega
      have hbody := preamble_body_inside cst ext x s hst hc
      have p1 : (processSample cst ext x s).m_state = LoRaStatePreamble := by
        unfold processSample
        rw [f1, hbody]
        exact hst
      have p4 : (processSample cst ext x s).m_chirpCount = s.m_chirpCount := by
        unfold processSample
        rw [f4, hbody]
      have p7 : (processSample cst ext x s).m_fftLength = s.m_fftLength := by
        unfold processSample
        rw [f7, hbody]
      have p8 : (processSample cst ext x s).m_fftCounter = s.m_fftCounter + 1 := by
        unfold processSample
        rw [f8, hbody]
      obtain ⟨q1, q2⟩ := ih (processSample cst ext x s) d e' p1 (by rw [p7]; exact hL)
        (by rw [p4]; exact hd)
        (by rw [p7, p8]; push_cast at he; omega) hrest
      rw [p7] at q1 q2
      exact ⟨fun h => q1 (by simp only [List.length_cons] at h; omega),
        fun h => q2 (by simp only [List.length_cons] at h; omega)⟩
    | zero =>
      have hc : blockCompletes s := by
        unfold blockCompletes
        simpa using he
      have hsfd : ¬ sfdFound cst s x := fun h => hx ⟨hst, hc, h⟩
      obtain ⟨bgt, ble⟩ := preamble_body_search cst ext x s hst hc hsfd
      cases d with
      | zero =>
        have hbody := bgt (by omega)
        have p1 : (processSample cst ext x s).m_state = LoRaStateReset := by
          unfold processSample
          rw [f1, hbody]
        have p4 : (processSample cst ext x s).m_chirpCount = s.m_chirpCount + 1 := by
          unfold processSample
          rw [f4, hbody]
        refine ⟨fun h => absurd h (by simp), fun h => ?_⟩
        have hnil : rest = [] := by
          cases rest with
          | nil => rfl
          | cons y ys => simp at h
        subst hnil
        exact ⟨p1, by rw [show run cst ext (processSample cst ext x s) [] =
          processSample cst ext x s from rfl, p4]; omega⟩
      | succ d' =>
        have hbody := ble (by omega)
        have p1 : (processSample cst ext x s).m_state = LoRaStatePreamble := by
          unfold processSample
          rw [f1, hbody]
          exact hst
        have p4 : (processSample cst ext x s).m_chirpCount = s.m_chirpCount + 1 := by
          unfold processSample
          rw [f4, hbody]
        have p7 : (processSample cst ext x s).m_fftLength = s.m_fftLength := by
          unfold processSample
          rw [f7, hbody]
        have p8 : (processSample cst ext x s).m_fftCounter = 0 := by
          unfold processSample
          rw [f8, hbody]
        obtain ⟨q1, q2⟩ := ih (processSample cst ext x s) d' (s.m_fftLength - 1) p1
          (by rw [p7]; exact hL) (by rw [p4]; omega) (by rw [p7, p8]; omega) hrest
        rw [p7] at q1 q2
        have hmul : (d' + 1) * s.m_fftLength = d' * s.m_fftLength + s.m_fftLength :=
          Nat.succ_mul d' s.m_fftLength
        exact ⟨fun h => q1 (by simp only [List.length_cons] at h; omega),
          fun h => q2 (by simp only [List.length_cons] at h; omega)⟩

/-- Claim C23: the SFD search is bounded.  From the entry into Preamble (chirp count 0,
sample counter 0), along a run in which no completed block has its peak dechirped with
the up-chirp above its peak dechirped with the down-chirp, the state is Preamble until
the completion of the block number `m_maxSFDSearchChirps + 1`, that is during
`(m_maxSFDSearchChirps + 1) * m_fftLength - 1` calls, and becomes Reset at the next
call, which completes that block.  The chirp count is at most `m_maxSFDSearchChirps`
before that call and `m_maxSFDSearchChirps + 1` after it, and the index written in the
preamble history by any call of the run is at most `m_maxSFDSearchChirps`. -/
theorem C23_sfd_search_bounded (cst : Consts) (ext : Ext K) (s : Sink K)
    (inputs : List (StepIn K))
    (hst : s.m_state = LoRaStatePreamble) (hcount : s.m_chirpCount = 0)
    (hcounter : s.m_fftCounter = 0) (hlen : 0 < s.m_fftLength)
    (hno : sfdSeen cst ext s inputs = false) :
    (inputs.length < (cst.m_maxSFDSearchChirps + 1) * s.m_fftLength →
        (run cst ext s inputs).m_state = LoRaStatePreamble ∧
          (run cst ext s inputs).m_chirpCount ≤ cst.m_maxSFDSearchChirps ∧
          ∀ i, historyIndexWritten (run cst ext s inputs) = some i →
            i ≤ cst.m_maxSFDSearchChirps) ∧
      (inputs.length = (cst.m_maxSFDSearchChirps + 1) * s.m_fftLength →
        (run cst ext s inputs).m_state = LoRaStateReset ∧
          (run cst ext s inputs).m_chirpCount = cst.m_maxSFDSearchChirps + 1 ∧
          historyIndexWritten (run cst ext s inputs) = none) := by
  obtain ⟨q1, q2⟩ := search_run cst ext inputs s cst.m_maxSFDSearchChirps
    (s.m_fftLength - 1) hst hlen (by omega) (by rw [hcounter]; omega) hno
  have hmul : (cst.m_maxSFDSearchChirps + 1) * s.m_fftLength =
      cst.m_maxSFDSearchChirps * s.m_fftLength + s.m_fftLength :=
    Nat.succ_mul _ _
  constructor
  · intro h
    obtain ⟨r1, r2⟩ := q1 (by omega)
    refine ⟨r1, r2, ?_⟩
    intro i hi
    unfold historyIndexWritten at hi
    split at hi
    · cases hi
      exact r2
    · cases hi
  · intro h
    obtain ⟨r1, r2⟩ := q2 (by omega)
    refine ⟨r1, r2, ?_⟩
    unfold historyIndexWritten
    rw [r1]
    simp

/-- Instance of claim C23 on the sample sink, which searches the SFD over 8 chirps of 4
samples: after the entry into Preamble, 36 samples whose blocks have the peak 1 with the
down-chirp and 0 with the up-chirp bring the state to Reset with a chirp count of 9. -/
theorem C23_sfd_search_bounded_witness :
    (run sampleConsts sampleExt (run sampleConsts sampleExt sampleSink toPreamble)
        (List.replicate 36 (stepOf 0 1 0))).m_state = LoRaStateReset ∧
      (run sampleConsts sampleExt (run sampleConsts sampleExt sampleSink toPreamble)
        (List.replicate 36 (stepOf 0 1 0))).m_chirpCount = sampleConsts.m_maxSFDSearchChirps + 1 ∧
      historyIndexWritten
        (run sampleConsts sampleExt (run sampleConsts sampleExt sampleSink toPreamble)
          (List.replicate 36 (stepOf 0 1 0))) = none :=
  (C23_sfd_search_bounded sampleConsts sampleExt
    (run sampleConsts sampleExt sampleSink toPreamble) (List.replicate 36 (stepOf 0 1 0))
    (by decide!) (by decide!) (by decide!) (by decide!) (by decide!)).2 (by decide!)

/-- The sum computed by a loop over `0 .. n-1` is the sum over that range. -/
theorem sum_map_range (n : Nat) (f : Nat → Int) :
    ((List.range n).map f).sum = Finset.sum (Finset.range n) f := by
  induction n with
  | zero => simp
  | succ k ih =>
    rw [List.range_succ, List.map_append, List.sum_append, ih, Finset.sum_range_succ]
    simp

/-- The timing correction of lines 277-289 is the truncated mean of the signed
deviations, clamped to plus or minus `sfdSkip / 2`. -/
theorem zeroAdjust_eq_clamp (history : List Nat) (nbSymbols count sfdSkip : Nat) :
    zeroAdjust history nbSymbols count sfdSkip =
      max (-((sfdSkip / 2 : Nat) : Int))
        (min ((sfdSkip / 2 : Nat) : Int) (meanDeviation history nbSymbols count)) := by
  have hsum : sumDeviations history nbSymbols count =
      Finset.sum (Finset.range (count - 3))
        (fun i => signedDeviation nbSymbols (history.getD i 0)) := by
    unfold sumDeviations
    rw [sum_map_range]
    rfl
  have hz : (if ((count - 3 : Nat) : Int) = 0 then (0 : Int)
      else (sumDeviations history nbSymbols count).tdiv ((count - 3 : Nat) : Int)) =
      meanDeviation history nbSymbols count := by
    unfold meanDeviation
    rw [← hsum]
    split
    · rename_i h0
      rw [h0, Int.tdiv_zero]
    · rfl
  unfold zeroAdjust
  simp only [hz]
  generalize meanDeviation history nbSymbols count = z
  have hh : (0 : Int) ≤ ((sfdSkip / 2 : Nat) : Int) := Int.ofNat_nonneg _
  generalize ((sfdSkip / 2 : Nat) : Int) = h at hh ⊢
  simp only [max_def, min_def]
  split_ifs <;> omega

/-- One call of `processSample` in SkipSFD.  The sync word, the zero reference of the
chirp index and the sizes are kept.  A call that does not complete a period counts the
sample; a call that completes a period rewinds the counter by `m_sfdSkip` and counts the
period, and when the count reaches `m_sfdFourths` it creates the record, resets the
peak, the chirp count and the sample counter, assigns the zero reference to the chirp
index and moves to ReadPayload. -/
theorem skip_step (cst : Consts) (ext : Ext K) (x : StepIn K) (s : Sink K)
    (hst : s.m_state = LoRaStateSkipSFD) :
    ((processSample cst ext x s).m_syncWord = s.m_syncWord ∧
        (processSample cst ext x s).m_chirp0 = s.m_chirp0 ∧
        (processSample cst ext x s).m_nbSymbols = s.m_nbSymbols ∧
        (processSample cst ext x s).m_sfdSkip = s.m_sfdSkip ∧
        (processSample cst ext x s).m_fftLength = s.m_fftLength) ∧
      (¬ blockCompletes s →
        (processSample cst ext x s).m_state = LoRaStateSkipSFD ∧
          (processSample cst ext x s).m_fftCounter = s.m_fftCounter + 1 ∧
          (processSample cst ext x s).m_sfdSkipCounter = s.m_sfdSkipCounter) ∧
      (blockCompletes s → s.m_sfdSkipCounter + 1 ≠ cst.m_sfdFourths →
        (processSample cst ext x s).m_state = LoRaStateSkipSFD ∧
          (processSample cst ext x s).m_fftCounter =
            (s.m_fftLength : Int) - (s.m_sfdSkip : Int) ∧
          (processSample cst ext x s).m_sfdSkipCounter = s.m_sfdSkipCounter + 1) ∧
      (blockCompletes s → s.m_sfdSkipCounter + 1 = cst.m_sfdFourths →
        (processSample cst ext x s).m_state = LoRaStateReadPayload ∧
          (processSample cst ext x s).m_decodeMsg =
            some { (MsgDecodeSymbols.create : MsgDecodeSymbols K) with
              m_syncWord := s.m_syncWord } ∧
          (processSample cst ext x s).m_magsqMax = 0 ∧
          (processSample cst ext x s).m_chirpCount = 0 ∧
          (processSample cst ext x s).m_fftCounter = 0 ∧
          (processSampleBody cst ext x s).m_chirp = s.m_chirp0 ∧
          (processSample cst ext x s).m_chirp =
            (if s.m_chirp0 + 1 ≥ s.m_chirp0 + (s.m_nbSymbols : Int) then s.m_chirp0
              else s.m_chirp0 + 1)) := by
  obtain ⟨f1, f2, _, f4, _, _, f7, f8, f9, f10, _⟩ :=
    advanceChirp_frame (processSampleBody cst ext x s)
  obtain ⟨g1, _, g3, g4, g5, _⟩ := advanceChirp_frame_more (processSampleBody cst ext x s)
  unfold processSample
  rw [f1, f2, f4, f7, f8, f9, f10, g1, g3, g4, g5, advanceChirp_chirp]
  unfold blockCompletes
  refine ⟨?_, ?_, ?_, ?_⟩
  · simp only [processSampleBody, hst]
    split
    · split <;> simp [startPayload]
    · simp
  · intro hc
    simp only [processSampleBody, hst, hc, if_false, and_self]
  · intro hc hne
    simp only [processSampleBody, hst, hc, if_true, hne, if_false, and_self]
  · intro hc heq
    simp only [processSampleBody, hst, hc, if_true, heq, startPayload, and_self]

/-- A run of `processSample` from SkipSFD with a skip of at least one sample, the period
count being `d + 1` short of `m_sfdFourths` and the sample counter `e + 1` short of
`m_fftLength`: the state is SkipSFD during the first `d * m_sfdSkip + e` calls, and the
next call moves to ReadPayload. -/
theorem skip_run (cst : Consts) (ext : Ext K) :
    ∀ (inputs : List (StepIn K)) (t : Sink K) (d e : Nat),
      t.m_state = LoRaStateSkipSFD → 1 ≤ t.m_sfdSkip →
      t.m_sfdSkipCounter + (d + 1) = cst.m_sfdFourths →
      t.m_fftCounter + ((e : Int) + 1) = (t.m_fftLength : Int) →
      (inputs.length ≤ d * t.m_sfdSkip + e →
          (run cst ext t inputs).m_state = LoRaStateSkipSFD) ∧
        (inputs.length = d * t.m_sfdSkip + e + 1 →
          (run cst ext t inputs).m_state = LoRaStateReadPayload ∧
            (run cst ext t inputs).m_decodeMsg =
              some { (MsgDecodeSymbols.create : MsgDecodeSymbols K) with
                m_syncWord := t.m_syncWord } ∧
            (run cst ext t inputs).m_magsqMax = 0 ∧
            (run cst ext t inputs).m_chirpCount = 0 ∧
            (run cst ext t inputs).m_fftCounter = 0 ∧
            (run cst ext t inputs).m_chirp =
              (if t.m_chirp0 + 1 ≥ t.m_chirp0 + (t.m_nbSymbols : Int) then t.m_chirp0
                else t.m_chirp0 + 1) ∧
            ∃ (pre : List (StepIn K)) (y : StepIn K), inputs = pre ++ [y] ∧
              (run cst ext t pre).m_state = LoRaStateSkipSFD ∧
              (processSampleBody cst ext y (run cst ext t pre)).m_chirp = t.m_chirp0) := by
  intro inputs
  induction inputs with
  | nil =>
    intro t d e hst _ _ _
    exact ⟨fun _ => hst, fun h => absurd h (by simp)⟩
  | cons x rest ih =>
    intro t d e hst hk hd he
    have hrun : ∀ l, run cst ext t (x :: l) = run cst ext (processSample cst ext x t) l :=
      fun _ => rfl
    rw [hrun]
    obtain ⟨⟨a1, a2, a3, a4, a5⟩, hin, hper, hend⟩ := skip_step cst ext x t hst
    have hlift : ∀ n : Nat, rest.length = n →
        ((run cst ext (processSample cst ext x t) rest).m_state = LoRaStateReadPayload ∧
          (run cst ext (processSample cst ext x t) rest).m_decodeMsg =
            some { (MsgDecodeSymbols.create : MsgDecodeSymbols K) with
              m_syncWord := (processSample cst ext x t).m_syncWord } ∧
          (run cst ext (processSample cst ext x t) rest).m_magsqMax = 0 ∧
          (run cst ext (processSample cst ext x t) rest).m_chirpCount = 0 ∧
          (run cst ext (processSample cst ext x t) rest).m_fftCounter = 0 ∧
          (run cst ext (processSample cst ext x t) rest).m_chirp =
            (if (processSample cst ext x t).m_chirp0 + 1 ≥
                (processSample cst ext x t).m_chirp0 +
                  ((processSample cst ext x t).m_nbSymbols : Int)
              then (processSample cst ext x t).m_chirp0
              else (processSample cst ext x t).m_chirp0 + 1) ∧
          ∃ (pre : List (StepIn K)) (y : StepIn K), rest = pre ++ [y] ∧
            (run cst ext (processSample cst ext x t) pre).m_state = LoRaStateSkipSFD ∧
            (processSampleBody cst ext y
              (run cst ext (processSample cst ext x t) pre)).m_chirp =
              (processSample cst ext x t).m_chirp0) →
        ((run cst ext (processSample cst ext x t) rest).m_state = LoRaStateReadPayload ∧
          (run cst ext (processSample cst ext x t) rest).m_decodeMsg =
            some { (MsgDecodeSymbols.create : MsgDecodeSymbols K) with
              m_syncWord := t.m_syncWord } ∧
          (run cst ext (processSample cst ext x t) rest).m_magsqMax = 0 ∧
          (run cst ext (processSample cst ext x t) rest).m_chirpCount = 0 ∧
          (run cst ext (processSample cst ext x t) rest).m_fftCounter = 0 ∧
          (run cst ext (processSample cst ext x t) rest).m_chirp =
            (if t.m_chirp0 + 1 ≥ t.m_chirp0 + (t.m_nbSymbols : Int) then t.m_chirp0
              else t.m_chirp0 + 1) ∧
          ∃ (pre : List (StepIn K)) (y : StepIn K), x :: rest = pre ++ [y] ∧
            (run cst ext t pre).m_state = LoRaStateSkipSFD ∧
            (processSampleBody cst ext y (run cst ext t pre)).m_chirp = t.m_chirp0) := by
      intro n _ h
      rw [a1, a2, a3] at h
      obtain ⟨r1, r2, r3, r4, r5, r6, pre, y, hpre, hs, hb⟩ := h
      exact ⟨r1, r2, r3, r4, r5, r6, x :: pre, y, by rw [hpre]; rfl, by rw [hrun]; exact hs,
        by rw [hrun]; exact hb⟩
    cases e with
    | succ e' =>
      have hc : ¬ blockCompletes t := by
        unfold blockCompletes
        intro h
        push_cast at he
        omega
      obtain ⟨p1, p2, p3⟩ := hin hc
      obtain ⟨q1, q2⟩ := ih (processSample cst ext x t) d e' p1 (by rw [a4]; exact hk)
        (by rw [p3]; exact hd) (by rw [a5, p2]; push_cast at he; omega)
      rw [a4] at q1 q2
      exact ⟨fun h => q1 (by simp only [List.length_cons] at h; omega),
        fun h => hlift _ rfl (q2 (by simp only [List.length_cons] at h; omega))⟩
    | zero =>
      have hc : blockCompletes t := by
        unfold blockCompletes
        simpa using he
      cases d with
      | zero =>
        obtain ⟨p1, p2, p3, p4, p5, p6, p7⟩ := hend hc (by omega)
        refine ⟨fun h => absurd h (by simp), fun h => ?_⟩
        have hnil : rest = [] := by
          cases rest with
          | nil => rfl
          | cons y ys => simp at h
        subst hnil
        exact ⟨p1, p2, p3, p4, p5, p7, [], x, rfl, hst, p6⟩
      | succ d' =>
        obtain ⟨p1, p2, p3⟩ := hper hc (by omega)
        obtain ⟨q1, q2⟩ := ih (processSample cst ext x t) d' (t.m_sfdSkip - 1) p1
          (by rw [a4]; exact hk) (by rw [p3]; omega)
          (by rw [a5, p2]; omega)
        rw [a4] at q1 q2
        have hmul : (d' + 1) * t.m_sfdSkip = d' * t.m_sfdSkip + t.m_sfdSkip :=
          Nat.succ_mul d' t.m_sfdSkip
        exact ⟨fun h => q1 (by simp only [List.length_cons] at h; omega),
          fun h => hlift _ rfl (q2 (by simp only [List.length_cons] at h; omega))⟩

/-- Claim C26: for `SF >= 2` and `m_sfdFourths >= 1`, after a valid SFD detection with
the timing correction `zadj`, the machine stays in SkipSFD for exactly
`m_sfdFourths * (2^SF/4) - zadj` processed samples, a positive number.  The last of
them creates a record tagged with the sync word captured at the detection, resets the
peak magnitude, the chirp count and the sample counter to 0, assigns the zero reference
`m_chirp0` to the chirp phase index (the advance by one that ends the call then applies
to it) and moves to ReadPayload.  As the number of samples is finite for every `zadj`
the code can compute, ReadPayload is always reached. -/
theorem C26_skip_sfd_duration (cst : Consts) (ext : Ext K) (x : StepIn K) (s : Sink K)
    (sf : Nat) (inputs : List (StepIn K))
    (hst : s.m_state = LoRaStatePreamble) (hc : blockCompletes s)
    (hsfd : sfdFound cst s x) (hvalid : 3 ≤ s.m_chirpCount + 1)
    (hlen : s.m_fftLength = 2 ^ sf) (hskip : s.m_sfdSkip = 2 ^ sf / 4)
    (hsf : 2 ≤ sf) (hfourths : 1 ≤ cst.m_sfdFourths) :
    (processSample cst ext x s).m_state = LoRaStateSkipSFD ∧
      (0 : Int) < (cst.m_sfdFourths : Int) * ((2 ^ sf / 4 : Nat) : Int) -
        zeroAdjust (historyAfter cst s x) s.m_nbSymbols (s.m_chirpCount + 1) s.m_sfdSkip ∧
      ((inputs.length : Int) < (cst.m_sfdFourths : Int) * ((2 ^ sf / 4 : Nat) : Int) -
          zeroAdjust (historyAfter cst s x) s.m_nbSymbols (s.m_chirpCount + 1) s.m_sfdSkip →
        (run cst ext (processSample cst ext x s) inputs).m_state = LoRaStateSkipSFD) ∧
      ((inputs.length : Int) = (cst.m_sfdFourths : Int) * ((2 ^ sf / 4 : Nat) : Int) -
          zeroAdjust (historyAfter cst s x) s.m_nbSymbols (s.m_chirpCount + 1) s.m_sfdSkip →
        (run cst ext (processSample cst ext x s) inputs).m_state = LoRaStateReadPayload ∧
          (run cst ext (processSample cst ext x s) inputs).m_decodeMsg =
            some { (MsgDecodeSymbols.create : MsgDecodeSymbols K) with
              m_syncWord := syncWordOf (historyAfter cst s x) (s.m_chirpCount + 1) } ∧
          (run cst ext (processSample cst ext x s) inputs).m_magsqMax = 0 ∧
          (run cst ext (processSample cst ext x s) inputs).m_chirpCount = 0 ∧
          (run cst ext (processSample cst ext x s) inputs).m_fftCounter = 0 ∧
          (run cst ext (processSample cst ext x s) inputs).m_chirp =
            (if s.m_chirp0 + 1 ≥ s.m_chirp0 + (s.m_nbSymbols : Int) then s.m_chirp0
              else s.m_chirp0 + 1) ∧
          ∃ (pre : List (StepIn K)) (y : StepIn K), inputs = pre ++ [y] ∧
            (run cst ext (processSample cst ext x s) pre).m_state = LoRaStateSkipSFD ∧
            (processSampleBody cst ext y
              (run cst ext (processSample cst ext x s) pre)).m_chirp = s.m_chirp0) := by
  obtain ⟨f1, _, _, _, _, _, f7, f8, _, f10, _⟩ :=
    advanceChirp_frame (processSampleBody cst ext x s)
  obtain ⟨g1, _, g3, g4, g5, _⟩ := advanceChirp_frame_more (processSampleBody cst ext x s)
  have hbody := preamble_body_sfd cst ext x s hst hc hsfd hvalid
  have t1 : (processSample cst ext x s).m_state = LoRaStateSkipSFD := by
    unfold processSample; rw [f1, hbody]
  have t7 : (processSample cst ext x s).m_fftLength = s.m_fftLength := by
    unfold processSample; rw [f7, hbody]
  have t8 : (processSample cst ext x s).m_fftCounter = (s.m_fftLength : Int) - (s.m_sfdSkip : Int)
      + zeroAdjust (historyAfter cst s x) s.m_nbSymbols (s.m_chirpCount + 1) s.m_sfdSkip := by
    unfold processSample; rw [f8, hbody]
  have t10 : (processSample cst ext x s).m_chirp0 = s.m_chirp0 := by
    unfold processSample; rw [f10, hbody]
  have u1 : (processSample cst ext x s).m_syncWord =
      syncWordOf (historyAfter cst s x) (s.m_chirpCount + 1) := by
    unfold processSample; rw [g1, hbody]
  have u3 : (processSample cst ext x s).m_sfdSkipCounter = 0 := by
    unfold processSample; rw [g3, hbody]
  have u4 : (processSample cst ext x s).m_sfdSkip = s.m_sfdSkip := by
    unfold processSample; rw [g4, hbody]
  have u5 : (processSample cst ext x s).m_nbSymbols = s.m_nbSymbols := by
    unfold processSample; rw [g5, hbody]
  have hpow : 4 ≤ 2 ^ sf := by
    calc 4 = 2 ^ 2 := by norm_num
      _ ≤ 2 ^ sf := Nat.pow_le_pow_right (by norm_num) hsf
  have hk : 1 ≤ s.m_sfdSkip := by
    rw [hskip]
    omega
  have hclamp := zeroAdjust_eq_clamp (historyAfter cst s x) s.m_nbSymbols (s.m_chirpCount + 1)
    s.m_sfdSkip
  have hz : zeroAdjust (historyAfter cst s x) s.m_nbSymbols (s.m_chirpCount + 1) s.m_sfdSkip
      ≤ ((s.m_sfdSkip / 2 : Nat) : Int) := by
    rw [hclamp]
    exact max_le (by omega) (min_le_left _ _)
  rw [← hskip]
  generalize zeroAdjust (historyAfter cst s x) s.m_nbSymbols (s.m_chirpCount + 1) s.m_sfdSkip
    = z at t8 hz ⊢
  obtain ⟨d, hd⟩ : ∃ d, cst.m_sfdFourths = d + 1 := ⟨cst.m_sfdFourths - 1, by omega⟩
  have hmul : ((cst.m_sfdFourths : Nat) : Int) * (s.m_sfdSkip : Int) =
      ((d * s.m_sfdSkip : Nat) : Int) + (s.m_sfdSkip : Int) := by
    rw [hd]
    push_cast
    ring
  have he : (processSample cst ext x s).m_fftCounter +
      ((((s.m_sfdSkip : Int) - z - 1).toNat : Int) + 1) =
        ((processSample cst ext x s).m_fftLength : Int) := by
    rw [t7, t8]
    omega
  obtain ⟨q1, q2⟩ := skip_run cst ext inputs (processSample cst ext x s) d
    ((s.m_sfdSkip : Int) - z - 1).toNat t1 (by rw [u4]; exact hk) (by rw [u3]; omega) he
  rw [u4] at q1 q2
  rw [u1, t10, u5] at q2
  refine ⟨t1, by rw [hmul]; omega, fun h => q1 ?_, fun h => q2 ?_⟩
  · rw [hmul] at h
    omega
  · rw [hmul] at h
    omega

/-- Instance of claim C26 on the sample sink of spreading factor 3, whose SFD lasts 5
fourths of 2 samples: after the detection with the correction -1, the state after 11
more samples is ReadPayload and the record carries the sync word 17. -/
theorem C26_skip_sfd_duration_witness :
    (run sampleConsts sampleExt
        (processSample sampleConsts sampleExt (stepOf8 0 1 2)
          (run sampleConsts sampleExt sampleSink8 toSFD8))
        (List.replicate 11 (stepOf8 0 0 0))).m_state = LoRaStateReadPayload ∧
      (run sampleConsts sampleExt
        (processSample sampleConsts sampleExt (stepOf8 0 1 2)
          (run sampleConsts sampleExt sampleSink8 toSFD8))
        (List.replicate 11 (stepOf8 0 0 0))).m_decodeMsg =
        some { (MsgDecodeSymbols.create : MsgDecodeSymbols ℚ) with m_syncWord := 17 } ∧
      (run sampleConsts sampleExt
        (processSample sampleConsts sampleExt (stepOf8 0 1 2)
          (run sampleConsts sampleExt sampleSink8 toSFD8))
        (List.replicate 11 (stepOf8 0 0 0))).m_fftCounter = 0 := by
  obtain ⟨h1, h2, _, _, h5, _⟩ := (C26_skip_sfd_duration sampleConsts sampleExt (stepOf8 0 1 2)
    (run sampleConsts sampleExt sampleSink8 toSFD8) 3 (List.replicate 11 (stepOf8 0 0 0))
    (by decide!) (by decide!) (by decide!) (by decide!) (by decide!) (by decide!)
    (by decide!) (by decide!)).2.2.2 (by decide!)
  refine ⟨h1, ?_, h5⟩
  rw [h2]
  decide!

/-- Further members that `handOff` leaves unchanged. -/
theorem handOff_frame_more (ext : Ext K) (s : Sink K) :
    (handOff ext s).m_magsqQueue = s.m_magsqQueue ∧
      (handOff ext s).m_chirp = s.m_chirp ∧
      (handOff ext s).m_chirp0 = s.m_chirp0 ∧
      (handOff ext s).m_fftCounter = s.m_fftCounter ∧
      (handOff ext s).m_nbSymbols = s.m_nbSymbols := by
  unfold handOff
  cases s.m_decodeMsg with
  | none => simp
  | some m =>
    simp only
    cases s.m_decoderMsgQueue with
    | none => simp
    | some q => cases s.m_settings.m_decodeActive <;> simp

/-- One call of `processSample` leaves at most `m_requiredPreambleChirps + 2` entries in
the magnitude queue when it finds at most that many. -/
theorem magsqQueue_step (cst : Consts) (ext : Ext K) (x : StepIn K) (s : Sink K)
    (h : s.m_magsqQueue.length ≤ cst.m_requiredPreambleChirps + 2) :
    (processSample cst ext x s).m_magsqQueue.length ≤ cst.m_requiredPreambleChirps + 2 := by
  obtain ⟨_, _, _, _, _, g6⟩ := advanceChirp_frame_more (processSampleBody cst ext x s)
  unfold processSample
  rw [g6]
  unfold processSampleBody
  cases hs : s.m_state with
  | LoRaStateReset => simpa [reset] using h
  | LoRaStateOther => simpa using h
  | LoRaStatePreambleResyc =>
    simp only
    split <;> simpa using h
  | LoRaStatePreamble =>
    simp only
    split
    · split
      · split <;> simpa using h
      · split <;> simpa using h
    · simpa using h
  | LoRaStateSkipSFD =>
    simp only
    split
    · split <;> simpa [startPayload] using h
    · simpa using h
  | LoRaStateSlideSFD =>
    simp only
    split
    · split <;> simpa [startPayload] using h
    · simpa using h
  | LoRaStateReadPayload =>
    simp only
    split_ifs <;>
      first
        | (rw [(handOff_frame_more ext _).1]; simpa using h)
        | simpa using h
  | LoRaStateDetectPreamble =>
    simp only
    have hq : ((if s.m_magsqQueue.length > cst.m_requiredPreambleChirps + 1 then
        s.m_magsqQueue.tail else s.m_magsqQueue) ++ [(argmaxFft cst s x).2.1]).length ≤
        cst.m_requiredPreambleChirps + 2 := by
      rw [List.length_append, List.length_singleton]
      split
      · rw [List.length_tail]
        omega
      · omega
    split
    · split
      · split
        · simpa using hq
        · simpa using hq
      · simpa using hq
    · simpa using h

/-- Claim C27 (as amended): the magnitude queue filled in DetectPreamble holds at most
`m_requiredPreambleChirps + 2` entries after every call of `processSample`, in every
state reached from the sink just constructed: an entry is removed before the push only
when the queue already holds more than `m_requiredPreambleChirps + 1` of them. -/
theorem C27_magsq_queue_depth (cst : Consts) (ext : Ext K) (junk : Sink K)
    (inputs : List (StepIn K)) :
    (run cst ext (construct cst ext junk) inputs).m_magsqQueue.length ≤
      cst.m_requiredPreambleChirps + 2 := by
  have hgen : ∀ (l : List (StepIn K)) (s : Sink K),
      s.m_magsqQueue.length ≤ cst.m_requiredPreambleChirps + 2 →
      (run cst ext s l).m_magsqQueue.length ≤ cst.m_requiredPreambleChirps + 2 := by
    intro l
    induction l with
    | nil =>
      intro s h
      exact h
    | cons x rest ih =>
      intro s h
      exact ih _ (magsqQueue_step cst ext x s h)
  apply hgen
  simp [construct, initSF]

/-- Claim C27 as stated fails: on the sample sink, which requires 4 chirps, after the
call for Reset and 6 blocks of noise the state is DetectPreamble and the magnitude queue
holds 6 entries, more than `m_requiredPreambleChirps + 1 = 5`. -/
theorem C27_counterexample :
    (run sampleConsts sampleExt sampleSink
        (List.replicate 25 (stepOf 1 (1 / 100000) 0))).m_state = LoRaStateDetectPreamble ∧
      (run sampleConsts sampleExt sampleSink
        (List.replicate 25 (stepOf 1 (1 / 100000) 0))).m_magsqQueue.length = 6 ∧
      ¬ (run sampleConsts sampleExt sampleSink
        (List.replicate 25 (stepOf 1 (1 / 100000) 0))).m_magsqQueue.length ≤
          sampleConsts.m_requiredPreambleChirps + 1 := by
  decide!

theorem handOff_state (ext : Ext K) (s : Sink K) : (handOff ext s).m_state = s.m_state :=
  (handOff_frame ext s).1

theorem handOff_fftLength (ext : Ext K) (s : Sink K) :
    (handOff ext s).m_fftLength = s.m_fftLength :=
  (handOff_frame ext s).2.2.2.2.1

theorem handOff_chirp (ext : Ext K) (s : Sink K) : (handOff ext s).m_chirp = s.m_chirp :=
  (handOff_frame_more ext s).2.1

theorem handOff_chirp0 (ext : Ext K) (s : Sink K) : (handOff ext s).m_chirp0 = s.m_chirp0 :=
  (handOff_frame_more ext s).2.2.1

theorem handOff_fftCounter (ext : Ext K) (s : Sink K) :
    (handOff ext s).m_fftCounter = s.m_fftCounter :=
  (handOff_frame_more ext s).2.2.2.1

theorem handOff_nbSymbols (ext : Ext K) (s : Sink K) :
    (handOff ext s).m_nbSymbols = s.m_nbSymbols :=
  (handOff_frame_more ext s).2.2.2.2

/-- One call of `processSample` keeps the invariant of the indices. -/
theorem indexInv_step (cst : Consts) (ext : Ext K) (x : StepIn K) (s : Sink K) (n : Nat)
    (hn : 0 < n) (h : IndexInv n s) : IndexInv n (processSample cst ext x s) := by
  obtain ⟨h1, h2, h3, h4, h5, h6, h7⟩ := h
  have hbody : (processSampleBody cst ext x s).m_nbSymbols = n ∧
      (processSampleBody cst ext x s).m_fftLength = n ∧
      (processSampleBody cst ext x s).m_chirp0 = 0 ∧
      (processSampleBody cst ext x s).m_state ≠ LoRaStateSlideSFD ∧
      (processSampleBody cst ext x s).m_state ≠ LoRaStateOther ∧
      ((processSampleBody cst ext x s).m_state ≠ LoRaStateSkipSFD →
        0 ≤ (processSampleBody cst ext x s).m_chirp) ∧
      ((processSampleBody cst ext x s).m_state = LoRaStateDetectPreamble ∨
          (processSampleBody cst ext x s).m_state = LoRaStatePreamble ∨
          (processSampleBody cst ext x s).m_state = LoRaStateReadPayload →
        0 ≤ (processSampleBody cst ext x s).m_fftCounter ∧
          (processSampleBody cst ext x s).m_fftCounter < (n : Int)) := by
    have hn' : (0 : Int) < (n : Int) := by exact_mod_cast hn
    unfold processSampleBody
    cases hs : s.m_state with
    | LoRaStateSlideSFD => exact absurd hs h4
    | LoRaStateOther => exact absurd hs h5
    | LoRaStateReset => simp [reset, h1, h2, hn']
    | LoRaStatePreambleResyc =>
      have c6 := h6 (by rw [hs]; decide)
      simp only
      split_ifs <;> simp [h1, h2, h3, c6.1, hn']
    | LoRaStateSkipSFD =>
      simp only
      split_ifs <;> simp [startPayload, h1, h2, h3, hn']
    | LoRaStateDetectPreamble =>
      have c6 := h6 (by rw [hs]; decide)
      have c7 := h7 (Or.inl hs)
      simp only
      split_ifs <;> (simp [h1, h2, h3, c6.1, hn']; try omega)
    | LoRaStatePreamble =>
      have c6 := h6 (by rw [hs]; decide)
      have c7 := h7 (Or.inr (Or.inl hs))
      simp only
      split_ifs <;> (simp [h1, h2, h3, c6.1, hn']; try omega)
    | LoRaStateReadPayload =>
      have c6 := h6 (by rw [hs]; decide)
      have c7 := h7 (Or.inr (Or.inr hs))
      simp only
      split_ifs <;>
        (simp [handOff_state, handOff_fftLength, handOff_chirp, handOff_chirp0,
          handOff_fftCounter, handOff_nbSymbols, h1, h2, h3, c6.1, hn']; try omega)
  obtain ⟨b1, b2, b3, b4, b5, b6, b7⟩ := hbody
  obtain ⟨f1, _, _, _, _, _, f7, f8, _, f10, _⟩ :=
    advanceChirp_frame (processSampleBody cst ext x s)
  obtain ⟨_, _, _, _, g5, _⟩ := advanceChirp_frame_more (processSampleBody cst ext x s)
  unfold IndexInv processSample
  rw [f1, f7, f8, f10, g5, advanceChirp_chirp, b1, b3]
  refine ⟨rfl, b2, rfl, b4, b5, fun hne => ?_, b7⟩
  have := b6 hne
  split <;> omega

/-- The invariant of the indices holds all along a run. -/
theorem indexInv_run (cst : Consts) (ext : Ext K) (n : Nat) (hn : 0 < n)
    (inputs : List (StepIn K)) :
    ∀ s : Sink K, IndexInv n s → IndexInv n (run cst ext s inputs) := by
  induction inputs with
  | nil =>
    intro s h
    exact h
  | cons x rest ih =>
    intro s h
    exact ih _ (indexInv_step cst ext x s n hn h)

/-- The sink just constructed satisfies the invariant of the indices for the symbol
period `2^SF` of its settings. -/
theorem indexInv_construct (cst : Consts) (ext : Ext K) (junk : Sink K) :
    IndexInv (2 ^ junk.m_settings.m_spreadFactor) (construct cst ext junk) := by
  simp [IndexInv, construct, initSF, Nat.one_shiftLeft]

/-- Claim C28: table and buffer indices stay in range.  For every spreading factor SF
(in particular for `SF >= 2`) and every sample sequence fed to the sink from its
construction, the call of `processSample` that comes next reads the chirp tables, if it
reads them, at an index `m_chirp` with `0 <= m_chirp < 2^SF`, inside the tables of
`2 * 2^SF` entries, and stores the sample, if it stores it, at an index `m_fftCounter`
with `0 <= m_fftCounter < 2^SF`.  The timing correction applied at the SFD detection,
which can make the chirp index negative, is followed only by calls in SkipSFD, which
read no table, until the index is set again at the entry into ReadPayload. -/
theorem C28_indices_in_range (cst : Consts) (ext : Ext K) (junk : Sink K)
    (inputs : List (StepIn K)) :
    (∀ i : Int, chirpTableIndex (run cst ext (construct cst ext junk) inputs) = some i →
        0 ≤ i ∧ i < ((2 ^ junk.m_settings.m_spreadFactor : Nat) : Int)) ∧
      (∀ j : Int, fftInputIndex (run cst ext (construct cst ext junk) inputs) = some j →
        0 ≤ j ∧ j < ((2 ^ junk.m_settings.m_spreadFactor : Nat) : Int)) ∧
      (run cst ext (construct cst ext junk) inputs).m_fftLength =
        2 ^ junk.m_settings.m_spreadFactor ∧
      (construct cst ext junk).m_downChirps.length = 2 * 2 ^ junk.m_settings.m_spreadFactor ∧
      (construct cst ext junk).m_upChirps.length = 2 * 2 ^ junk.m_settings.m_spreadFactor := by
  obtain ⟨_, h2, _, h4, _, h6, h7⟩ := indexInv_run cst ext (2 ^ junk.m_settings.m_spreadFactor)
    (Nat.pos_pow_of_pos _ (by norm_num)) inputs _ (indexInv_construct cst ext junk)
  obtain ⟨u1, u2, _⟩ := initSF_spec cst ext
    { junk with
      m_decodeMsg := none
      m_decoderMsgQueue := none
      m_demodActive := false
      m_state := LoRaStateReset
      m_chirp := 0
      m_chirp0 := 0
      m_magsqOnAvg := []
      m_magsqOffAvg := []
      m_magsqQueue := [] }
    junk.m_settings.m_spreadFactor junk.m_settings.m_deBits
  refine ⟨?_, ?_, h2, u2, u1⟩
  · intro i hi
    unfold chirpTableIndex at hi
    split at hi
    · cases hi
      exact h6 (by rename_i hs; rw [hs]; decide)
    · cases hi
      exact h6 (by rename_i hs; rw [hs]; decide)
    · rename_i hs
      exact absurd hs h4
    · cases hi
      exact h6 (by rename_i hs; rw [hs]; decide)
    · cases hi
  · intro j hj
    unfold fftInputIndex at hj
    split at hj
    · cases hj
      exact h7 (Or.inl (by assumption))
    · cases hj
      exact h7 (Or.inr (Or.inl (by assumption)))
    · rename_i hs
      exact absurd hs h4
    · cases hj
      exact h7 (Or.inr (Or.inr (by assumption)))
    · cases hj

/-- The peak squared magnitude of a block is not negative. -/
theorem blockMagsq_nonneg (cst : Consts) (s : Sink K) (x : StepIn K) :
    0 ≤ blockMagsq cst s x := by
  obtain ⟨_, hcase⟩ := argmax_loop x.fftOut cst.m_fftInterpolation x.imax0
    (some s.m_spectrumBuffer) (cst.m_fftInterpolation * s.m_fftLength)
  simp only [blockMagsq, argmaxFft, argmax]
  rcases hcase with ⟨h0, _⟩ | ⟨h0, _⟩
  · exact le_of_eq h0.symm
  · exact le_of_lt h0

/-- With a squelch of at most 10 tenths, a payload block that is not the first of its
message fails the acceptance test: the squelch tenths times its magnitude over 10 is at
most its magnitude, which the running peak already includes. -/
theorem squelch_rejects (cst : Consts) (s : Sink K) (x : StepIn K)
    (hcount : s.m_chirpCount ≠ 0) (hsq : s.m_settings.m_eomSquelchTenths ≤ 10) :
    ¬ accepted cst s x := by
  unfold accepted
  rintro (h | h | h)
  · exact hcount h
  · omega
  · have h0 := blockMagsq_nonneg cst s x
    have hle : ((s.m_settings.m_eomSquelchTenths : Int) : K) ≤ 10 := by exact_mod_cast hsq
    have h1 : ((s.m_settings.m_eomSquelchTenths : Int) : K) * blockMagsq cst s x / 10 ≤
        blockMagsq cst s x := by
      rw [div_le_iff₀ (by norm_num : (0 : K) < 10)]
      calc ((s.m_settings.m_eomSquelchTenths : Int) : K) * blockMagsq cst s x
          ≤ 10 * blockMagsq cst s x := mul_le_mul_of_nonneg_right hle h0
        _ = blockMagsq cst s x * 10 := mul_comm _ _
    exact absurd (lt_of_lt_of_le h h1) (not_lt.mpr (le_max_right _ _))

/-- The sample counter and the FFT length after one call of `processSample` in
ReadPayload. -/
theorem payload_step_counter (cst : Consts) (ext : Ext K) (x : StepIn K) (s : Sink K)
    (hst : s.m_state = LoRaStateReadPayload) :
    (processSample cst ext x s).m_fftLength = s.m_fftLength ∧
      (¬ blockCompletes s → (processSample cst ext x s).m_fftCounter = s.m_fftCounter + 1) ∧
      (blockCompletes s → (processSample cst ext x s).m_fftCounter = 0) := by
  obtain ⟨_, _, _, _, _, _, f7, f8, _⟩ := advanceChirp_frame (processSampleBody cst ext x s)
  unfold processSample blockCompletes
  rw [f7, f8]
  refine ⟨?_, ?_, ?_⟩
  · simp only [processSampleBody, hst]
    split_ifs <;> simp [handOff_fftLength]
  · intro hc
    simp only [processSampleBody, hst, hc, if_false]
  · intro hc
    simp only [processSampleBody, hst, hc, if_true]
    split_ifs <;> simp [handOff_fftCounter]

/-- The call that enters ReadPayload leaves the sample counter at 0 and keeps the
settings and the FFT length. -/
theorem enter_payload_counter (cst : Consts) (ext : Ext K) (x : StepIn K) (s : Sink K)
    (hst : s.m_state ≠ LoRaStateReadPayload)
    (hp : (processSample cst ext x s).m_state = LoRaStateReadPayload) :
    (processSample cst ext x s).m_fftCounter = 0 ∧
      (processSample cst ext x s).m_fftLength = s.m_fftLength ∧
      (processSample cst ext x s).m_settings = s.m_settings := by
  obtain ⟨f1, _, _, _, f5, _, f7, f8, _⟩ := advanceChirp_frame (processSampleBody cst ext x s)
  unfold processSample at hp ⊢
  rw [f1] at hp
  rw [f5, f7, f8]
  unfold processSampleBody at hp ⊢
  cases hs : s.m_state with
  | LoRaStateReadPayload => exact absurd hs hst
  | LoRaStateReset => simp [hs, reset] at hp
  | LoRaStateOther => simp [hs] at hp
  | LoRaStatePreambleResyc =>
    simp only [hs] at hp
    split at hp <;> simp [hs] at hp
  | LoRaStateDetectPreamble =>
    simp only [hs] at hp
    split at hp
    · split at hp
      · split at hp <;> simp [hs] at hp
      · simp [hs] at hp
    · simp [hs] at hp
  | LoRaStatePreamble =>
    simp only [hs] at hp
    split at hp
    · split at hp
      · split at hp <;> simp [hs] at hp
      · split at hp <;> simp [hs] at hp
    · simp [hs] at hp
  | LoRaStateSkipSFD =>
    simp only [hs] at hp ⊢
    split at hp
    · rename_i h1
      split at hp
      · rename_i h2
        simp [h1, h2, startPayload]
      · simp [hs] at hp
    · simp [hs] at hp
  | LoRaStateSlideSFD =>
    simp only [hs] at hp ⊢
    split at hp
    · rename_i h1
      split at hp
      · rename_i h2
        simp [h1, h2, startPayload]
      · simp [hs] at hp
    · simp [hs] at hp

/-- A run of `processSample` from ReadPayload with a squelch of at most 10 tenths and a
maximum of at least one symbol, the chirp count being `d` short of 1 and the sample
counter `e + 1` short of `m_fftLength`: the state is ReadPayload during the first
`d * m_fftLength + e` calls, and the next call completes a block that fails the
acceptance test and leaves a record of exactly one symbol. -/
theorem squelch_run (cst : Consts) (ext : Ext K) :
    ∀ (inputs : List (StepIn K)) (t : Sink K) (d e : Nat) (m : MsgDecodeSymbols K),
      t.m_state = LoRaStateReadPayload → 0 < t.m_fftLength →
      t.m_settings.m_eomSquelchTenths ≤ 10 → 1 ≤ t.m_settings.m_nbSymbolsMax →
      t.m_chirpCount + d = 1 →
      t.m_fftCounter + ((e : Int) + 1) = (t.m_fftLength : Int) →
      t.m_decodeMsg = some m → m.m_symbols.length = t.m_chirpCount →
      (inputs.length ≤ d * t.m_fftLength + e →
          (run cst ext t inputs).m_state = LoRaStateReadPayload) ∧
        (inputs.length = d * t.m_fftLength + e + 1 →
          (run cst ext t inputs).m_state = LoRaStateReset ∧
            ∃ m' : MsgDecodeSymbols K, (run cst ext t inputs).m_decodeMsg = some m' ∧
              m'.m_symbols.length = 1 ∧
              ∃ (pre : List (StepIn K)) (y : StepIn K), inputs = pre ++ [y] ∧
                (run cst ext t pre).m_state = LoRaStateReadPayload ∧
                blockCompletes (run cst ext t pre) ∧
                (run cst ext t pre).m_chirpCount = 1 ∧
                ¬ accepted cst (run cst ext t pre) y ∧
                HandedOff (run cst ext t pre) (run cst ext t inputs) m') := by
  intro inputs
  induction inputs with
  | nil =>
    intro t d e m hst _ _ _ _ _ _ _
    exact ⟨fun _ => hst, fun h => absurd h (by simp)⟩
  | cons x rest ih =>
    intro t d e m hst hL hsq hmax hd he hm hsym
    have hrun : ∀ l, run cst ext t (x :: l) = run cst ext (processSample cst ext x t) l :=
      fun _ => rfl
    rw [hrun]
    obtain ⟨c1, c2, c3⟩ := payload_step_counter cst ext x t hst
    have hlift :
        ((run cst ext (processSample cst ext x t) rest).m_state = LoRaStateReset ∧
          ∃ m' : MsgDecodeSymbols K,
            (run cst ext (processSample cst ext x t) rest).m_decodeMsg = some m' ∧
            m'.m_symbols.length = 1 ∧
            ∃ (pre : List (StepIn K)) (y : StepIn K), rest = pre ++ [y] ∧
              (run cst ext (processSample cst ext x t) pre).m_state = LoRaStateReadPayload ∧
              blockCompletes (run cst ext (processSample cst ext x t) pre) ∧
              (run cst ext (processSample cst ext x t) pre).m_chirpCount = 1 ∧
              ¬ accepted cst (run cst ext (processSample cst ext x t) pre) y ∧
              HandedOff (run cst ext (processSample cst ext x t) pre)
                (run cst ext (processSample cst ext x t) rest) m') →
        ((run cst ext (processSample cst ext x t) rest).m_state = LoRaStateReset ∧
          ∃ m' : MsgDecodeSymbols K,
            (run cst ext (processSample cst ext x t) rest).m_decodeMsg = some m' ∧
            m'.m_symbols.length = 1 ∧
            ∃ (pre : List (StepIn K)) (y : StepIn K), x :: rest = pre ++ [y] ∧
              (run cst ext t pre).m_state = LoRaStateReadPayload ∧
              blockCompletes (run cst ext t pre) ∧
              (run cst ext t pre).m_chirpCount = 1 ∧
              ¬ accepted cst (run cst ext t pre) y ∧
              HandedOff (run cst ext t pre)
                (run cst ext (processSample cst ext x t) rest) m') := by
      rintro ⟨r1, m', r2, r3, pre, y, hpre, r4, r5, r6, r7, r8⟩
      exact ⟨r1, m', r2, r3, x :: pre, y, by rw [hpre]; rfl, by rw [hrun]; exact r4,
        by rw [hrun]; exact r5, by rw [hrun]; exact r6, by rw [hrun]; exact r7,
        by rw [hrun]; exact r8⟩
    cases e with
    | succ e' =>
      have hc : ¬ blockCompletes t := by
        unfold blockCompletes
        intro h
        push_cast at he
        omega
      obtain ⟨p1, p2, p3, _, p5⟩ := payload_step_inside cst ext x t hst hc
      obtain ⟨q1, q2⟩ := ih (processSample cst ext x t) d e' m p1 (by rw [c1]; exact hL)
        (by rw [p5]; exact hsq) (by rw [p5]; exact hmax) (by rw [p2]; exact hd)
        (by rw [c1, c2 hc]; push_cast at he; omega) (by rw [p3]; exact hm)
        (by rw [p2]; exact hsym)
      rw [c1] at q1 q2
      exact ⟨fun h => q1 (by simp only [List.length_cons] at h; omega),
        fun h => hlift (q2 (by simp only [List.length_cons] at h; omega))⟩
    | zero =>
      have hc : blockCompletes t := by
        unfold blockCompletes
        simpa using he
      cases d with
      | zero =>
        have hcount : t.m_chirpCount ≠ 0 := by omega
        have hr := squelch_rejects cst t x hcount hsq
        obtain ⟨p1, _, m', p3, p4, _, p6⟩ := payload_step_rejected cst ext x t m hst hc hm hr
        refine ⟨fun h => absurd h (by simp), fun h => ?_⟩
        have hnil : rest = [] := by
          cases rest with
          | nil => rfl
          | cons y ys => simp at h
        subst hnil
        exact ⟨p1, m', p3, by rw [p4, hsym]; omega, [], x, rfl, hst, hc,
          by show t.m_chirpCount = 1; omega, hr, p6⟩
      | succ d' =>
        have hzero : t.m_chirpCount = 0 := by omega
        obtain ⟨p1, p2, p3, _, p5⟩ := payload_step_accepted cst ext x t m hst hc hm
          (Or.inl hzero) (by omega)
        obtain ⟨q1, q2⟩ := ih (processSample cst ext x t) d' (t.m_fftLength - 1)
          (m.pushBackSymbol (payloadSymbol cst t x)) p1 (by rw [c1]; exact hL)
          (by rw [p5]; exact hsq) (by rw [p5]; exact hmax) (by rw [p2]; omega)
          (by rw [c1, c3 hc]; omega) p3
          (by rw [p2]; simp [MsgDecodeSymbols.pushBackSymbol, hsym])
        rw [c1] at q1 q2
        have hmul : (d' + 1) * t.m_fftLength = d' * t.m_fftLength + t.m_fftLength :=
          Nat.succ_mul d' t.m_fftLength
        exact ⟨fun h => q1 (by simp only [List.length_cons] at h; omega),
          fun h => hlift (q2 (by simp only [List.length_cons] at h; omega))⟩

/-- Claim C29: with a squelch of at most 10 tenths (hence different from the sentinel
121) and a maximum of at least one symbol, every message that reaches ReadPayload is
ended by the squelch at its second payload block: from the call that enters
ReadPayload, the state is ReadPayload during `2 * m_fftLength - 1` calls; the next call
completes the second block, which fails the acceptance test because the running peak
already includes its magnitude, the state becomes Reset and the record handed off holds
exactly one symbol.  Magnitudes are exact and not negative. -/
theorem C29_squelch_at_most_ten (cst : Consts) (ext : Ext K) (x : StepIn K) (s : Sink K)
    (inputs : List (StepIn K))
    (hst : s.m_state ≠ LoRaStateReadPayload)
    (hp : (processSample cst ext x s).m_state = LoRaStateReadPayload)
    (hsq : s.m_settings.m_eomSquelchTenths ≤ 10)
    (hmax : 1 ≤ s.m_settings.m_nbSymbolsMax) (hlen : 0 < s.m_fftLength) :
    (inputs.length < 2 * s.m_fftLength →
        (run cst ext (processSample cst ext x s) inputs).m_state = LoRaStateReadPayload) ∧
      (inputs.length = 2 * s.m_fftLength →
        (run cst ext (processSample cst ext x s) inputs).m_state = LoRaStateReset ∧
          ∃ m' : MsgDecodeSymbols K,
            (run cst ext (processSample cst ext x s) inputs).m_decodeMsg = some m' ∧
            m'.m_symbols.length = 1 ∧
            ∃ (pre : List (StepIn K)) (y : StepIn K), inputs = pre ++ [y] ∧
              (run cst ext (processSample cst ext x s) pre).m_state = LoRaStateReadPayload ∧
              blockCompletes (run cst ext (processSample cst ext x s) pre) ∧
              (run cst ext (processSample cst ext x s) pre).m_chirpCount = 1 ∧
              ¬ accepted cst (run cst ext (processSample cst ext x s) pre) y ∧
              HandedOff (run cst ext (processSample cst ext x s) pre)
                (run cst ext (processSample cst ext x s) inputs) m') := by
  obtain ⟨⟨m, hm, hsym, _⟩, hcount⟩ := enter_payload cst ext x s hst hp
  obtain ⟨e1, e2, e3⟩ := enter_payload_counter cst ext x s hst hp
  obtain ⟨q1, q2⟩ := squelch_run cst ext inputs (processSample cst ext x s) 1
    (s.m_fftLength - 1) m hp (by rw [e2]; exact hlen) (by rw [e3]; exact hsq)
    (by rw [e3]; exact hmax) (by rw [hcount]) (by rw [e1, e2]; omega) hm
    (by rw [hsym, hcount]; rfl)
  rw [e2] at q1 q2
  exact ⟨fun h => q1 (by omega), fun h => q2 (by omega)⟩

/-- Instance of claim C29 on the sample sink with the squelch at 10 tenths: after the
entry into ReadPayload, a block with the symbol 1 and the peak 1 and a block with the
symbol 2 and the peak 25 end the message, and the record holds the symbol 1 only. -/
theorem C29_squelch_at_most_ten_witness :
    (run sampleConsts sampleExt
        (processSample sampleConsts sampleExt (stepOf 0 0 0)
          (run sampleConsts sampleExt sampleSinkSquelch10 (toPayload.take 37)))
        (payloadBlock 1 1 ++ payloadBlock 2 5)).m_state = LoRaStateReset ∧
      (run sampleConsts sampleExt
        (processSample sampleConsts sampleExt (stepOf 0 0 0)
          (run sampleConsts sampleExt sampleSinkSquelch10 (toPayload.take 37)))
        (payloadBlock 1 1 ++ payloadBlock 2 5)).m_decoderMsgQueue =
        some [{ m_symbols := [1], m_syncWord := 0, m_signalDb := some 0, m_noiseDb := some 0 }] :=
  ⟨((C29_squelch_at_most_ten sampleConsts sampleExt (stepOf 0 0 0)
    (run sampleConsts sampleExt sampleSinkSquelch10 (toPayload.take 37))
    (payloadBlock 1 1 ++ payloadBlock 2 5)
    (by decide!) (by decide!) (by decide!) (by decide!) (by decide!)).2 (by decide!)).1,
    by decide!⟩

end LoRaDemodSink
